import Mathlib

/-! # ESPFtpServer: a shallow embedding of `ESPFtpServer.cpp`

The FTP server keeps its whole session in the members of one `FtpServer`
object and is advanced by repeated calls of `handleFTP`.  The members are
modelled as the fields of a structure, every method as a function on that
structure.

Conventions of the embedding:

* a `char` is a `Char`; a C string held in a member of its own (`command`,
  `cwdName`) is the list of its characters up to, and without, the NUL;
* `cmdLine` is modelled as the array itself, because `parameters` is a pointer
  into it: `parameters` is the offset it points at, `iCL` the write index;
* a null pointer handed to `strcmp`, `strlen` or `atoi`, and a write past the
  end of an array (`cmdLine`, the buffers `path` and `buf` of `makePath`, the
  line buffer of `LIST`) are undefined behaviour.  Functions that can reach one
  return an `Option`, with `none` for that case;
* `int8_t`, `uint16_t` and `int32_t` values are integers reduced explicitly;
* constants of the missing header `ESP32FtpServer.h` (`FTP_CMD_SIZE`,
  `FTP_CWD_SIZE`, ...) are parameters.
-/

namespace ESPFtpServer

/-! ## Characters and C strings -/

/-- The byte that terminates a C string. -/
def NUL : Char := Char.ofNat 0

/-- Line feed, written `\n` in the source. -/
def LF : Char := Char.ofNat 10

/-- Carriage return, written `\r` in the source. -/
def CR : Char := Char.ofNat 13

/-- The backslash character. -/
def BSLASH : Char := Char.ofNat 92

/-- The C string that starts at the head of a byte array: its bytes up to the
first NUL.  The end of the modelled array acts as a terminator. -/
def cstr : List Char → List Char
  | [] => []
  | c :: cs => if c = NUL then [] else c :: cstr cs

/-- Length of the C string at the head of a byte array (`strlen`). -/
def strlen (mem : List Char) : Nat := (cstr mem).length

/-- Offset of the first occurrence of `c` in the C string at the head of `mem`
(`strchr`), `none` for the null pointer. -/
def strchr : List Char → Char → Option Nat
  | [], _ => none
  | x :: xs, c =>
    if x = c then some 0
    else if x = NUL then none
    else (strchr xs c).map (· + 1)

/-- Offset of the last occurrence of `c` in a C string value (`strrchr`). -/
def strrchr : List Char → Char → Option Nat
  | [], _ => none
  | x :: xs, c =>
    match strrchr xs c with
    | some k => some (k + 1)
    | none => if x = c then some 0 else none

/-- The loop `while (* (++ parameters) == ' ')` started with the pointer at
offset `p - 1`: the first offset from `p` on that does not hold a space. -/
def skipSpaces (mem : List Char) (p : Nat) : Nat :=
  p + ((mem.drop p).takeWhile (· = ' ')).length

/-- Conversion of an integer to `int8_t`. -/
def toInt8 (n : Int) : Int := (n + 128) % 256 - 128

/-- Conversion of an integer to `int32_t`. -/
def toInt32 (n : Int) : Int := (n + 2147483648) % 4294967296 - 2147483648

/-- Conversion of an integer to `int16_t`. -/
def toInt16 (n : Int) : Int := (n + 32768) % 65536 - 32768

/-- Conversion of an integer to `uint16_t`. -/
def toUInt16 (n : Int) : Nat := (n % 65536).toNat

/-- Conversion of an integer to `uint32_t`. -/
def toUInt32 (n : Int) : Nat := (n % 4294967296).toNat

/-! ## Sockets and files -/

/-- A `WiFiClient`: whether it is connected, the bytes received from the peer
that are not read yet, and the lines printed to the peer so far. -/
structure WiFiClient where
  connected : Bool := false
  rx : List Char := []
  tx : List String := []
deriving DecidableEq, Repr

/-- The method `println` of a client. -/
def WiFiClient.println (c : WiFiClient) (line : String) : WiFiClient :=
  { c with tx := c.tx ++ [line] }

/-- The method `write` of a client: one chunk of bytes. -/
def WiFiClient.write (c : WiFiClient) (bytes : List Char) : WiFiClient :=
  { c with tx := c.tx ++ [String.mk bytes] }

/-- The method `stop` of a client. -/
def WiFiClient.stop (c : WiFiClient) : WiFiClient :=
  { c with connected := false, rx := [] }

/-- A `File` object: whether it is open (its `operator bool`), its name and
size, the bytes still to be read from it and the bytes written to it. -/
structure File where
  isOpen : Bool := false
  name : List Char := []
  size : Nat := 0
  rd : List Char := []
  wr : List Char := []
  isDirectory : Bool := false
deriving DecidableEq, Repr

/-- The method `close` of a file. -/
def File.close (f : File) : File := { f with isOpen := false }

/-! ## The server object -/

/-- The members of `FtpServer`, together with the two global listeners
`ftpServer` and `dataServer` (the clients waiting to be accepted). -/
structure FtpServer where
  _FTP_USER : List Char := []
  _FTP_PASS : List Char := []
  dataIp : List Nat := [0, 0, 0, 0]
  dataPort : Nat := 0
  dataPassiveConn : Bool := false
  client : WiFiClient := {}
  data : WiFiClient := {}
  file : File := {}
  buf : List Char := []
  cmdLine : List Char := []
  cwdName : List Char := []
  command : List Char := []
  rnfrCmd : Bool := false
  parameters : Option Nat := none
  iCL : Nat := 0
  cmdStatus : Int := 0
  transferStatus : Int := 0
  millisTimeOut : Nat := 0
  millisDelay : Nat := 0
  millisEndConnection : Nat := 0
  millisBeginTrans : Nat := 0
  bytesTransferred : Nat := 0
  ftpServer : List WiFiClient := []
  dataServer : List WiFiClient := []
deriving Repr

/-- The C string `parameters` points at, `none` when the pointer is null. -/
def FtpServer.params (s : FtpServer) : Option (List Char) :=
  s.parameters.map (fun p => cstr (s.cmdLine.drop p))

/-- Print one reply line on the control connection. -/
def FtpServer.reply (s : FtpServer) (line : String) : FtpServer :=
  { s with client := s.client.println line }

/-! ## The line assembler `readChar` -/

/-- The branch of `readChar` taken when the byte read is a line feed: terminate
the line, split it into `command` and `parameters`.  The terminator is stored
at `cmdLine[iCL]` without a test of `iCL`: there is no result (`none`) when
`iCL` is `FTP_CMD_SIZE`, one past the last element of the array. -/
def readCharLF (FTP_CMD_SIZE : Nat) (s : FtpServer) : Option (Int × FtpServer) :=
  if FTP_CMD_SIZE ≤ s.iCL then none
  else
    let s := { s with cmdLine := s.cmdLine.set s.iCL NUL, command := [], parameters := none }
    if s.iCL = 0 then some (0, s)
    else
      let rc := toInt8 s.iCL
      match strchr s.cmdLine ' ' with
      | some k =>
        if k > 4 then some (-2, { s with parameters := some k, iCL := 0 })
        else
          some (rc, { s with command := cstr (s.cmdLine.take k)
                             parameters := some (skipSpaces s.cmdLine (k + 1))
                             iCL := 0 })
      | none =>
        if strlen s.cmdLine > 4 then some (-2, { s with iCL := 0 })
        else some (rc, { s with command := cstr s.cmdLine, iCL := 0 })

/-- One call of `FtpServer::readChar`: the return code and the new state; `none`
when the terminator of the line is stored past the end of `cmdLine`, which has
`FTP_CMD_SIZE` elements. -/
def readChar (FTP_CMD_SIZE : Nat) (s : FtpServer) : Option (Int × FtpServer) :=
  match s.client.rx with
  | [] => some (-1, s)
  | c0 :: rest =>
    let s := { s with client := { s.client with rx := rest } }
    let c := if c0 = BSLASH then '/' else c0
    let r : Option (Int × FtpServer) :=
      if c ≠ CR then
        if c ≠ LF then
          if s.iCL < FTP_CMD_SIZE then
            some (-1, { s with cmdLine := s.cmdLine.set s.iCL c, iCL := s.iCL + 1 })
          else some (-2, s)
        else readCharLF FTP_CMD_SIZE s
      else some (-1, s)
    r.map (fun r =>
      let rc := r.1
      let s := r.2
      let s := if rc > 0 then { s with command := s.command.map Char.toUpper } else s
      let s := if rc = -2 then { s with iCL := 0 }.reply "500 Syntax error" else s
      (rc, s))

/-- Call `readChar` `n` times in a row: the return codes in order, and the
final state. -/
def readCharN (FTP_CMD_SIZE : Nat) : Nat → FtpServer → Option (List Int × FtpServer)
  | 0, s => some ([], s)
  | n + 1, s =>
    match readChar FTP_CMD_SIZE s with
    | none => none
    | some r =>
      match readCharN FTP_CMD_SIZE n r.2 with
      | none => none
      | some rs => some (r.1 :: rs.1, rs.2)

/-- Call `readChar` `n` times in a row and then once more: the result of the
last call. -/
def readCharAfter (FTP_CMD_SIZE : Nat) (n : Nat) (s : FtpServer) : Option (Int × FtpServer) :=
  match readCharN FTP_CMD_SIZE n s with
  | none => none
  | some r => readChar FTP_CMD_SIZE r.2

/-- A server whose control client has sent `bytes`, with an empty line buffer
of `size` bytes. -/
def lineServer (size : Nat) (bytes : List Char) : FtpServer :=
  { cmdLine := List.replicate size NUL, client := { connected := true, rx := bytes } }

/-! ## Path resolution `makePath` -/

/-- The call `strncat (dst, src, n)` on C string values: `dst` followed by at
most `n` characters of `src`. -/
def strncat (dst src : List Char) (n : Nat) : List Char := dst ++ src.take n

/-- The method `FtpServer::makePath (fullName, param)`: the return value, the
C string left in `fullName`, and the new state.  The array that `fullName`
points at has `size` elements (`char path[FTP_CWD_SIZE]` in most callers,
`buf` in the branch `RNFR`).  A null `param` stands for `parameters`; `none` is
returned when a null pointer reaches `strcmp`, when `cwdName` is the empty
string (the source then reads the byte before `fullName`), and when `strcpy`
and `strncat` write past the end of the array: the copies are made before the
length is tested, and they write the string and its terminator. -/
def makePath (FTP_CWD_SIZE size : Nat) (s : FtpServer) (param : Option (List Char)) :
    Option (Bool × List Char × FtpServer) :=
  match (match param with
         | some p => some p
         | none => s.params) with
  | none => none
  | some param =>
    if param = [('/' : Char)] ∨ param.length = 0 then
      if size < 2 then none else some (true, ['/'], s)
    else
      let copied : Option (List Char) :=
        if param.head? ≠ some '/' then
          let fullName := s.cwdName
          match fullName.getLast? with
          | none => none
          | some last =>
            let fullName := if last ≠ '/' then strncat fullName ['/'] FTP_CWD_SIZE else fullName
            some (strncat fullName param FTP_CWD_SIZE)
        else some param
      match copied with
      | none => none
      | some fullName =>
        if size ≤ fullName.length then none
        else
          let strl : Nat := toUInt16 ((fullName.length : Int) - 1)
          let fullName :=
            if fullName.getD strl NUL = '/' ∧ strl > 1 then fullName.take strl else fullName
          if fullName.length < FTP_CWD_SIZE then some (true, fullName, s)
          else some (false, fullName, s.reply "500 Command line too long")

/-- The method `FtpServer::haveParameter`. -/
def haveParameter (s : FtpServer) : Bool × FtpServer :=
  match s.params with
  | some p => if p.length > 0 then (true, s) else (false, s.reply "501 No file name")
  | none => (false, s.reply "501 No file name")

/-! ## Formatting helpers -/

/-- The Arduino conversion `String (n)` of an unsigned number. -/
def decimal (n : Nat) : String := toString n

/-- The Arduino conversion `String (cstr)` of a C string. -/
def str (cs : List Char) : String := String.mk cs

/-- The conversion `String (parameters)`, which gives the empty string for a
null pointer. -/
def FtpServer.paramString (s : FtpServer) : String :=
  match s.params with
  | some p => str p
  | none => ""

/-- The `printf` conversion `%0wd` of an integer. -/
def fmtZero (w : Nat) (n : Int) : String :=
  let digits := (toString n.natAbs).toList
  if n < 0 then
    String.mk ('-' :: (List.replicate (w - 1 - digits.length) '0' ++ digits))
  else String.mk (List.replicate (w - digits.length) '0' ++ digits)

/-- The method `FtpServer::fillSpaces`.  The bound of its loop,
`length - input.length ()`, is computed in 32-bit unsigned arithmetic. -/
def fillSpaces (length : Nat) (input : String) : String :=
  String.mk (List.replicate (toUInt32 ((length : Int) - input.length)) ' ') ++ input

/-- The library function `isspace` in the C locale. -/
def isspace (c : Char) : Bool := c = ' ' || (9 ≤ c.toNat && c.toNat ≤ 13)

/-- Value of the longest run of decimal digits at the head of a string,
continuing from `acc`. -/
def atoiDigits : List Char → Nat → Nat
  | [], acc => acc
  | c :: cs, acc => if c.isDigit then atoiDigits cs (10 * acc + (c.toNat - 48)) else acc

/-- The library function `atoi` on a C string value: leading white space, an
optional sign, decimal digits; values out of the range of `long` saturate as
in `strtol`. -/
def atoi (cs : List Char) : Int :=
  let cs := cs.dropWhile isspace
  let v : Int :=
    match cs with
    | '-' :: ds => - (atoiDigits ds 0 : Int)
    | '+' :: ds => (atoiDigits ds 0 : Int)
    | ds => (atoiDigits ds 0 : Int)
  max (-2147483648) (min 2147483647 v)

/-! ## The filesystem and the build configuration -/

/-- One entry yielded by a directory iteration: the name the iterator reports,
whether it is a directory, its size and the fields of `gmtime` of its last
write time that the listing prints. -/
structure DirEntry where
  name : List Char := []
  isDirectory : Bool := false
  size : Nat := 0
  tm_year : Int := 70
  tm_mon : Int := 0
  tm_mday : Int := 1
  tm_hour : Int := 0
  tm_min : Int := 0
deriving DecidableEq, Repr

/-- The filesystem `fs::FS` the server is handed, as operations on a state of
an arbitrary type `σ`.  The filesystem is not part of the repository. -/
structure FS (σ : Type) where
  /-- the call `fs.exists (path)` -/
  exists_ : σ → List Char → Bool
  /-- the call `fs.remove (path)` -/
  remove : σ → List Char → Bool × σ
  /-- the call `fs.mkdir (path)` -/
  mkdir : σ → List Char → Bool × σ
  /-- the call `fs.rmdir (path)` -/
  rmdir : σ → List Char → Bool × σ
  /-- the call `fs.rename (from, to)` -/
  rename : σ → List Char → List Char → Bool × σ
  /-- the call `fs.open (path, mode)` with mode `r` or `w` -/
  open_ : σ → List Char → Char → File × σ
  /-- the directory handle `fs.open (path)` -/
  openDir : σ → List Char → File
  /-- the entries that iterating the directory `path` yields, in order -/
  entries : σ → List Char → List DirEntry

/-- The constants of the header `ESP32FtpServer.h` and of the platform. -/
structure Config where
  FTP_CMD_SIZE : Nat
  FTP_CWD_SIZE : Nat
  FTP_BUF_SIZE : Nat
  FTP_TIME_OUT : Nat
  FTP_CTRL_PORT : Nat
  FTP_DATA_PORT_PASV : Nat
  FTP_SERVER_VERSION : String
  /-- the variant compiled: `ESP32` defined, or else `ESP8266` -/
  ESP32 : Bool
  /-- the address `WiFi.localIP ()` -/
  localIP : List Nat

/-- Store a C string and its terminator at the head of a byte array. -/
def writeStr (mem : List Char) (cs : List Char) : List Char :=
  cs ++ NUL :: mem.drop (cs.length + 1)

/-- Store bytes at the head of a byte array. -/
def writeBytes (mem : List Char) (bytes : List Char) : List Char :=
  bytes ++ mem.drop bytes.length

/-- The name without its directory components: `fname.remove (0, pos + 1)` with
`pos = fname.lastIndexOf ("/")`. -/
def baseName (fname : List Char) : List Char :=
  match strrchr fname '/' with
  | some k => fname.drop (k + 1)
  | none => fname

/-! ## Session helpers -/

/-- The method `FtpServer::iniVariables`. -/
def iniVariables (cfg : Config) (s : FtpServer) : FtpServer :=
  { s with dataPort := cfg.FTP_DATA_PORT_PASV, dataPassiveConn := false
           cwdName := ['/'], rnfrCmd := false, transferStatus := 0 }

/-- The method `FtpServer::abortTransfer`. -/
def abortTransfer (s : FtpServer) : FtpServer :=
  let s :=
    if s.transferStatus > 0 then
      { s with file := s.file.close, data := s.data.stop }.reply "426 Transfer aborted"
    else s
  { s with transferStatus := 0 }

/-- The method `FtpServer::clientConnected`. -/
def clientConnected (cfg : Config) (s : FtpServer) : FtpServer :=
  let s := s.reply "220-Welcome to FTP for ESP8266/ESP32"
  let s := s.reply "220-By David Paiva"
  let s := s.reply ("220-Version " ++ cfg.FTP_SERVER_VERSION)
  let s := s.reply
    "220 Put your ftp client in passive mode, and do not attempt more than one connection"
  { s with iCL := 0 }

/-- The method `FtpServer::disconnectClient`. -/
def disconnectClient (s : FtpServer) : FtpServer :=
  let s := abortTransfer s
  let s := s.reply "221 Goodbye"
  { s with client := s.client.stop }

/-- The method `FtpServer::userIdentity`, called with the clock value `now`.
The second `strcmp` receives `parameters` also when it is null. -/
def userIdentity (now : Nat) (s : FtpServer) : Option (Bool × FtpServer) :=
  let s := if s.command ≠ "USER".toList then s.reply "500 Syntax error" else s
  match s.params with
  | none => none
  | some p =>
    if p ≠ s._FTP_USER then
      let s := s.reply "530 user not found"
      some (false, { s with millisDelay := toUInt32 (now + 100) })
    else
      let s := s.reply "331 OK. Password required"
      some (true, { s with cwdName := ['/'] })

/-- The method `FtpServer::userPassword`, called with the clock value `now`. -/
def userPassword (now : Nat) (s : FtpServer) : Option (Bool × FtpServer) :=
  if s.command ≠ "PASS".toList then
    let s := s.reply "500 Syntax error"
    some (false, { s with millisDelay := toUInt32 (now + 100) })
  else
    match s.params with
    | none => none
    | some p =>
      if p ≠ s._FTP_PASS then
        let s := s.reply "530 "
        some (false, { s with millisDelay := toUInt32 (now + 100) })
      else some (true, s.reply "230 OK.")

/-- The method `FtpServer::makeExistsPath (fs, path)`. -/
def makeExistsPath {σ : Type} (cfg : Config) (F : FS σ) (s : FtpServer) (fs : σ) :
    Option (Bool × List Char × FtpServer) :=
  match makePath cfg.FTP_CWD_SIZE cfg.FTP_CWD_SIZE s none with
  | none => none
  | some (false, path, s) => some (false, path, s)
  | some (true, path, s) =>
    if F.exists_ fs path then some (true, path, s)
    else some (false, path, s.reply ("550 " ++ str path ++ " not found."))

/-- The method `FtpServer::dataConnect`.  The wait of up to ten seconds for a
client of the data listener ends with the first waiting client, when there is
one, and without a client otherwise. -/
def dataConnect (s : FtpServer) : Bool × FtpServer :=
  let s :=
    if !s.data.connected then
      match s.dataServer with
      | [] => s
      | c :: rest => { s with data := c, dataServer := rest }
    else s
  (s.data.connected, s)

/-- The method `FtpServer::closeTransfer`, called with the clock value `now`. -/
def closeTransfer (now : Nat) (s : FtpServer) : FtpServer :=
  let deltaT : Nat := toUInt32 ((now : Int) - s.millisBeginTrans)
  let s :=
    if deltaT > 0 ∧ s.bytesTransferred > 0 then
      let s := s.reply "226-File successfully transferred"
      s.reply ("226 " ++ decimal deltaT ++ " ms, "
        ++ decimal (s.bytesTransferred / deltaT) ++ " kbytes/s")
    else s.reply "226 File successfully transferred"
  { s with file := s.file.close, data := s.data.stop }

/-- Division of two unsigned integers as the processor performs it: it has no
result when the divisor is zero. -/
def udiv (a b : Nat) : Option Nat := if b = 0 then none else some (a / b)

/-- The method `FtpServer::closeTransfer` again, with its division as a partial
operation: `none` when a division by zero is executed. -/
def closeTransferChecked (now : Nat) (s : FtpServer) : Option FtpServer :=
  let deltaT : Nat := toUInt32 ((now : Int) - s.millisBeginTrans)
  let r : Option FtpServer :=
    if deltaT > 0 ∧ s.bytesTransferred > 0 then
      match udiv s.bytesTransferred deltaT with
      | none => none
      | some q =>
        let s := s.reply "226-File successfully transferred"
        some (s.reply ("226 " ++ decimal deltaT ++ " ms, " ++ decimal q ++ " kbytes/s"))
    else some (s.reply "226 File successfully transferred")
  r.map (fun s => { s with file := s.file.close, data := s.data.stop })

/-! ## The transfer engine -/

/-- The method `FtpServer::doRetrieve`, called with the clock value `now`. -/
def doRetrieve (cfg : Config) (now : Nat) (s : FtpServer) : Bool × FtpServer :=
  if s.data.connected then
    let bytes := if s.file.isOpen then s.file.rd.take cfg.FTP_BUF_SIZE else []
    let nb : Int := toInt16 bytes.length
    let s := { s with file := { s.file with rd := s.file.rd.drop bytes.length }
                      buf := writeBytes s.buf bytes }
    if nb > 0 then
      (true, { s with data := s.data.write (s.buf.take nb.toNat)
                      bytesTransferred := toUInt32 (s.bytesTransferred + nb) })
    else (false, closeTransfer now s)
  else (false, closeTransfer now s)

/-- The method `FtpServer::doStore`, called with the clock value `now`. -/
def doStore (cfg : Config) (now : Nat) (s : FtpServer) : Bool × FtpServer :=
  if s.data.connected then
    let bytes := s.data.rx.take cfg.FTP_BUF_SIZE
    let nb : Int := toInt16 bytes.length
    let s := { s with data := { s.data with rx := s.data.rx.drop bytes.length }
                      buf := writeBytes s.buf bytes }
    if nb > 0 then
      (true, { s with file := { s.file with wr := s.file.wr ++ s.buf.take nb.toNat }
                      bytesTransferred := toUInt32 (s.bytesTransferred + nb) })
    else (true, s)
  else (false, closeTransfer now s)

/-! ## The command handlers of `processCommand` -/

/-- The new value of `cwdName` in the branch `CDUP`: the flag `ok` and the
buffer after the in-place cuts, then the fall-back to the root.  A null `pSep`
(no slash found) makes `pSep > cwdName` false. -/
def cdupTarget (pathExists : List Char → Bool) (cwdName : List Char) : List Char :=
  let r : Bool × List Char :=
    if cwdName.length > 1 then
      let cwd := if cwdName.getLast? = some '/' then cwdName.dropLast else cwdName
      match strrchr cwd '/' with
      | some k => if k > 0 then (pathExists (cwd.take k), cwd.take k) else (false, cwd)
      | none => (false, cwd)
    else (false, cwdName)
  if !r.1 then ['/'] else r.2

/-- The branch `CDUP` (also taken for `CWD ..`). -/
def processCDUP {σ : Type} (F : FS σ) (s : FtpServer) (fs : σ) : FtpServer :=
  let cwd := cdupTarget (F.exists_ fs) s.cwdName
  { s with cwdName := cwd }.reply ("250 Ok. Current directory is " ++ str cwd)

/-- The branch `CWD`. -/
def processCWD {σ : Type} (cfg : Config) (F : FS σ) (s : FtpServer) (fs : σ) :
    Option FtpServer :=
  match haveParameter s with
  | (false, s) => some s
  | (true, s) =>
    match makeExistsPath cfg F s fs with
    | none => none
    | some (false, _, s) => some s
    | some (true, path, s) =>
      some ({ s with cwdName := path }.reply ("250 Ok. Current directory is " ++ str path))

/-- The branch `PASV`. -/
def processPASV (cfg : Config) (s : FtpServer) : FtpServer :=
  let s := if s.data.connected then { s with data := s.data.stop } else s
  let s := { s with dataIp := cfg.localIP, dataPort := cfg.FTP_DATA_PORT_PASV }
  let s := s.reply ("227 Entering Passive Mode (" ++ decimal (s.dataIp.getD 0 0) ++ ","
    ++ decimal (s.dataIp.getD 1 0) ++ "," ++ decimal (s.dataIp.getD 2 0) ++ ","
    ++ decimal (s.dataIp.getD 3 0) ++ "," ++ decimal (s.dataPort >>> 8) ++ ","
    ++ decimal (s.dataPort &&& 255) ++ ").")
  { s with dataPassiveConn := true }

/-- The step `p = strchr (p, ','); ... atoi (++ p)` of the `PORT` branch on the
C string `cs`: the string `++ p` points at, `none` when `strchr` returned the
null pointer (the source then hands the address 1 to `atoi`). -/
def nextField (cs : List Char) : Option (List Char) :=
  (strchr cs ',').map (fun k => cs.drop (k + 1))

/-- The branch `PORT`.  The test `p == NULL` that guards the reply 501 is made
after `++ p`, so it can only fail to hold. -/
def processPORT (s : FtpServer) : Option FtpServer :=
  let s := if s.data.connected then { s with data := s.data.stop } else s
  match s.params with
  | none => none
  | some p0 =>
    match nextField p0 with
    | none => none
    | some p1 =>
      match nextField p1 with
      | none => none
      | some p2 =>
        match nextField p2 with
        | none => none
        | some p3 =>
          match nextField p3 with
          | none => none
          | some p4 =>
            match nextField p4 with
            | none => none
            | some p5 =>
              let ip := [(atoi p0 % 256).toNat, (atoi p1 % 256).toNat,
                         (atoi p2 % 256).toNat, (atoi p3 % 256).toNat]
              let port := toUInt16 (256 * atoi p4)
              let port := toUInt16 (port + atoi p5)
              let s := { s with dataIp := ip, dataPort := port }
              let s := s.reply "200 PORT command successful"
              some { s with dataPassiveConn := false }

/-- The branch `DELE`. -/
def processDELE {σ : Type} (cfg : Config) (F : FS σ) (s : FtpServer) (fs : σ) :
    Option (FtpServer × σ) :=
  match s.params with
  | none => none
  | some p =>
    if p.length = 0 then some (s.reply "501 No file name", fs)
    else
      match makePath cfg.FTP_CWD_SIZE cfg.FTP_CWD_SIZE s none with
      | none => none
      | some (false, _, s) => some (s, fs)
      | some (true, path, s) =>
        if !F.exists_ fs path then
          some (s.reply ("550 File " ++ s.paramString ++ " not found"), fs)
        else
          match F.remove fs path with
          | (true, fs) =>
            let s := s.reply ("250 Deleted " ++ s.paramString)
            let directory :=
              match strrchr path '/' with
              | some k => path.take k
              | none => path
            if !F.exists_ fs directory then some (s, (F.mkdir fs directory).2)
            else some (s, fs)
          | (false, fs) => some (s.reply ("450 Can't delete " ++ s.paramString), fs)

/-- The line that `LIST` formats with `sprintf` for one directory entry, the
name being handed to `%s` as a C string. -/
def listLine (e : DirEntry) : String :=
  let stamp := fmtZero 4 (e.tm_year + 1900) ++ "-" ++ fmtZero 2 (e.tm_mon + 1) ++ "-"
    ++ fmtZero 2 e.tm_mday ++ "  " ++ fmtZero 2 e.tm_hour ++ ":" ++ fmtZero 2 e.tm_min
  if e.isDirectory then stamp ++ "    <DIR>           " ++ str (baseName e.name)
  else stamp ++ "    " ++ fillSpaces 14 (decimal e.size) ++ "  " ++ str (baseName e.name)

/-- The line that `MLSD` prints for one directory entry. -/
def mlsdLine (e : DirEntry) : String :=
  if e.isDirectory then "Type=dir;Modify=20000101000000; " ++ str (baseName e.name)
  else "Type=file;Size=" ++ decimal e.size ++ ";" ++ "modify=20000101000000;" ++ " "
    ++ str (baseName e.name)

/-- Print one line per entry on the data connection. -/
def printEntries (fmt : DirEntry → String) (d : WiFiClient) (es : List DirEntry) : WiFiClient :=
  es.foldl (fun d e => d.println (fmt e)) d

/-- The reply that reports the 16-bit counter `nm` after `n` entries. -/
def matchesTotal (n : Nat) : String := "226 " ++ decimal (n % 65536) ++ " matches total"

/-- The call `sprintf (buffer, ...)` of the branch `LIST` into its local
`char buffer[80]`.  The flag `cString` tells what is handed to the last `%s`:
the C string `fname.c_str ()` (the variant for the ESP8266) or the `String`
object `fname` itself (the variant for the ESP32).  The result is the line;
there is none when the `String` object is handed to `%s`, and none when the
line and its terminator do not fit the buffer. -/
def sprintf80 (cString : Bool) (line : String) : Option String :=
  if cString = true ∧ line.length < 80 then some line else none

/-- The loop of the branch `LIST`: one `sprintf` into the buffer and one
`data.println (buffer)` per entry. -/
def printList (cString : Bool) (d : WiFiClient) : List DirEntry → Option WiFiClient
  | [] => some d
  | e :: es =>
    match sprintf80 cString (listLine e) with
    | none => none
    | some line => printList cString (d.println line) es

/-- The branch `LIST`; `none` when a call of `sprintf` has no defined result. -/
def processLIST {σ : Type} (cfg : Config) (F : FS σ) (s : FtpServer) (fs : σ) :
    Option FtpServer :=
  match dataConnect s with
  | (true, s) =>
    let s := s.reply "150 Accepted data connection"
    let es := F.entries fs s.cwdName
    let r : Option FtpServer :=
      if cfg.ESP32 then
        let dir := F.openDir fs s.cwdName
        if !dir.isOpen || !dir.isDirectory then
          some (s.reply ("550 Can't open directory " ++ str s.cwdName))
        else
          (printList false s.data es).map
            (fun d => { s with data := d }.reply (matchesTotal es.length))
      else
        (printList true s.data es).map
          (fun d => { s with data := d }.reply (matchesTotal es.length))
    r.map (fun s => { s with data := s.data.stop })
  | (false, s) =>
    let s := s.reply "425 No data connection"
    some { s with data := s.data.stop }

/-- The branch `MLSD`. -/
def processMLSD {σ : Type} (cfg : Config) (F : FS σ) (s : FtpServer) (fs : σ) : FtpServer :=
  match dataConnect s with
  | (false, s) => s.reply "425 No data connection MLSD"
  | (true, s) =>
    let s := s.reply "150 Accepted data connection"
    let es := F.entries fs s.cwdName
    let s :=
      if cfg.ESP32 && !F.exists_ fs s.cwdName then
        s.reply ("550 Can't open directory " ++ s.paramString)
      else
        let s := { s with data := printEntries mlsdLine s.data es }
        let s := s.reply "226-options: -a -l"
        s.reply (matchesTotal es.length)
    { s with data := s.data.stop }

/-- The branch `NLST`. -/
def processNLST {σ : Type} (F : FS σ) (s : FtpServer) (fs : σ) : FtpServer :=
  match dataConnect s with
  | (false, s) => s.reply "425 No data connection"
  | (true, s) =>
    let s := s.reply "150 Accepted data connection"
    let es := F.entries fs s.cwdName
    let s :=
      if !F.exists_ fs s.cwdName then
        s.reply ("550 Can't open directory " ++ s.paramString)
      else
        { s with data := printEntries (fun e => str e.name) s.data es }.reply
          (matchesTotal es.length)
    { s with data := s.data.stop }

/-- The branch `RETR`, called with the clock value `now`. -/
def processRETR {σ : Type} (cfg : Config) (F : FS σ) (now : Nat) (s : FtpServer) (fs : σ) :
    Option (FtpServer × σ) :=
  match s.params with
  | none => none
  | some p =>
    if p.length = 0 then some (s.reply "501 No file name", fs)
    else
      match makePath cfg.FTP_CWD_SIZE cfg.FTP_CWD_SIZE s none with
      | none => none
      | some (false, _, s) => some (s, fs)
      | some (true, path, s) =>
        let r := F.open_ fs path 'r'
        let s := { s with file := r.1 }
        let fs := r.2
        if !s.file.isOpen then
          some (s.reply ("550 File " ++ s.paramString ++ " not found"), fs)
        else
          match dataConnect s with
          | (false, s) => some (s.reply "425 No data connection", fs)
          | (true, s) =>
            let s := s.reply ("150-Connected to port " ++ decimal s.dataPort)
            let s := s.reply ("150 " ++ decimal s.file.size ++ " bytes to download")
            some ({ s with millisBeginTrans := now, bytesTransferred := 0
                           transferStatus := 1 }, fs)

/-- The branch `STOR`, called with the clock value `now`. -/
def processSTOR {σ : Type} (cfg : Config) (F : FS σ) (now : Nat) (s : FtpServer) (fs : σ) :
    Option (FtpServer × σ) :=
  match s.params with
  | none => none
  | some p =>
    if p.length = 0 then some (s.reply "501 No file name", fs)
    else
      match makePath cfg.FTP_CWD_SIZE cfg.FTP_CWD_SIZE s none with
      | none => none
      | some (false, _, s) => some (s, fs)
      | some (true, path, s) =>
        let r := F.open_ fs path 'w'
        let s := { s with file := r.1 }
        let fs := r.2
        if !s.file.isOpen then
          some (s.reply ("451 Can't open/create " ++ s.paramString), fs)
        else
          match dataConnect s with
          | (false, s) =>
            let s := s.reply "425 No data connection"
            some ({ s with file := s.file.close }, fs)
          | (true, s) =>
            let s := s.reply ("150 Connected to port " ++ decimal s.dataPort)
            some ({ s with millisBeginTrans := now, bytesTransferred := 0
                           transferStatus := 2 }, fs)

/-- The branch `MKD`. -/
def processMKD {σ : Type} (cfg : Config) (F : FS σ) (s : FtpServer) (fs : σ) :
    Option (FtpServer × σ) :=
  match haveParameter s with
  | (false, s) => some (s, fs)
  | (true, s) =>
    match makePath cfg.FTP_CWD_SIZE cfg.FTP_CWD_SIZE s none with
    | none => none
    | some (false, _, s) => some (s, fs)
    | some (true, path, s) =>
      if F.exists_ fs path then
        some (s.reply ("521 Can't create \"" ++ s.paramString ++ "\", Directory exists"), fs)
      else
        match F.mkdir fs path with
        | (true, fs) => some (s.reply ("257 \"" ++ s.paramString ++ "\" created"), fs)
        | (false, fs) => some (s.reply ("550 Can't create \"" ++ s.paramString ++ "\""), fs)

/-- The branch `RMD`. -/
def processRMD {σ : Type} (cfg : Config) (F : FS σ) (s : FtpServer) (fs : σ) :
    Option (FtpServer × σ) :=
  match haveParameter s with
  | (false, s) => some (s, fs)
  | (true, s) =>
    match makePath cfg.FTP_CWD_SIZE cfg.FTP_CWD_SIZE s none with
    | none => none
    | some (false, _, s) => some (s, fs)
    | some (true, path, s) =>
      match F.rmdir fs path with
      | (true, fs) => some (s.reply ("250 \"" ++ s.paramString ++ "\" deleted"), fs)
      | (false, fs) =>
        if F.exists_ fs path then
          some (s.reply ("550 Can't remove \"" ++ s.paramString
            ++ "\". Directory not empty?"), fs)
        else some (s.reply ("250 \"" ++ s.paramString ++ "\" deleted"), fs)

/-- The branch `RNFR`.  The source path is built in the transfer buffer `buf`. -/
def processRNFR {σ : Type} (cfg : Config) (F : FS σ) (s : FtpServer) (fs : σ) :
    Option FtpServer :=
  let s := { s with buf := s.buf.set 0 NUL }
  match s.params with
  | none => none
  | some p =>
    if p.length = 0 then some (s.reply "501 No file name")
    else
      match makePath cfg.FTP_CWD_SIZE cfg.FTP_BUF_SIZE s none with
      | none => none
      | some (false, path, s) => some { s with buf := writeStr s.buf path }
      | some (true, path, s) =>
        let s := { s with buf := writeStr s.buf path }
        if !F.exists_ fs (cstr s.buf) then
          some (s.reply ("550 File " ++ s.paramString ++ " not found"))
        else
          let s := s.reply "350 RNFR accepted - file exists, ready for destination"
          some { s with rnfrCmd := true }

/-- The branch `RNTO`. -/
def processRNTO {σ : Type} (cfg : Config) (F : FS σ) (s : FtpServer) (fs : σ) :
    Option (FtpServer × σ) :=
  let r : Option (FtpServer × σ) :=
    if strlen s.buf = 0 ∨ !s.rnfrCmd then some (s.reply "503 Need RNFR before RNTO", fs)
    else
      match s.params with
      | none => none
      | some p =>
        if p.length = 0 then some (s.reply "501 No file name", fs)
        else
          match makePath cfg.FTP_CWD_SIZE cfg.FTP_CWD_SIZE s none with
          | none => none
          | some (false, _, s) => some (s, fs)
          | some (true, path, s) =>
            if F.exists_ fs path then
              some (s.reply ("553 " ++ s.paramString ++ " already exists"), fs)
            else
              match F.rename fs (cstr s.buf) path with
              | (true, fs) => some (s.reply "250 File successfully renamed or moved", fs)
              | (false, fs) => some (s.reply "451 Rename/move failure", fs)
  r.map (fun x => ({ x.1 with rnfrCmd := false }, x.2))

/-- The branch `SIZE`. -/
def processSIZE {σ : Type} (cfg : Config) (F : FS σ) (s : FtpServer) (fs : σ) :
    Option (FtpServer × σ) :=
  match s.params with
  | none => none
  | some p =>
    if p.length = 0 then some (s.reply "501 No file name", fs)
    else
      match makePath cfg.FTP_CWD_SIZE cfg.FTP_CWD_SIZE s none with
      | none => none
      | some (false, _, s) => some (s, fs)
      | some (true, path, s) =>
        let r := F.open_ fs path 'r'
        let s := { s with file := r.1 }
        let fs := r.2
        if !s.file.isOpen then some (s.reply ("450 Can't open " ++ s.paramString), fs)
        else
          let s := s.reply ("213 " ++ decimal s.file.size)
          some ({ s with file := s.file.close }, fs)

/-- The branch `MLST`. -/
def processMLST {σ : Type} (cfg : Config) (F : FS σ) (s : FtpServer) (fs : σ) :
    Option (FtpServer × σ) :=
  match s.params with
  | none => none
  | some p =>
    if p.length = 0 then some (s.reply "501 No file name", fs)
    else
      match makePath cfg.FTP_CWD_SIZE cfg.FTP_CWD_SIZE s none with
      | none => none
      | some (false, _, s) => some (s, fs)
      | some (true, path, s) =>
        let r := F.open_ fs path 'r'
        let s := { s with file := r.1 }
        let fs := r.2
        if !s.file.isOpen then some (s.reply ("450 Can't open " ++ s.paramString), fs)
        else
          let s := s.reply "250-Listing /UPDATES"
          let s := s.reply (" Type=file;Size=" ++ decimal s.file.size
            ++ "Modify=20000101010000;create=20000101010000; " ++ str s.file.name)
          let s := s.reply "250 End."
          some ({ s with file := s.file.close }, fs)

/-- The comparison `strcmp (parameters, lit)` followed by one of two replies,
as in the branches `MODE`, `STRU` and `TYPE`. -/
def replyOnParam (s : FtpServer) (cases : List (List Char × String)) (other : String) :
    Option FtpServer :=
  match s.params with
  | none => none
  | some p =>
    match cases.find? (fun c => c.1 = p) with
    | some c => some (s.reply c.2)
    | none => some (s.reply other)

/-! ## The dispatcher `processCommand` -/

/-- The method `FtpServer::processCommand`, called with the clock value `now`:
its return value, the new state of the server and of the filesystem; `none`
when a branch hands a null `parameters` to `strcmp`, `strlen` or `atoi`. -/
def processCommand {σ : Type} (cfg : Config) (F : FS σ) (now : Nat) (s : FtpServer) (fs : σ) :
    Option (Bool × FtpServer × σ) :=
  let ok (s : FtpServer) : Option (Bool × FtpServer × σ) := some (true, s, fs)
  let ok2 (r : Option (FtpServer × σ)) : Option (Bool × FtpServer × σ) :=
    r.map (fun x => (true, x.1, x.2))
  let cmd := s.command
  if cmd = "CDUP".toList then ok (processCDUP F s fs)
  else if cmd = "CWD".toList then
    match s.params with
    | none => none
    | some p =>
      if p = "..".toList then ok (processCDUP F s fs)
      else (processCWD cfg F s fs).bind ok
  else if cmd = "PWD".toList then
    ok (s.reply ("257 \"" ++ str s.cwdName ++ "\" is your current directory"))
  else if cmd = "QUIT".toList then some (false, disconnectClient s, fs)
  else if cmd = "MODE".toList then
    (replyOnParam s [("S".toList, "200 S Ok")] "504 Only S (tream) is supported").bind ok
  else if cmd = "PASV".toList then ok (processPASV cfg s)
  else if cmd = "PORT".toList then (processPORT s).bind ok
  else if cmd = "STRU".toList then
    (replyOnParam s [("F".toList, "200 F Ok")] "504 Only F (ile) is supported").bind ok
  else if cmd = "TYPE".toList then
    (replyOnParam s [("A".toList, "200 TYPE is now ASCII"),
      ("I".toList, "200 TYPE is now 8-bit binary")] "504 Unknown TYPE").bind ok
  else if cmd = "ABOR".toList then ok ((abortTransfer s).reply "226 Data connection closed")
  else if cmd = "DELE".toList then ok2 (processDELE cfg F s fs)
  else if cmd = "LIST".toList then (processLIST cfg F s fs).bind ok
  else if cmd = "MLSD".toList then ok (processMLSD cfg F s fs)
  else if cmd = "NLST".toList then ok (processNLST F s fs)
  else if cmd = "NOOP".toList then ok (s.reply "200 Zzz...")
  else if cmd = "RETR".toList then ok2 (processRETR cfg F now s fs)
  else if cmd = "STOR".toList then ok2 (processSTOR cfg F now s fs)
  else if cmd = "MKD".toList then ok2 (processMKD cfg F s fs)
  else if cmd = "RMD".toList then ok2 (processRMD cfg F s fs)
  else if cmd = "RNFR".toList then (processRNFR cfg F s fs).bind ok
  else if cmd = "RNTO".toList then ok2 (processRNTO cfg F s fs)
  else if cmd = "FEAT".toList then
    let s := s.reply "211-Extensions supported:"
    let s := s.reply " MLSD"
    let s := s.reply " MLST"
    ok (s.reply "211 End.")
  else if cmd = "MDTM".toList then ok (s.reply "550 Unable to retrieve time")
  else if cmd = "SIZE".toList then ok2 (processSIZE cfg F s fs)
  else if cmd = "MLST".toList then ok2 (processMLST cfg F s fs)
  else if cmd = "SITE".toList then ok (s.reply ("500 Unknown SITE command " ++ s.paramString))
  else ok (s.reply "500 Unknown command")

/-! ## The session manager `handleFTP` -/

/-- The method `FtpServer::begin`. -/
def begin_ (cfg : Config) (uname pword : List Char) (s : FtpServer) : FtpServer :=
  let s := { s with _FTP_USER := uname, _FTP_PASS := pword
                    millisTimeOut := toUInt32 ((cfg.FTP_TIME_OUT : Int) * 60 * 1000)
                    millisDelay := 0, cmdStatus := 0 }
  iniVariables cfg s

/-- The part of `handleFTP` that runs once a line has been parsed
(`readChar () > 0`), for the states 3, 4 and 5. -/
def handleLine {σ : Type} (cfg : Config) (F : FS σ) (now : Nat) (s : FtpServer) (fs : σ) :
    Option (FtpServer × σ) :=
  if s.cmdStatus = 3 then
    match userIdentity now s with
    | none => none
    | some (true, s) => some ({ s with cmdStatus := 4 }, fs)
    | some (false, s) => some ({ s with cmdStatus := 0 }, fs)
  else if s.cmdStatus = 4 then
    match userPassword now s with
    | none => none
    | some (true, s) =>
      some ({ s with cmdStatus := 5
                     millisEndConnection := toUInt32 (now + s.millisTimeOut) }, fs)
    | some (false, s) => some ({ s with cmdStatus := 0 }, fs)
  else if s.cmdStatus = 5 then
    match processCommand cfg F now s fs with
    | none => none
    | some (false, s, fs) => some ({ s with cmdStatus := 0 }, fs)
    | some (true, s, fs) =>
      some ({ s with millisEndConnection := toUInt32 (now + s.millisTimeOut) }, fs)
  else some (s, fs)

/-- The last statement of `handleFTP`: one step of the running transfer, or
else the test of the idle deadline. -/
def handleTransfer (cfg : Config) (now : Nat) (s : FtpServer) : FtpServer :=
  if s.transferStatus = 1 then
    match doRetrieve cfg now s with
    | (false, s) => { s with transferStatus := 0 }
    | (true, s) => s
  else if s.transferStatus = 2 then
    match doStore cfg now s with
    | (false, s) => { s with transferStatus := 0 }
    | (true, s) => s
  else if s.cmdStatus > 2 ∧ ¬ (toInt32 ((s.millisEndConnection : Int) - now) > 0) then
    let s := s.reply "530 Timeout"
    { s with millisDelay := toUInt32 (now + 200), cmdStatus := 0 }
  else s

/-- The method `FtpServer::handleFTP (fs)`, one tick of the server, with `now`
the value of `millis ()` during the tick. -/
def handleFTP {σ : Type} (cfg : Config) (F : FS σ) (now : Nat) (s : FtpServer) (fs : σ) :
    Option (FtpServer × σ) :=
  if toInt32 ((s.millisDelay : Int) - now) > 0 then some (s, fs)
  else
    let s :=
      match s.ftpServer with
      | [] => s
      | c :: rest => { s with client := c, ftpServer := rest }
    let r : Option (FtpServer × σ) :=
      if s.cmdStatus = 0 then
        let s := if s.client.connected then disconnectClient s else s
        some ({ s with cmdStatus := 1 }, fs)
      else if s.cmdStatus = 1 then
        let s := iniVariables cfg (abortTransfer s)
        some ({ s with cmdStatus := 2 }, fs)
      else if s.cmdStatus = 2 then
        if s.client.connected then
          let s := clientConnected cfg s
          some ({ s with millisEndConnection := toUInt32 (now + 10 * 1000), cmdStatus := 3 }, fs)
        else some (s, fs)
      else
        match readChar cfg.FTP_CMD_SIZE s with
        | none => none
        | some (rc, s) =>
          if rc > 0 then handleLine cfg F now s fs
          else if !s.client.connected then some ({ s with cmdStatus := 1 }, fs)
          else some (s, fs)
    r.map (fun x => (handleTransfer cfg now x.1, x.2))

/-- Run `handleFTP` for `n` ticks with the clock at `now`. -/
def ticks {σ : Type} (cfg : Config) (F : FS σ) (now : Nat) :
    Nat → FtpServer → σ → Option (FtpServer × σ)
  | 0, s, fs => some (s, fs)
  | n + 1, s, fs =>
    match handleFTP cfg F now s fs with
    | none => none
    | some (s, fs) => ticks cfg F now n s fs

/-! ## The parts of a tick, and the runs of a session -/

/-- The statement `if (ftpServer.hasClient ()) { client.stop (); client =
ftpServer.available (); }` of `handleFTP`. -/
def acceptClient (s : FtpServer) : FtpServer :=
  match s.ftpServer with
  | [] => s
  | c :: rest => { s with client := c, ftpServer := rest }

/-- The statements of `handleFTP` that depend on `cmdStatus`, between the
acceptance of a new client and the transfer step. -/
def handleSession {σ : Type} (cfg : Config) (F : FS σ) (now : Nat) (s : FtpServer) (fs : σ) :
    Option (FtpServer × σ) :=
  if s.cmdStatus = 0 then
    let s := if s.client.connected then disconnectClient s else s
    some ({ s with cmdStatus := 1 }, fs)
  else if s.cmdStatus = 1 then
    let s := iniVariables cfg (abortTransfer s)
    some ({ s with cmdStatus := 2 }, fs)
  else if s.cmdStatus = 2 then
    if s.client.connected then
      let s := clientConnected cfg s
      some ({ s with millisEndConnection := toUInt32 (now + 10 * 1000), cmdStatus := 3 }, fs)
    else some (s, fs)
  else
    match readChar cfg.FTP_CMD_SIZE s with
    | none => none
    | some (rc, s) =>
      if rc > 0 then handleLine cfg F now s fs
      else if !s.client.connected then some ({ s with cmdStatus := 1 }, fs)
      else some (s, fs)

/-- The state that a tick of `handleFTP` at the clock value `now` hands to
`processCommand`, when the tick completes a line in the state 5. -/
def dispatched (cfg : Config) (now : Nat) (s : FtpServer) : Option FtpServer :=
  if toInt32 ((s.millisDelay : Int) - now) > 0 then none
  else if (acceptClient s).cmdStatus = 5 then
    match readChar cfg.FTP_CMD_SIZE (acceptClient s) with
    | none => none
    | some (rc, t) => if rc > 0 then some t else none
  else none

/-- What the peers do between two ticks: bytes arrive, connections are closed,
new clients wait on the listeners.  The members other than the sockets stay. -/
def PeerStep (s t : FtpServer) : Prop :=
  ∃ c d l1 l2, t = { s with client := c, data := d, ftpServer := l1, dataServer := l2 }

/-- The states reached from the start of a session (`iniVariables`) by ticks of
`handleFTP`, none of which dispatches the command `RNFR`, and by steps of the
peers. -/
inductive NoRnfrRun {σ : Type} (cfg : Config) (F : FS σ) : FtpServer → Prop
  | start (s : FtpServer) : NoRnfrRun cfg F (iniVariables cfg s)
  | peer (s t : FtpServer) : NoRnfrRun cfg F s → PeerStep s t → NoRnfrRun cfg F t
  | tick (now : Nat) (s : FtpServer) (fs : σ) (s' : FtpServer) (fs' : σ) :
      NoRnfrRun cfg F s →
      (∀ d, dispatched cfg now s = some d → d.command ≠ "RNFR".toList) →
      handleFTP cfg F now s fs = some (s', fs') → NoRnfrRun cfg F s'

/-- The filesystem `F` with a record of the calls of `rename`: the pairs of
source and destination, in the order of the calls. -/
def recordRename {σ : Type} (F : FS σ) : FS (σ × List (List Char × List Char)) where
  exists_ st path := F.exists_ st.1 path
  remove st path := ((F.remove st.1 path).1, (F.remove st.1 path).2, st.2)
  mkdir st path := ((F.mkdir st.1 path).1, (F.mkdir st.1 path).2, st.2)
  rmdir st path := ((F.rmdir st.1 path).1, (F.rmdir st.1 path).2, st.2)
  rename st src dst :=
    ((F.rename st.1 src dst).1, (F.rename st.1 src dst).2, st.2 ++ [(src, dst)])
  open_ st path mode := ((F.open_ st.1 path mode).1, (F.open_ st.1 path mode).2, st.2)
  openDir st path := F.openDir st.1 path
  entries st path := F.entries st.1 path

/-- The state `s` in which the line `verb arg` is dispatched next after the
state `t`: no transfer step and no other command has changed `buf`, `rnfrCmd`
and `cwdName` in between. -/
def NextLine (t s : FtpServer) (verb arg : List Char) : Prop :=
  s.buf = t.buf ∧ s.rnfrCmd = t.rnfrCmd ∧ s.cwdName = t.cwdName
    ∧ s.command = verb ∧ s.params = some arg

/-- The number of lines `530 Timeout` among the lines printed on a client. -/
def count530 (c : WiFiClient) : Nat := c.tx.count "530 Timeout"

/-- The control client that a tick at the clock value `now` talks to: the
one waiting on the listener when there is one, unless the delay is running. -/
def tickClient (now : Nat) (s : FtpServer) : WiFiClient :=
  if toInt32 ((s.millisDelay : Int) - now) > 0 then s.client else (acceptClient s).client

/-- Run `handleFTP` once at each of the clock values of a list, in order. -/
def ticksAt {σ : Type} (cfg : Config) (F : FS σ) :
    List Nat → FtpServer → σ → Option (FtpServer × σ)
  | [], s, fs => some (s, fs)
  | now :: rest, s, fs =>
    match handleFTP cfg F now s fs with
    | none => none
    | some (s, fs) => ticksAt cfg F rest s fs

/-- A session without client: no transfer, nobody waiting on the listener, and
the state 0, or the state 1 or 2 with the control client not connected. -/
def NoClient (s : FtpServer) : Prop :=
  s.transferStatus = 0 ∧ s.ftpServer = []
    ∧ (s.cmdStatus = 0 ∨ ((s.cmdStatus = 1 ∨ s.cmdStatus = 2) ∧ s.client.connected = false))

/-! ## A small filesystem for concrete runs -/

/-- A filesystem given by the list of the paths that exist in it. -/
def listFS : FS (List (List Char)) where
  exists_ fs path := decide (path ∈ fs)
  remove fs path := (decide (path ∈ fs), fs.filter (· ≠ path))
  mkdir fs path := (!decide (path ∈ fs), if path ∈ fs then fs else fs ++ [path])
  rmdir fs path := (decide (path ∈ fs), fs.filter (· ≠ path))
  rename fs src dst :=
    (decide (src ∈ fs), if src ∈ fs then fs.filter (· ≠ src) ++ [dst] else fs)
  open_ fs path mode :=
    if mode = 'w' then
      ({ isOpen := true, name := path }, if path ∈ fs then fs else fs ++ [path])
    else ({ isOpen := decide (path ∈ fs), name := path }, fs)
  openDir fs path := { isOpen := decide (path ∈ fs), name := path, isDirectory := true }
  entries _ _ := []

/-- The constants of the upstream header: buffers of `255 + 8` bytes, control
port 21, passive data port 50009, a time-out of five minutes. -/
def defaultConfig : Config where
  FTP_CMD_SIZE := 263
  FTP_CWD_SIZE := 263
  FTP_BUF_SIZE := 1024
  FTP_TIME_OUT := 5
  FTP_CTRL_PORT := 21
  FTP_DATA_PORT_PASV := 50009
  FTP_SERVER_VERSION := "FTP-2017-10-18"
  ESP32 := true
  localIP := [192, 168, 1, 10]

/-- A session of user `esp32` in state `cmdStatus`, under `defaultConfig`, whose
control client has sent `bytes`; the idle deadline lies at 300000 ms. -/
def session (cmdStatus : Int) (bytes : List Char) : FtpServer :=
  { _FTP_USER := "esp32".toList, _FTP_PASS := "secret".toList
    client := { connected := true, rx := bytes }
    buf := List.replicate 1024 NUL, cmdLine := List.replicate 263 NUL
    cwdName := ['/'], cmdStatus := cmdStatus
    millisTimeOut := 300000, millisEndConnection := 300000 }

/-- A ready session with a transfer in the direction `transferStatus` (1 to
retrieve, 2 to store): the file `/f` is open with the bytes `fileBytes` still
to be read, the data socket is connected and has received `dataBytes`. -/
def transferSession (transferStatus : Int) (fileBytes dataBytes : List Char) : FtpServer :=
  { session 5 [] with
    transferStatus := transferStatus
    file := { isOpen := true, name := "/f".toList, size := fileBytes.length, rd := fileBytes }
    data := { connected := true, rx := dataBytes } }

/-- The state `s` once its line assembler has parsed the line `verb arg`. -/
def withLine (s : FtpServer) (verb arg : List Char) : FtpServer :=
  { s with command := verb
           cmdLine := writeStr s.cmdLine (verb ++ ' ' :: arg)
           parameters := some (verb.length + 1) }

/-- The state `s` once its line assembler has parsed the line `verb`, which has
no argument. -/
def withVerb (s : FtpServer) (verb : List Char) : FtpServer :=
  { s with command := verb, cmdLine := writeStr s.cmdLine verb, parameters := none }

/-- The indices of `cmdLine` that one call of `readChar` writes: `iCL` for a
byte that is stored (`cmdLine[iCL ++] = c`, under the test `iCL <
FTP_CMD_SIZE`) and `iCL` for the terminator stored when the line feed arrives
(`cmdLine[iCL] = 0`, under no test). -/
def cmdLineWrites (FTP_CMD_SIZE : Nat) (s : FtpServer) : List Nat :=
  match s.client.rx with
  | [] => []
  | c0 :: _ =>
    let c := if c0 = BSLASH then '/' else c0
    if c ≠ CR then
      if c ≠ LF then
        if s.iCL < FTP_CMD_SIZE then [s.iCL] else []
      else [s.iCL]
    else []

/-- The indices of `command` that one call of `readChar` writes when the line
feed arrives: `command[0] = 0`; then, for a line that is not empty, the `k`
bytes of `strncpy (command, cmdLine, k)` and `command[k] = 0` when the first
space is at offset `k` of at most 4, or the bytes of `strcpy (command,
cmdLine)` with the terminator when the line has no space and at most 4
characters; then the loop of `toupper` over `strlen (command)` bytes when the
return code is positive. -/
def commandWrites (FTP_CMD_SIZE : Nat) (s : FtpServer) : List Nat :=
  match s.client.rx with
  | [] => []
  | c0 :: _ =>
    let c := if c0 = BSLASH then '/' else c0
    if c ≠ CR ∧ c = LF then
      let line := s.cmdLine.set s.iCL NUL
      let copy : List Nat :=
        if s.iCL = 0 then []
        else
          match strchr line ' ' with
          | some k => if k > 4 then [] else List.range k ++ [k]
          | none => if strlen line > 4 then [] else List.range (strlen line + 1)
      let upper : List Nat :=
        match readChar FTP_CMD_SIZE s with
        | none => []
        | some r => if r.1 > 0 then List.range r.2.command.length else []
      [0] ++ copy ++ upper
    else []

/-- The states reached from the start of a session (`iniVariables`) by calls of
`userIdentity` and of `processCommand` (any verb, any argument, any state of
the filesystem), by whole ticks of `handleFTP`, and by steps that leave
`cwdName` as it is. -/
inductive CwdRun {σ : Type} (cfg : Config) (F : FS σ) : FtpServer → Prop
  | start (s : FtpServer) : CwdRun cfg F (iniVariables cfg s)
  | other (s t : FtpServer) : CwdRun cfg F s → t.cwdName = s.cwdName → CwdRun cfg F t
  | user (now : Nat) (s : FtpServer) (b : Bool) (t : FtpServer) :
      CwdRun cfg F s → userIdentity now s = some (b, t) → CwdRun cfg F t
  | command (now : Nat) (s : FtpServer) (fs : σ) (b : Bool) (t : FtpServer) (fs' : σ) :
      CwdRun cfg F s → processCommand cfg F now s fs = some (b, t, fs') → CwdRun cfg F t
  | tick (now : Nat) (s : FtpServer) (fs : σ) (t : FtpServer) (fs' : σ) :
      CwdRun cfg F s → handleFTP cfg F now s fs = some (t, fs') → CwdRun cfg F t

/-- A filesystem in which every path is a directory that holds the entries of
the state. -/
def entriesFS : FS (List DirEntry) where
  exists_ _ _ := true
  remove fs _ := (false, fs)
  mkdir fs _ := (false, fs)
  rmdir fs _ := (false, fs)
  rename fs _ _ := (false, fs)
  open_ fs path _ := ({ isOpen := false, name := path }, fs)
  openDir _ path := { isOpen := true, name := path, isDirectory := true }
  entries fs _ := fs

/-- A text right-justified with spaces in a field of `w` characters. -/
def rightJustify (w : Nat) (t : String) : String :=
  String.mk (List.replicate (w - t.length) ' ') ++ t

/-- The date and the time at the head of a line of `LIST`. -/
def listStamp (e : DirEntry) : String :=
  fmtZero 4 (e.tm_year + 1900) ++ "-" ++ fmtZero 2 (e.tm_mon + 1) ++ "-"
    ++ fmtZero 2 e.tm_mday ++ "  " ++ fmtZero 2 e.tm_hour ++ ":" ++ fmtZero 2 e.tm_min

/-! ## Reference functions that follow the wording of the claims -/

/-- What the line assembler keeps of the bytes of a line: every backslash is
replaced by a slash and carriage returns are dropped. -/
def normalize (line : List Char) : List Char :=
  (line.map (fun c => if c = BSLASH then '/' else c)).filter (· ≠ CR)

/-- The verb of a line: the text before its first space, or the whole line. -/
def verbOf (line : List Char) : List Char := line.takeWhile (· ≠ ' ')

/-- The argument of a line: the text after the first run of spaces; absent
when the line has no space. -/
def argOf (line : List Char) : Option (List Char) :=
  if ' ' ∈ line then some ((line.dropWhile (· ≠ ' ')).dropWhile (· = ' ')) else none

/-- The current directory joined to a relative argument by a single slash. -/
def joinPath (cwd arg : List Char) : List Char :=
  if cwd.getLast? = some '/' then cwd ++ arg else cwd ++ '/' :: arg

/-- The candidate path: the argument itself when it starts with a slash, else
the current directory joined to it. -/
def candidatePath (cwd arg : List Char) : List Char :=
  if arg.head? = some '/' then arg else joinPath cwd arg

/-- A path with its trailing slash removed, unless that leaves the root `/`. -/
def stripSlash (p : List Char) : List Char :=
  if p.getLast? = some '/' ∧ p.dropLast ≠ ['/'] then p.dropLast else p

/-- The resolved path of the specification: the root for an empty argument or
for `/`, else the candidate path without its trailing slash. -/
def resolvePath (cwd arg : List Char) : List Char :=
  if arg = [] ∨ arg = ['/'] then ['/'] else stripSlash (candidatePath cwd arg)

/-- The number of bytes that the path takes in a buffer before its trailing
slash is removed: the candidate path and its terminator, two bytes for the
root. -/
def pathBytes (cwd arg : List Char) : Nat :=
  if arg = [] ∨ arg = ['/'] then 2 else (candidatePath cwd arg).length + 1

/-- The text before the last slash of a path; empty when the path has no
slash or only a leading one. -/
def beforeLastSlash (t : List Char) : List Char :=
  ((t.reverse.dropWhile (· ≠ '/')).drop 1).reverse

/-- The directory `CDUP` moves to, in the words of the specification: drop one
trailing slash, cut the path at its last slash; the root when that slash is at
position 0 or missing, or when the cut path does not exist. -/
def parentDir (pathExists : List Char → Bool) (cwd : List Char) : List Char :=
  if beforeLastSlash (if cwd.getLast? = some '/' then cwd.dropLast else cwd) ≠ []
      ∧ pathExists (beforeLastSlash (if cwd.getLast? = some '/' then cwd.dropLast else cwd))
  then beforeLastSlash (if cwd.getLast? = some '/' then cwd.dropLast else cwd)
  else ['/']

/-- The tuple `o1,o2,o3,o4,p1,p2` of an address and a port: the four octets,
then the port divided by 256 and the port modulo 256, as decimal numbers. -/
def hostPort (ip : List Nat) (port : Nat) : String :=
  decimal (ip.getD 0 0) ++ "," ++ decimal (ip.getD 1 0) ++ "," ++ decimal (ip.getD 2 0) ++ ","
    ++ decimal (ip.getD 3 0) ++ "," ++ decimal (port / 256) ++ "," ++ decimal (port % 256)

/-! ## Auxiliary definitions for the proofs -/

/-- A byte array ends a string when it is empty or starts with the NUL. -/
def Stops (e : List Char) : Prop := e = [] ∨ ∃ u, e = NUL :: u

/-- The state `s'` differs from `s` in the control client only (in the lines
printed on it, for the functions that reply). -/
def ClientOnly (s s' : FtpServer) : Prop := ∃ c, s' = { s with client := c }

/-- The verbs whose handlers use the file object or the data socket: `ABOR`,
`QUIT`, `PASV`, `PORT`, `LIST`, `MLSD`, `NLST`, `RETR`, `STOR`, `SIZE`, `MLST`. -/
def transferVerbs : List (List Char) :=
  ["ABOR".toList, "QUIT".toList, "PASV".toList, "PORT".toList, "LIST".toList, "MLSD".toList,
    "NLST".toList, "RETR".toList, "STOR".toList, "SIZE".toList, "MLST".toList]

/-- The state `t` differs from `s` in the control client and in the variables
of the line assembler only. -/
def LineOnly (s t : FtpServer) : Prop :=
  ∃ c cl i cmd p,
    t = { s with client := c, cmdLine := cl, iCL := i, command := cmd, parameters := p }

/-- The decimal form of `n` consists of digits, is not empty and is read back
as `n`. -/
def digitsOk (n : Nat) : Bool :=
  (decimal n).toList.all Char.isDigit && (atoiDigits (decimal n).toList 0 == n)
    && !(decimal n).toList.isEmpty

/-- The string that `makePath` has copied into `fullName` before it looks for a
trailing slash, `cwdName` being non-empty. -/
def copiedPath (size : Nat) (cwd arg : List Char) : List Char :=
  if arg.head? ≠ some '/' then
    strncat (if cwd.getLast? ≠ some '/' then strncat cwd ['/'] size else cwd) arg size
  else arg

/-- The state after `client.read ()` took one byte and left `rest` unread. -/
def popRx (s : FtpServer) (rest : List Char) : FtpServer :=
  { s with client := { s.client with rx := rest } }

/-- The state in which `bytes` wait to be read and the line buffer holds the
characters `b` after its first `s.iCL` ones. -/
def buffered (s : FtpServer) (b : List Char) (bytes : List Char) : FtpServer :=
  { s with client := { s.client with rx := bytes }
           cmdLine := s.cmdLine.take s.iCL ++ b ++ s.cmdLine.drop (s.iCL + b.length)
           iCL := s.iCL + b.length }

end ESPFtpServer


/-! # Properties -/

namespace ESPFtpServer

/-! ## C strings -/

theorem stops_set_zero (t : List Char) : Stops (t.set 0 NUL) := by
  cases t with
  | nil => exact Or.inl rfl
  | cons x u => exact Or.inr ⟨u, rfl⟩

theorem cstr_append_stops (b e : List Char) (hb : NUL ∉ b) (he : Stops e) :
    cstr (b ++ e) = b := by
  induction b with
  | nil =>
    rcases he with rfl | ⟨u, rfl⟩
    · rfl
    · simp [cstr]
  | cons c b ih =>
    have hc : c ≠ NUL := fun h => hb (by simp [h])
    have hb2 : NUL ∉ b := fun h => hb (by simp [h])
    simp [cstr, hc, ih hb2]

theorem cstr_of_no_nul (b : List Char) (hb : NUL ∉ b) : cstr b = b := by
  simpa using cstr_append_stops b [] hb (Or.inl rfl)

theorem verbOf_nil : verbOf [] = [] := rfl

theorem verbOf_cons_space (b : List Char) : verbOf (' ' :: b) = [] := by
  simp [verbOf, List.takeWhile]

theorem verbOf_cons_ne (c : Char) (b : List Char) (hc : c ≠ ' ') :
    verbOf (c :: b) = c :: verbOf b := by
  simp [verbOf, List.takeWhile, hc]

theorem mem_of_mem_cons_ne {c x : Char} {b : List Char} (h : x ∈ c :: b) (hc : c ≠ x) :
    x ∈ b := by
  rcases List.mem_cons.mp h with h1 | h1
  · exact absurd h1.symm hc
  · exact h1

theorem strchr_append_stops (b e : List Char) (hb : NUL ∉ b) (he : Stops e) :
    strchr (b ++ e) ' ' = if ' ' ∈ b then some (verbOf b).length else none := by
  induction b with
  | nil =>
    rcases he with rfl | ⟨u, rfl⟩
    · rfl
    · have h : NUL ≠ ' ' := by decide
      simp [strchr, h]
  | cons c b ih =>
    have hc : c ≠ NUL := fun h => hb (by simp [h])
    have hb2 : NUL ∉ b := fun h => hb (by simp [h])
    by_cases hsp : c = ' '
    · subst hsp
      simp [strchr, verbOf_cons_space]
    · have hsp2 : ¬ (' ' = c) := fun h => hsp h.symm
      rw [verbOf_cons_ne c b hsp]
      simp only [List.cons_append, strchr, hsp, hc, if_false, ih hb2, List.mem_cons, hsp2,
        false_or]
      by_cases hm : ' ' ∈ b
      · simp [hm, ih hb2]
      · simp [hm, ih hb2]

theorem takeWhile_space_append_stops (l e : List Char) (he : Stops e) :
    (l ++ e).takeWhile (· = ' ') = l.takeWhile (· = ' ') := by
  induction l with
  | nil =>
    rcases he with rfl | ⟨u, rfl⟩
    · rfl
    · have h : NUL ≠ ' ' := by decide
      simp [List.takeWhile, h]
  | cons c l ih =>
    by_cases hc : c = ' '
    · simp [List.takeWhile, hc, ih]
    · simp [List.takeWhile, hc]

theorem drop_length_takeWhile (p : Char → Bool) (l : List Char) :
    l.drop (l.takeWhile p).length = l.dropWhile p := by
  induction l with
  | nil => rfl
  | cons c l ih =>
    by_cases hc : p c
    · simp [List.takeWhile, List.dropWhile, hc, ih]
    · simp [List.takeWhile, List.dropWhile, hc]

theorem take_length_takeWhile (p : Char → Bool) (l : List Char) :
    l.take (l.takeWhile p).length = l.takeWhile p := by
  induction l with
  | nil => rfl
  | cons c l ih =>
    by_cases hc : p c
    · simp [List.takeWhile, hc, ih]
    · simp [List.takeWhile, hc]

theorem length_takeWhile_le (p : Char → Bool) (l : List Char) :
    (l.takeWhile p).length ≤ l.length := by
  induction l with
  | nil => simp
  | cons c l ih =>
    by_cases hc : p c
    · simp [List.takeWhile, hc, ih]
    · simp [List.takeWhile, hc]

theorem length_verbOf_lt (b : List Char) (h : ' ' ∈ b) : (verbOf b).length < b.length := by
  induction b with
  | nil => simp at h
  | cons c b ih =>
    by_cases hc : c = ' '
    · subst hc
      simp [verbOf_cons_space]
    · have hb : ' ' ∈ b := mem_of_mem_cons_ne h hc
      have := ih hb
      rw [verbOf_cons_ne c b hc]
      simp only [List.length_cons]
      omega

theorem verbOf_eq_self (b : List Char) (h : ' ' ∉ b) : verbOf b = b := by
  induction b with
  | nil => rfl
  | cons c b ih =>
    have hc : c ≠ ' ' := fun e => h (by simp [e])
    have hb : ' ' ∉ b := fun e => h (by simp [e])
    rw [verbOf_cons_ne c b hc, ih hb]

theorem take_verbOf (b : List Char) : b.take (verbOf b).length = verbOf b :=
  take_length_takeWhile _ b

theorem dropWhile_verb_cons (b : List Char) (h : ' ' ∈ b) :
    b.dropWhile (· ≠ ' ') = ' ' :: b.drop ((verbOf b).length + 1) := by
  induction b with
  | nil => simp at h
  | cons c b ih =>
    by_cases hc : c = ' '
    · subst hc
      simp [verbOf_cons_space, List.dropWhile]
    · have hb : ' ' ∈ b := mem_of_mem_cons_ne h hc
      have h1 := ih hb
      rw [verbOf_cons_ne c b hc]
      have h2 : (c :: b).dropWhile (· ≠ ' ') = b.dropWhile (· ≠ ' ') := by
        simp [List.dropWhile, hc]
      rw [h2, h1]
      simp

theorem argOf_of_mem (b : List Char) (h : ' ' ∈ b) :
    argOf b = some ((b.drop ((verbOf b).length + 1)).dropWhile (· = ' ')) := by
  unfold argOf
  rw [if_pos h, dropWhile_verb_cons b h]
  simp [List.dropWhile]

theorem not_mem_of_sublist_no_nul {b l : List Char} (hb : NUL ∉ b) (h : l.Sublist b) :
    NUL ∉ l := fun hm => hb (h.subset hm)

/-! ## The line assembler, byte by byte -/

theorem set_take_drop (L : List Char) (i : Nat) (c : Char) (nb : List Char)
    (h : i < L.length) :
    (L.set i c).take (i + 1) ++ nb ++ (L.set i c).drop (i + 1 + nb.length)
      = L.take i ++ (c :: nb) ++ L.drop (i + (nb.length + 1)) := by
  induction L generalizing i with
  | nil => simp at h
  | cons x L ih =>
    cases i with
    | zero => simp [Nat.add_comm]
    | succ i =>
      have hi : i < L.length := by simpa using h
      have := ih i hi
      simp only [List.set_cons_succ, List.take_succ_cons, List.cons_append]
      have e1 : i + 1 + 1 + nb.length = (i + 1 + nb.length) + 1 := by omega
      have e2 : i + 1 + (nb.length + 1) = (i + (nb.length + 1)) + 1 := by omega
      rw [e1, e2, List.drop_succ_cons, List.drop_succ_cons]
      simpa using this

/-- The character `readChar` works with after mapping a backslash. -/
theorem normalize_cons (c0 : Char) (bytes : List Char) :
    normalize (c0 :: bytes)
      = if (if c0 = BSLASH then '/' else c0) = CR then normalize bytes
        else (if c0 = BSLASH then '/' else c0) :: normalize bytes := by
  by_cases h : (if c0 = BSLASH then '/' else c0) = CR
  · simp [normalize, h]
  · simp [normalize, h]

theorem readChar_store (size : Nat) (s : FtpServer) (c0 : Char) (rest : List Char)
    (hrx : s.client.rx = c0 :: rest)
    (hCR : (if c0 = BSLASH then '/' else c0) ≠ CR)
    (hLF : (if c0 = BSLASH then '/' else c0) ≠ LF) (hi : s.iCL < size) :
    readChar size s
      = some (-1, { s with client := { s.client with rx := rest }
                           cmdLine := s.cmdLine.set s.iCL (if c0 = BSLASH then '/' else c0)
                           iCL := s.iCL + 1 }) := by
  simp [readChar, hrx, hCR, hLF, hi]

theorem readChar_CR (size : Nat) (s : FtpServer) (c0 : Char) (rest : List Char)
    (hrx : s.client.rx = c0 :: rest)
    (hCR : (if c0 = BSLASH then '/' else c0) = CR) :
    readChar size s = some (-1, { s with client := { s.client with rx := rest } }) := by
  simp [readChar, hrx, hCR]

theorem readChar_full (size : Nat) (s : FtpServer) (c0 : Char) (rest : List Char)
    (hrx : s.client.rx = c0 :: rest)
    (hCR : (if c0 = BSLASH then '/' else c0) ≠ CR)
    (hLF : (if c0 = BSLASH then '/' else c0) ≠ LF) (hi : ¬ s.iCL < size) :
    readChar size s
      = some (-2, { s with client := { s.client with rx := rest,
                                                      tx := s.client.tx ++ ["500 Syntax error"] }
                           iCL := 0 }) := by
  simp [readChar, hrx, hCR, hLF, hi, FtpServer.reply, WiFiClient.println]

theorem mapped_ne_LF (c0 : Char) (h : c0 ≠ LF) : (if c0 = BSLASH then '/' else c0) ≠ LF := by
  by_cases hb : c0 = BSLASH
  · simp only [hb, if_true]
    decide
  · simpa [hb] using h

theorem buffered_nil (s : FtpServer) : buffered s [] s.client.rx = s := by
  cases s
  simp [buffered]

/-- Feeding the bytes of a line that fits the buffer: every call returns -1
and the normalized bytes are appended to the buffered line. -/
theorem readCharN_buffered (size : Nat) (bytes rest : List Char) :
    ∀ s : FtpServer, LF ∉ bytes → s.iCL + (normalize bytes).length ≤ size →
      s.iCL + (normalize bytes).length ≤ s.cmdLine.length →
      s.client.rx = bytes ++ rest →
      readCharN size bytes.length s
        = some (List.replicate bytes.length (-1), buffered s (normalize bytes) rest) := by
  induction bytes with
  | nil =>
    intro s _ _ _ hrx
    simp only [List.nil_append] at hrx
    simp [readCharN, normalize, ← hrx, buffered_nil]
  | cons c0 bytes ih =>
    intro s hLF hsz hlen hrx
    have hc0 : c0 ≠ LF := fun h => hLF (by simp [h])
    have hLF2 : LF ∉ bytes := fun h => hLF (by simp [h])
    have hmLF := mapped_ne_LF c0 hc0
    rw [normalize_cons] at hsz hlen ⊢
    by_cases hCR : (if c0 = BSLASH then '/' else c0) = CR
    · rw [if_pos hCR] at hsz hlen ⊢
      have h1 := readChar_CR size s c0 (bytes ++ rest) hrx hCR
      have h2 := ih { s with client := { s.client with rx := bytes ++ rest } }
        hLF2 hsz hlen rfl
      simp only [List.length_cons, readCharN, h1, h2, List.replicate_succ]
      rfl
    · rw [if_neg hCR] at hsz hlen ⊢
      simp only [List.length_cons] at hsz hlen
      have hi : s.iCL < size := by omega
      have hi2 : s.iCL < s.cmdLine.length := by omega
      have h1 := readChar_store size s c0 (bytes ++ rest) hrx hCR hmLF hi
      have h2 := ih { s with client := { s.client with rx := bytes ++ rest }
                             cmdLine := s.cmdLine.set s.iCL (if c0 = BSLASH then '/' else c0)
                             iCL := s.iCL + 1 }
        hLF2 (by simp only; omega) (by simp only [List.length_set]; omega) rfl
      simp only [List.length_cons, readCharN, h1, h2, List.replicate_succ]
      have h3 := set_take_drop s.cmdLine s.iCL (if c0 = BSLASH then '/' else c0)
        (normalize bytes) hi2
      have h4 : s.iCL + 1 + (normalize bytes).length = s.iCL + ((normalize bytes).length + 1) := by
        omega
      rw [h4] at h3
      simp only [buffered, List.length_cons, h4, h3]

/-! ## The line assembler at the end of a line -/

theorem set_length_append (b t : List Char) :
    (b ++ t).set b.length NUL = b ++ t.set 0 NUL := by
  rw [List.set_append_right _ _ (Nat.le_refl _), Nat.sub_self]

theorem no_nul_verbOf (b : List Char) (hb : NUL ∉ b) : NUL ∉ verbOf b :=
  fun h => hb ((List.takeWhile_sublist _).subset h)

/-- The line feed when the buffer is full: the terminator is stored one past
the end of `cmdLine`. -/
theorem readCharLF_full (size : Nat) (s : FtpServer) (h : size ≤ s.iCL) :
    readCharLF size s = none := by
  unfold readCharLF
  rw [if_pos h]

/-- The line feed after a non-empty line whose verb has at most four
characters: the return code is the length as an `int8_t`, the verb and the
argument are those of the line. -/
theorem readCharLF_short (size : Nat) (s : FtpServer) (b t : List Char)
    (hm : s.cmdLine = b ++ t) (hi : s.iCL = b.length) (hlt : b.length < size) (hb : NUL ∉ b)
    (hne : b ≠ []) (hverb : (verbOf b).length ≤ 4) :
    ∃ r, readCharLF size s = some r ∧ r.1 = toInt8 b.length ∧ r.2.command = verbOf b ∧
      r.2.params = argOf b ∧ r.2.iCL = 0 ∧ r.2.client = s.client := by
  have hne : b.length ≠ 0 := by
    intro h
    exact hne (List.length_eq_zero.mp h)
  have hst := stops_set_zero t
  have hv : ¬ 4 < (verbOf b).length := by omega
  have hsz : ¬ size ≤ b.length := by omega
  have key : (readCharLF size s).map
      (fun r => (r.1, r.2.command, r.2.params, r.2.iCL, r.2.client))
      = some (toInt8 b.length, verbOf b, argOf b, 0, s.client) := by
    unfold readCharLF
    simp only [hm, hi, hsz, set_length_append, hne, if_false,
      strchr_append_stops b _ hb hst]
    by_cases hsp : ' ' ∈ b
    · have hk := length_verbOf_lt b hsp
      have htake : List.take (verbOf b).length (b ++ t.set 0 NUL) = verbOf b := by
        rw [List.take_append_of_le_length (Nat.le_of_lt hk), take_verbOf]
      have hskip : skipSpaces (b ++ t.set 0 NUL) ((verbOf b).length + 1)
          = (verbOf b).length + 1
            + ((b.drop ((verbOf b).length + 1)).takeWhile (· = ' ')).length := by
        unfold skipSpaces
        rw [List.drop_append_of_le_length (by omega), takeWhile_space_append_stops _ _ hst]
      have hle : (verbOf b).length + 1
            + ((b.drop ((verbOf b).length + 1)).takeWhile (· = ' ')).length ≤ b.length := by
        have := length_takeWhile_le (· = ' ') (b.drop ((verbOf b).length + 1))
        simp only [List.length_drop] at this
        omega
      have hpar : cstr (List.drop (skipSpaces (b ++ t.set 0 NUL) ((verbOf b).length + 1))
            (b ++ t.set 0 NUL))
          = (b.drop ((verbOf b).length + 1)).dropWhile (· = ' ') := by
        rw [hskip, List.drop_append_of_le_length hle, ← List.drop_drop,
          drop_length_takeWhile]
        apply cstr_append_stops _ _ _ hst
        intro h
        exact hb (List.mem_of_mem_drop ((List.dropWhile_sublist _).subset h))
      simp only [hsp, if_true, hv, if_false, htake, cstr_of_no_nul _ (no_nul_verbOf b hb),
        FtpServer.params, Option.map_some', hpar, argOf_of_mem b hsp]
    · have hlen : ¬ 4 < strlen (b ++ t.set 0 NUL) := by
        unfold strlen
        rw [cstr_append_stops b _ hb hst]
        rw [verbOf_eq_self b hsp] at hv
        exact hv
      simp [hsp, hlen, cstr_append_stops b _ hb hst, verbOf_eq_self b hsp, FtpServer.params,
        argOf]
  obtain ⟨r, hr, he⟩ := Option.map_eq_some'.mp key
  simp only [Prod.mk.injEq] at he
  exact ⟨r, hr, he.1, he.2.1, he.2.2.1, he.2.2.2.1, he.2.2.2.2⟩

/-- What `readChar` does with the return code and the state after the `if`
on the byte read: upper-case the verb, report a syntax error. -/
theorem readChar_at_LF (size : Nat) (s : FtpServer) (rest : List Char)
    (hrx : s.client.rx = LF :: rest) :
    readChar size s
      = (readCharLF size (popRx s rest)).map (fun r =>
          (r.1,
           (if r.1 = -2 then
              { (if r.1 > 0 then { r.2 with command := r.2.command.map Char.toUpper }
                  else r.2) with iCL := 0 }.reply "500 Syntax error"
            else
              (if r.1 > 0 then { r.2 with command := r.2.command.map Char.toUpper }
                else r.2)))) := by
  have h1 : LF ≠ BSLASH := by decide
  have h2 : LF ≠ CR := by decide
  simp [readChar, hrx, h1, h2, popRx]

theorem readChar_at_LF_some (size : Nat) (s : FtpServer) (rest : List Char)
    (hrx : s.client.rx = LF :: rest) (r : Int × FtpServer)
    (h : readCharLF size (popRx s rest) = some r) :
    ∃ u, readChar size s = some u ∧ u.1 = r.1
      ∧ u.2 = (if r.1 = -2 then
              { (if r.1 > 0 then { r.2 with command := r.2.command.map Char.toUpper }
                  else r.2) with iCL := 0 }.reply "500 Syntax error"
            else
              (if r.1 > 0 then { r.2 with command := r.2.command.map Char.toUpper }
                else r.2)) := by
  rw [readChar_at_LF size s rest hrx, h]
  refine ⟨_, rfl, ?_, ?_⟩ <;> rfl

/-- The line feed that follows a full buffer has no defined result. -/
theorem readChar_LF_full (size : Nat) (s : FtpServer) (rest : List Char)
    (hrx : s.client.rx = LF :: rest) (h : size ≤ s.iCL) : readChar size s = none := by
  rw [readChar_at_LF size s rest hrx, readCharLF_full size (popRx s rest) h]
  rfl

theorem no_nul_normalize (line : List Char) (h : NUL ∉ line) : NUL ∉ normalize line := by
  induction line with
  | nil => simp [normalize]
  | cons c line ih =>
    have hc : NUL ≠ c := fun e => h (by simp [e])
    have hl : NUL ∉ line := fun e => h (by simp [e])
    rw [normalize_cons]
    have hm : NUL ≠ (if c = BSLASH then '/' else c) := by
      by_cases hb : c = BSLASH
      · simp only [hb, if_true]
        decide
      · simpa [hb] using hc
    by_cases hcr : (if c = BSLASH then '/' else c) = CR
    · rw [if_pos hcr]
      exact ih hl
    · rw [if_neg hcr]
      intro hmem
      rcases List.mem_cons.mp hmem with h1 | h1
      · exact hm h1
      · exact ih hl h1

/-- The state reached after the bytes of a line that fits an empty buffer. -/
theorem readCharN_line (size : Nat) (s : FtpServer) (line rest : List Char)
    (hbuf : s.cmdLine.length = size) (hiCL : s.iCL = 0)
    (hrx : s.client.rx = line ++ LF :: rest) (hLF : LF ∉ line)
    (hfit : (normalize line).length ≤ size) :
    readCharN size line.length s
      = some (List.replicate line.length (-1), buffered s (normalize line) (LF :: rest)) :=
  readCharN_buffered size line (LF :: rest) s hLF (by omega) (by omega) hrx

theorem buffered_cmdLine (s : FtpServer) (b bytes : List Char) (hiCL : s.iCL = 0) :
    (buffered s b bytes).cmdLine = b ++ s.cmdLine.drop b.length
      ∧ (buffered s b bytes).iCL = b.length ∧ (buffered s b bytes).client.rx = bytes
      ∧ (buffered s b bytes).client.tx = s.client.tx := by
  simp [buffered, hiCL]

theorem readCharAfter_eq (size n : Nat) (s : FtpServer) (rs : List Int) (t : FtpServer)
    (h : readCharN size n s = some (rs, t)) : readCharAfter size n s = readChar size t := by
  unfold readCharAfter
  rw [h]

/-! ## C8: a verb of more than four characters is a syntax error -/

set_option maxRecDepth 100000 in
/-- C9, counterexample. With a buffer of 263 bytes, the line made of 264
letters `A` followed by `QUIT` has more than `FTP_CMD_SIZE` bytes before its
line feed; the call that consumes byte 264 returns -2, and the call that
consumes the line feed returns 4 with `command` equal to `QUIT`: a parsed
command is reported for the rest of the line. -/
theorem readChar_overflow_tail_is_parsed :
    ((readCharN 263 263 (lineServer 263
        (List.replicate 264 'A' ++ "QUIT".toList ++ [LF]))).map (fun r => r.1)
        = some (List.replicate 263 (-1)))
      ∧ (readCharAfter 263 263 (lineServer 263
          (List.replicate 264 'A' ++ "QUIT".toList ++ [LF]))).map (fun r => r.1) = some (-2)
      ∧ (readCharAfter 263 268 (lineServer 263
          (List.replicate 264 'A' ++ "QUIT".toList ++ [LF]))).map
            (fun r => (r.1, r.2.command)) = some (4, "QUIT".toList) := by
  decide

/-- The call of `readChar` on the byte that follows a full buffer. -/
theorem readChar_overflow_step (size : Nat) (s : FtpServer) (pre rest : List Char)
    (c : Char) (hbuf : s.cmdLine.length = size) (hiCL : s.iCL = 0)
    (hrx : s.client.rx = pre ++ c :: rest) (hLF : LF ∉ pre)
    (hfull : (normalize pre).length = size)
    (hcCR : (if c = BSLASH then '/' else c) ≠ CR) (hcLF : c ≠ LF) :
    ∃ t u, readCharN size pre.length s = some (List.replicate pre.length (-1), t)
      ∧ readChar size t = some u
      ∧ u.1 = -2
      ∧ u.2.iCL = 0
      ∧ u.2.client.rx = rest
      ∧ u.2.client.tx = s.client.tx ++ ["500 Syntax error"] := by
  have hN := readCharN_buffered size pre (c :: rest) s hLF (by omega) (by omega) hrx
  obtain ⟨_, hi, hr, ht⟩ := buffered_cmdLine s (normalize pre) (c :: rest) hiCL
  have hfullb : ¬ (buffered s (normalize pre) (c :: rest)).iCL < size := by omega
  refine ⟨_, _, hN, readChar_full size _ c rest hr hcCR (mapped_ne_LF c hcLF) hfullb, ?_⟩
  simp [ht]

/-- A line that buffers more than `n` characters splits after the bytes that
buffer exactly `n`, before a byte that is buffered too. -/
theorem exists_overflow_split (line : List Char) :
    ∀ n, n < (normalize line).length →
      ∃ pre c post, line = pre ++ c :: post ∧ (normalize pre).length = n
        ∧ (if c = BSLASH then '/' else c) ≠ CR := by
  induction line with
  | nil =>
    intro n h
    simp [normalize] at h
  | cons c0 l ih =>
    intro n h
    rw [normalize_cons] at h
    by_cases hCR : (if c0 = BSLASH then '/' else c0) = CR
    · rw [if_pos hCR] at h
      obtain ⟨pre, c, post, h1, h2, h3⟩ := ih n h
      refine ⟨c0 :: pre, c, post, by rw [h1]; rfl, ?_, h3⟩
      rw [normalize_cons, if_pos hCR]
      exact h2
    · rw [if_neg hCR] at h
      cases n with
      | zero => exact ⟨[], c0, l, rfl, rfl, hCR⟩
      | succ m =>
        simp only [List.length_cons] at h
        obtain ⟨pre, c, post, h1, h2, h3⟩ := ih m (by omega)
        refine ⟨c0 :: pre, c, post, by rw [h1]; rfl, ?_, h3⟩
        rw [normalize_cons, if_neg hCR]
        simp [h2]

/-- C9, amended. A line that buffers more than `FTP_CMD_SIZE` characters
(carriage returns not counted) is fed from an empty buffer. The line splits
into the bytes `pre` that fill the buffer exactly, one more byte `c`, and the
bytes `post`. Every call of `readChar` on `pre` returns -1, and the call that
consumes `c` returns -2, prints `500 Syntax error` and resets the write index
to 0; the rest of the line and its line feed are still to be read, and are
assembled from an empty buffer. -/
theorem readChar_overflow_resets (size : Nat) (s : FtpServer) (line rest : List Char)
    (hbuf : s.cmdLine.length = size) (hiCL : s.iCL = 0)
    (hrx : s.client.rx = line ++ LF :: rest) (hLF : LF ∉ line)
    (hlong : size < (normalize line).length) :
    ∃ pre c post t u, line = pre ++ c :: post ∧ (normalize pre).length = size
      ∧ readCharN size pre.length s = some (List.replicate pre.length (-1), t)
      ∧ readChar size t = some u
      ∧ u.1 = -2
      ∧ u.2.iCL = 0
      ∧ u.2.client.rx = post ++ LF :: rest
      ∧ u.2.client.tx = s.client.tx ++ ["500 Syntax error"] := by
  obtain ⟨pre, c, post, h1, h2, h3⟩ := exists_overflow_split line size hlong
  have hLFpre : LF ∉ pre := fun h => hLF (by rw [h1]; simp [h])
  have hLFc : c ≠ LF := fun h => hLF (by rw [h1]; simp [h])
  have hrx2 : s.client.rx = pre ++ c :: (post ++ LF :: rest) := by
    rw [hrx, h1]
    simp
  obtain ⟨t, u, k⟩ :=
    readChar_overflow_step size s pre (post ++ LF :: rest) c hbuf hiCL hrx2 hLFpre h2 h3 hLFc
  exact ⟨pre, c, post, t, u, h1, h2, k⟩

/-- Witness for the amended C9: a buffer of 4 bytes and the line `ABCDEF`. -/
theorem readChar_overflow_resets_witness :
    ∃ pre c post t u, "ABCDEF".toList = pre ++ c :: post ∧ (normalize pre).length = 4
      ∧ readCharN 4 pre.length (lineServer 4 ("ABCDEF".toList ++ [LF]))
          = some (List.replicate pre.length (-1), t)
      ∧ readChar 4 t = some u
      ∧ u.1 = -2
      ∧ u.2.iCL = 0
      ∧ u.2.client.rx = post ++ LF :: []
      ∧ u.2.client.tx
          = (lineServer 4 ("ABCDEF".toList ++ [LF])).client.tx ++ ["500 Syntax error"] :=
  readChar_overflow_resets 4 (lineServer 4 ("ABCDEF".toList ++ [LF])) "ABCDEF".toList []
    (by decide) (by decide) (by decide) (by decide) (by decide)

/-! ## C10 and C1: the return code is an `int8_t` -/

/-- The result of `readChar` on the line feed that ends a non-empty line with a
verb of at most four characters, field by field. -/
theorem readChar_line_result_aux (size : Nat) (s : FtpServer) (line rest : List Char)
    (hbuf : s.cmdLine.length = size) (hiCL : s.iCL = 0)
    (hrx : s.client.rx = line ++ LF :: rest) (hLF : LF ∉ line) (hNUL : NUL ∉ line)
    (hfit : (normalize line).length < size) (hne : normalize line ≠ [])
    (hverb : (verbOf (normalize line)).length ≤ 4) :
    ∃ t u, readCharN size line.length s = some (List.replicate line.length (-1), t)
      ∧ readChar size t = some u
      ∧ u.1 = toInt8 (normalize line).length
      ∧ u.2.command
          = (if 0 < toInt8 (normalize line).length then
              (verbOf (normalize line)).map Char.toUpper
             else verbOf (normalize line))
      ∧ u.2.params = argOf (normalize line)
      ∧ u.2.iCL = 0 := by
  have hN := readCharN_line size s line rest hbuf hiCL hrx hLF (Nat.le_of_lt hfit)
  obtain ⟨hm, hi, hr, _⟩ := buffered_cmdLine s (normalize line) (LF :: rest) hiCL
  obtain ⟨r, hlf, k1, k2, k3, k4, _⟩ := readCharLF_short size
    (popRx (buffered s (normalize line) (LF :: rest)) rest)
    (normalize line) (s.cmdLine.drop (normalize line).length) hm hi hfit
    (no_nul_normalize line hNUL) hne hverb
  obtain ⟨u, hu, e1, e2⟩ := readChar_at_LF_some size _ rest hr r hlf
  refine ⟨_, u, hN, hu, e1.trans k1, ?_, ?_, ?_⟩
  all_goals rw [e2]
  · by_cases hpos : 0 < toInt8 (normalize line).length
    · have h2 : ¬ toInt8 (normalize line).length = -2 := by omega
      simp [k1, k2, hpos, h2]
    · by_cases h2 : toInt8 (normalize line).length = -2
      · simp [k1, k2, hpos, h2, FtpServer.reply]
      · simp [k1, k2, hpos, h2]
  · rw [← k3]
    by_cases hpos : 0 < toInt8 (normalize line).length
    · have h2 : ¬ toInt8 (normalize line).length = -2 := by omega
      simp [k1, hpos, h2, FtpServer.params]
    · by_cases h2 : toInt8 (normalize line).length = -2
      · simp [k1, hpos, h2, FtpServer.reply, FtpServer.params]
      · simp [k1, hpos, h2]
  · by_cases hpos : 0 < toInt8 (normalize line).length
    · have h2 : ¬ toInt8 (normalize line).length = -2 := by omega
      simp [k1, k4, hpos, h2]
    · by_cases h2 : toInt8 (normalize line).length = -2
      · simp [k1, hpos, h2, FtpServer.reply]
      · simp [k1, k4, hpos, h2]

/-- For a line shorter than 128 bytes the return code is the length, the verb
is stored in upper case and `parameters` points at the argument. -/
theorem readChar_short_line_parsed (size : Nat) (s : FtpServer) (line rest : List Char)
    (hbuf : s.cmdLine.length = size) (hiCL : s.iCL = 0)
    (hrx : s.client.rx = line ++ LF :: rest) (hLF : LF ∉ line) (hNUL : NUL ∉ line)
    (hfit : (normalize line).length < size) (hne : normalize line ≠ [])
    (h128 : (normalize line).length < 128)
    (hverb : (verbOf (normalize line)).length ≤ 4) :
    ∃ u, readCharAfter size line.length s = some u
      ∧ u.1 = (normalize line).length
      ∧ u.2.command = (verbOf (normalize line)).map Char.toUpper
      ∧ u.2.params = argOf (normalize line) := by
  obtain ⟨t, u, hN, hu, h1, h2, h3, _⟩ :=
    readChar_line_result_aux size s line rest hbuf hiCL hrx hLF hNUL hfit hne hverb
  have hlen : 0 < (normalize line).length := List.length_pos.mpr hne
  have h8 : toInt8 (normalize line).length = (normalize line).length := by
    unfold toInt8
    omega
  have hpos : 0 < toInt8 (normalize line).length := by
    rw [h8]
    exact_mod_cast hlen
  rw [if_pos hpos] at h2
  exact ⟨u, by rw [readCharAfter_eq size _ s _ t hN, hu], h1.trans h8, h2, h3⟩

/-- Witness: the line `stor  ab` in a buffer of 16 bytes. -/
theorem readChar_short_line_parsed_witness :
    (readCharAfter 16 8 (lineServer 16 ("stor  ab".toList ++ [LF]))).map
        (fun r => (r.2.command, r.2.params)) = some ("STOR".toList, some "ab".toList) := by
  obtain ⟨u, h1, _, h3, h4⟩ :=
    readChar_short_line_parsed 16 (lineServer 16 ("stor  ab".toList ++ [LF]))
      "stor  ab".toList [] (by decide) (by decide) (by decide) (by decide) (by decide)
      (by decide) (by decide) (by decide) (by decide)
  rw [show readCharAfter 16 8 (lineServer 16 ("stor  ab".toList ++ [LF])) = some u from h1,
    Option.map_some', h3, h4]
  decide

/-- The result of `readChar` on the line feed that ends a non-empty line which
is shorter than the buffer, holds no NUL byte and has a verb of at most four
characters: the return code is the length of the line converted to `int8_t`;
`command` is the verb, in upper case only when that code is positive, and
`parameters` points at the argument. The code is negative for lengths from 128
to 255 and is 0 for the length 256. -/
theorem readChar_returns_int8_length (size : Nat) (s : FtpServer) (line rest : List Char)
    (hbuf : s.cmdLine.length = size) (hiCL : s.iCL = 0)
    (hrx : s.client.rx = line ++ LF :: rest) (hLF : LF ∉ line) (hNUL : NUL ∉ line)
    (hfit : (normalize line).length < size) (hne : normalize line ≠ [])
    (hverb : (verbOf (normalize line)).length ≤ 4) :
    (∃ u, readCharAfter size line.length s = some u
      ∧ u.1 = toInt8 (normalize line).length
      ∧ u.2.command
          = (if 0 < toInt8 (normalize line).length then
              (verbOf (normalize line)).map Char.toUpper
             else verbOf (normalize line))
      ∧ u.2.params = argOf (normalize line))
      ∧ (128 ≤ (normalize line).length → (normalize line).length ≤ 255 →
          toInt8 (normalize line).length = (normalize line).length - 256)
      ∧ ((normalize line).length = 256 → toInt8 (normalize line).length = 0) := by
  obtain ⟨t, u, hN, hu, h1, h2, h3, _⟩ :=
    readChar_line_result_aux size s line rest hbuf hiCL hrx hLF hNUL hfit hne hverb
  refine ⟨⟨u, by rw [readCharAfter_eq size _ s _ t hN, hu], h1, h2, h3⟩, ?_, ?_⟩
  · intro ha hb
    unfold toInt8
    omega
  · intro ha
    unfold toInt8
    omega

set_option maxRecDepth 100000 in
/-- Witness: a line of 254 bytes in a buffer of 263 bytes returns -2. -/
theorem readChar_returns_int8_length_witness :
    (readCharAfter 263 254 (lineServer 263
        ("NOOP ".toList ++ List.replicate 249 'x' ++ [LF]))).map (fun r => r.1) = some (-2) := by
  obtain ⟨u, h1, h2, _⟩ := (readChar_returns_int8_length 263 (lineServer 263
      ("NOOP ".toList ++ List.replicate 249 'x' ++ [LF]))
    ("NOOP ".toList ++ List.replicate 249 'x') [] (by decide) (by decide) (by decide)
    (by decide) (by decide) (by decide) (by decide) (by decide)).1
  rw [show readCharAfter 263 254 (lineServer 263
      ("NOOP ".toList ++ List.replicate 249 'x' ++ [LF])) = some u from h1,
    Option.map_some', h2]
  decide

set_option maxRecDepth 100000 in
/-- C10, at the failing inputs, with a buffer of 263 bytes. The line `NOOP`
followed by a space and 123 letters has 128 bytes: the call of `readChar` that
consumes its line feed returns -128. With 249 letters (254 bytes) it returns
-2 and prints `500 Syntax error`; with 251 letters (256 bytes) it returns 0.
In a session that is ready, the 128-byte line gets no reply at all, while the
same line with one letter less is answered `200 Zzz...`. -/
theorem readChar_length_wraps_int8 :
    (readCharAfter 263 128 (lineServer 263
        ("NOOP ".toList ++ List.replicate 123 'x' ++ [LF]))).map (fun r => r.1) = some (-128)
      ∧ (readCharAfter 263 254 (lineServer 263
          ("NOOP ".toList ++ List.replicate 249 'x' ++ [LF]))).map
            (fun r => (r.1, r.2.client.tx)) = some (-2, ["500 Syntax error"])
      ∧ (readCharAfter 263 256 (lineServer 263
          ("NOOP ".toList ++ List.replicate 251 'x' ++ [LF]))).map (fun r => r.1) = some 0
      ∧ (ticks defaultConfig listFS 1000 129
          (session 5 ("NOOP ".toList ++ List.replicate 123 'x' ++ [LF])) []).map
            (fun r => (r.1.cmdStatus, r.1.client.tx)) = some (5, [])
      ∧ (ticks defaultConfig listFS 1000 128
          (session 5 ("NOOP ".toList ++ List.replicate 122 'x' ++ [LF])) []).map
            (fun r => (r.1.cmdStatus, r.1.client.tx)) = some (5, ["200 Zzz..."]) := by
  decide

set_option maxRecDepth 100000 in
/-- C1, at the failing input, with a buffer of 263 bytes. The line `stor`,
a space and 123 letters `a` has 128 bytes and fits the buffer. After its bytes
and the line feed have been fed from an empty buffer, `command` is `stor`, not
`STOR`: the return code -128 is not positive, so the verb is not put in upper
case (and `handleFTP` does not dispatch the line). -/
theorem readChar_verb_left_in_lower_case :
    (readCharAfter 263 128 (lineServer 263
        ("stor ".toList ++ List.replicate 123 'a' ++ [LF]))).map
          (fun r => (r.2.command, r.2.params, r.1))
      = some ("stor".toList, some (List.replicate 123 'a'), -128) := by
  decide

/-! ## Path resolution -/

theorem toUInt16_pred (n : Nat) (h1 : 1 ≤ n) (h2 : n ≤ 65536) :
    toUInt16 ((n : Int) - 1) = n - 1 := by
  unfold toUInt16
  omega

theorem getD_last (l : List Char) (h : l ≠ []) :
    (l.getD (l.length - 1) NUL = '/') ↔ l.getLast? = some '/' := by
  rw [List.getD_eq_getElem?_getD, ← List.getLast?_eq_getElem?]
  rw [List.getLast?_eq_getLast l h]
  simp

/-- The test for a trailing slash in `makePath`, without machine arithmetic. -/
theorem strip_code_eq (cand : List Char) (h1 : cand ≠ []) (h2 : cand.length ≤ 65536) :
    (if cand.getD (toUInt16 ((cand.length : Int) - 1)) NUL = '/'
          ∧ toUInt16 ((cand.length : Int) - 1) > 1
      then cand.take (toUInt16 ((cand.length : Int) - 1)) else cand)
      = (if cand.getLast? = some '/' ∧ 2 < cand.length then cand.dropLast else cand) := by
  have hpos : 1 ≤ cand.length := List.length_pos.mpr h1
  rw [toUInt16_pred cand.length hpos h2, List.dropLast_eq_take]
  have h3 := getD_last cand h1
  by_cases hl : cand.getLast? = some '/'
  · have h4 := h3.mpr hl
    by_cases h5 : 2 < cand.length
    · have h6 : cand.length - 1 > 1 := by omega
      rw [if_pos ⟨h4, h6⟩, if_pos ⟨hl, h5⟩]
    · have h6 : ¬ cand.length - 1 > 1 := by omega
      rw [if_neg (fun h => h6 h.2), if_neg (fun h => h5 h.2)]
  · have h4 : ¬ cand.getD (cand.length - 1) NUL = '/' := fun h => hl (h3.mp h)
    rw [if_neg (fun h => h4 h.1), if_neg (fun h => hl h.1)]

theorem length_copiedPath_le (size : Nat) (cwd arg : List Char) :
    (copiedPath size cwd arg).length ≤ cwd.length + arg.length + 1 := by
  unfold copiedPath strncat
  split
  · split
    · simp only [List.length_append, List.length_take]
      have : min size [('/' : Char)].length ≤ 1 := by simp
      omega
    · simp only [List.length_append, List.length_take]
      omega
  · omega

theorem copiedPath_ne_nil (size : Nat) (cwd arg : List Char) (hc : cwd ≠ [])
    (ha : arg ≠ []) : copiedPath size cwd arg ≠ [] := by
  unfold copiedPath strncat
  split
  · split <;> simp [hc]
  · exact ha

/-- The method `makePath` as a function of the copied string. -/
theorem makePath_eq (size cap : Nat) (s : FtpServer) (arg : List Char)
    (hc : arg.head? ≠ some '/' → s.cwdName ≠ [])
    (hle : (copiedPath size s.cwdName arg).length ≤ 65536)
    (ha : ¬ (arg = [('/' : Char)] ∨ arg.length = 0)) :
    makePath size cap s (some arg)
      = (if cap ≤ (copiedPath size s.cwdName arg).length then none
         else if (if (copiedPath size s.cwdName arg).getLast? = some '/'
                  ∧ 2 < (copiedPath size s.cwdName arg).length
              then (copiedPath size s.cwdName arg).dropLast
              else copiedPath size s.cwdName arg).length < size
         then some (true,
            (if (copiedPath size s.cwdName arg).getLast? = some '/'
                  ∧ 2 < (copiedPath size s.cwdName arg).length
              then (copiedPath size s.cwdName arg).dropLast
              else copiedPath size s.cwdName arg), s)
         else some (false,
            (if (copiedPath size s.cwdName arg).getLast? = some '/'
                  ∧ 2 < (copiedPath size s.cwdName arg).length
              then (copiedPath size s.cwdName arg).dropLast
              else copiedPath size s.cwdName arg),
            s.reply "500 Command line too long")) := by
  have hane : arg ≠ [] := fun h => ha (Or.inr (by simp [h]))
  unfold makePath
  simp only [ha, if_false]
  by_cases habs : arg.head? = some '/'
  · have hcp : copiedPath size s.cwdName arg = arg := by simp [copiedPath, habs]
    have hstrip := strip_code_eq (copiedPath size s.cwdName arg) (by rw [hcp]; exact hane) hle
    rw [hcp] at hstrip ⊢
    simp only [habs, ne_eq, not_true_eq_false, if_false]
    rw [hstrip]
  · have hcne := hc habs
    have hstrip := strip_code_eq (copiedPath size s.cwdName arg)
      (copiedPath_ne_nil size s.cwdName arg hcne hane) hle
    obtain ⟨last, hlast⟩ : ∃ last, s.cwdName.getLast? = some last := by
      cases h : s.cwdName.getLast? with
      | none => exact absurd (List.getLast?_eq_none_iff.mp h) hcne
      | some x => exact ⟨x, rfl⟩
    have hcp : copiedPath size s.cwdName arg
        = strncat (if last ≠ '/' then strncat s.cwdName ['/'] size else s.cwdName) arg size := by
      simp [copiedPath, habs, hlast]
    rw [hcp] at hstrip ⊢
    simp only [habs, ne_eq, not_false_eq_true, if_true, hlast]
    rw [hstrip]

/-- The removal of the trailing slash in the specification, on a path that
starts with a slash and has at least two characters. -/
theorem stripSlash_eq (cand : List Char) (hh : cand.head? = some '/')
    (h2 : 2 ≤ cand.length) :
    stripSlash cand
      = (if cand.getLast? = some '/' ∧ 2 < cand.length then cand.dropLast else cand) := by
  unfold stripSlash
  match cand, hh, h2 with
  | [a, b], hh, _ =>
    have ha : a = '/' := by simpa using hh
    subst ha
    simp
  | a :: b :: c :: rest, _, _ =>
    have h3 : (a :: b :: c :: rest).dropLast ≠ [('/' : Char)] := by
      intro h
      have := congrArg List.length h
      simp at this
    have h4 : 2 < (a :: b :: c :: rest).length := by simp
    simp only [h3, h4, ne_eq, not_false_eq_true, and_true]

theorem head?_candidatePath (cwd arg : List Char) (hcwd : cwd.head? = some '/') :
    (candidatePath cwd arg).head? = some '/' := by
  unfold candidatePath joinPath
  by_cases habs : arg.head? = some '/'
  · simp [habs]
  · simp only [habs, if_false]
    split <;> simp [hcwd]

theorem length_candidatePath (cwd arg : List Char) (hcwd : cwd.head? = some '/')
    (ha : ¬ (arg = [] ∨ arg = [('/' : Char)])) : 2 ≤ (candidatePath cwd arg).length := by
  have hc : 1 ≤ cwd.length := by
    cases cwd with
    | nil => simp at hcwd
    | cons x xs => simp
  have hal : 1 ≤ arg.length := by
    cases arg with
    | nil => exact absurd (Or.inl rfl) ha
    | cons x xs => simp
  unfold candidatePath joinPath
  by_cases habs : arg.head? = some '/'
  · simp only [habs, if_true]
    match arg, habs with
    | [a], habs =>
      have : a = '/' := by simpa using habs
      subst this
      exact absurd (Or.inr rfl) ha
    | a :: b :: rest, _ => simp
  · simp only [habs, if_false]
    split
    · simp only [List.length_append]
      omega
    · simp only [List.length_append, List.length_cons]
      omega

/-- Without truncation by `strncat` the copied string is the candidate path. -/
theorem copiedPath_eq_candidatePath (size : Nat) (cwd arg : List Char)
    (h : arg.head? = some '/' ∨ (1 ≤ size ∧ arg.length ≤ size)) :
    copiedPath size cwd arg = candidatePath cwd arg := by
  unfold copiedPath candidatePath joinPath strncat
  by_cases habs : arg.head? = some '/'
  · simp [habs]
  · rcases h with h | ⟨h1, h2⟩
    · exact absurd h habs
    · simp only [habs, ne_eq, not_false_eq_true, if_true, if_false]
      rw [List.take_of_length_le h2]
      have h3 : List.take size [('/' : Char)] = ['/'] := List.take_of_length_le (by simpa using h1)
      rw [h3]
      by_cases hl : cwd.getLast? = some '/'
      · simp [hl]
      · simp [hl]

/-- The length of a path whose trailing slash may have been removed. -/
theorem length_strip_ge (cand : List Char) :
    cand.length - 1
      ≤ (if cand.getLast? = some '/' ∧ 2 < cand.length then cand.dropLast else cand).length := by
  split
  · simp
  · omega

theorem length_resolvePath_ge (cwd arg : List Char) (hcwd : cwd.head? = some '/')
    (ha : ¬ (arg = [] ∨ arg = [('/' : Char)])) :
    (candidatePath cwd arg).length - 1 ≤ (resolvePath cwd arg).length := by
  unfold resolvePath
  rw [if_neg ha, stripSlash_eq _ (head?_candidatePath cwd arg hcwd)
    (length_candidatePath cwd arg hcwd ha)]
  exact length_strip_ge _

theorem length_candidatePath_rel (cwd arg : List Char) (habs : arg.head? ≠ some '/') :
    cwd.length + arg.length ≤ (candidatePath cwd arg).length := by
  unfold candidatePath joinPath
  simp only [habs, if_false]
  split
  · simp
  · simp only [List.length_append, List.length_cons]
    omega

theorem length_copiedPath_rel (size : Nat) (cwd arg : List Char)
    (habs : arg.head? ≠ some '/') :
    cwd.length + min size arg.length ≤ (copiedPath size cwd arg).length := by
  unfold copiedPath strncat
  simp only [habs, ne_eq, not_false_eq_true, if_true]
  split
  · simp only [List.length_append, List.length_take]
    omega
  · simp only [List.length_append, List.length_take]
    omega

theorem not_root_iff (arg : List Char) :
    ¬ (arg = [('/' : Char)] ∨ arg.length = 0) ↔ ¬ (arg = [] ∨ arg = [('/' : Char)]) := by
  constructor
  · intro h h2
    rcases h2 with h2 | h2
    · exact h (Or.inr (by simp [h2]))
    · exact h (Or.inl h2)
  · intro h h2
    rcases h2 with h2 | h2
    · exact h (Or.inr h2)
    · exact h (Or.inl (List.length_eq_zero.mp h2))

theorem makePath_root (size cap : Nat) (s : FtpServer) (arg : List Char)
    (ha : arg = [] ∨ arg = [('/' : Char)]) (hcap : 2 ≤ cap) :
    makePath size cap s (some arg) = some (true, ['/'], s) := by
  have ha2 : arg = [('/' : Char)] ∨ arg.length = 0 := by
    rcases ha with h | h
    · exact Or.inr (by simp [h])
    · exact Or.inl h
  have hcap2 : ¬ cap < 2 := by omega
  simp only [makePath, if_pos ha2, if_neg hcap2]

theorem resolvePath_eq (cwd arg : List Char) (hcwd : cwd.head? = some '/')
    (ha : ¬ (arg = [] ∨ arg = [('/' : Char)])) :
    resolvePath cwd arg
      = (if (candidatePath cwd arg).getLast? = some '/' ∧ 2 < (candidatePath cwd arg).length
          then (candidatePath cwd arg).dropLast else candidatePath cwd arg) := by
  unfold resolvePath
  rw [if_neg ha, stripSlash_eq _ (head?_candidatePath cwd arg hcwd)
    (length_candidatePath cwd arg hcwd ha)]

theorem length_resolvePath_le (cwd arg : List Char) (hcwd : cwd.head? = some '/')
    (ha : ¬ (arg = [] ∨ arg = [('/' : Char)])) :
    (resolvePath cwd arg).length ≤ (candidatePath cwd arg).length := by
  rw [resolvePath_eq cwd arg hcwd ha]
  split
  · simp
  · exact Nat.le_refl _

theorem length_resolvePath_lt_pathBytes (cwd arg : List Char) (hcwd : cwd.head? = some '/') :
    (resolvePath cwd arg).length < pathBytes cwd arg := by
  unfold pathBytes
  by_cases ha : arg = [] ∨ arg = [('/' : Char)]
  · simp [resolvePath, ha]
  · rw [if_neg ha]
    have := length_resolvePath_le cwd arg hcwd ha
    omega

/-- The candidate path and its terminator take at most two bytes more than the
resolved path has characters. -/
theorem pathBytes_le_resolvePath (cwd arg : List Char) (hcwd : cwd.head? = some '/') :
    pathBytes cwd arg ≤ (resolvePath cwd arg).length + 2 := by
  unfold pathBytes
  by_cases ha : arg = [] ∨ arg = [('/' : Char)]
  · simp [resolvePath, ha]
  · rw [if_neg ha]
    have := length_resolvePath_ge cwd arg hcwd ha
    omega

/-- The string that `strcpy` and `strncat` write is never longer than the
candidate path. -/
theorem length_copiedPath_le_candidatePath (size : Nat) (cwd arg : List Char) :
    (copiedPath size cwd arg).length ≤ (candidatePath cwd arg).length := by
  unfold copiedPath candidatePath joinPath strncat
  by_cases habs : arg.head? = some '/'
  · simp [habs]
  · simp only [habs, ne_eq, not_false_eq_true, if_true, if_false]
    by_cases hl : cwd.getLast? = some '/'
    · simp only [hl, not_true_eq_false, if_false, if_true, List.length_append,
        List.length_take]
      omega
    · simp only [hl, not_false_eq_true, if_true, if_false, List.length_append,
        List.length_take, List.length_cons, List.length_nil]
      omega

/-- When the candidate path and its terminator fit the array that `fullName`
points at, `makePath` returns with the resolved path in `fullName`: true when
that path is shorter than `FTP_CWD_SIZE`, else false after the reply 500. -/
theorem makePath_defined (size cap : Nat) (s : FtpServer) (arg : List Char)
    (hsize : 2 ≤ size) (hcwd : s.cwdName.head? = some '/')
    (hlen : s.cwdName.length + arg.length < 65536)
    (hbuf : pathBytes s.cwdName arg ≤ cap)
    (hcat : arg.head? = some '/' ∨ arg.length ≤ size) :
    makePath size cap s (some arg)
      = (if (resolvePath s.cwdName arg).length < size
          then some (true, resolvePath s.cwdName arg, s)
          else some (false, resolvePath s.cwdName arg, s.reply "500 Command line too long")) := by
  by_cases ha : arg = [] ∨ arg = [('/' : Char)]
  · have hcap : 2 ≤ cap := by
      unfold pathBytes at hbuf
      rw [if_pos ha] at hbuf
      exact hbuf
    rw [makePath_root size cap s arg ha hcap]
    have hr : resolvePath s.cwdName arg = ['/'] := by simp [resolvePath, ha]
    rw [hr, if_pos (by simp only [List.length_singleton]; omega)]
  · have hcne : s.cwdName ≠ [] := by
      intro h
      simp [h] at hcwd
    have hcond : arg.head? = some '/' ∨ (1 ≤ size ∧ arg.length ≤ size) := by
      rcases hcat with h | h
      · exact Or.inl h
      · exact Or.inr ⟨by omega, h⟩
    have hcp := copiedPath_eq_candidatePath size s.cwdName arg hcond
    have hle : (copiedPath size s.cwdName arg).length ≤ 65536 := by
      have := length_copiedPath_le size s.cwdName arg
      omega
    have hcap : ¬ cap ≤ (copiedPath size s.cwdName arg).length := by
      unfold pathBytes at hbuf
      rw [if_neg ha] at hbuf
      rw [hcp]
      omega
    rw [makePath_eq size cap s arg (fun _ => hcne) hle ((not_root_iff arg).mpr ha),
      if_neg hcap, hcp, ← resolvePath_eq s.cwdName arg hcwd ha]

/-- When the resolved path is shorter than `FTP_CWD_SIZE` and the candidate
fits the array, `makePath` returns true and leaves exactly the resolved path
in `fullName`. -/
theorem makePath_fits (size cap : Nat) (s : FtpServer) (arg : List Char)
    (hcwd : s.cwdName.head? = some '/') (hlen : s.cwdName.length + arg.length < 65536)
    (hbuf : pathBytes s.cwdName arg ≤ cap)
    (hfit : (resolvePath s.cwdName arg).length < size) :
    makePath size cap s (some arg) = some (true, resolvePath s.cwdName arg, s) := by
  by_cases ha : arg = [] ∨ arg = [('/' : Char)]
  · have hcap : 2 ≤ cap := by
      unfold pathBytes at hbuf
      rw [if_pos ha] at hbuf
      exact hbuf
    rw [makePath_root size cap s arg ha hcap]
    simp [resolvePath, ha]
  · have hcne : s.cwdName ≠ [] := by
      intro h
      simp [h] at hcwd
    have h1 := length_resolvePath_ge s.cwdName arg hcwd ha
    have hcat : arg.head? = some '/' ∨ arg.length ≤ size := by
      by_cases habs : arg.head? = some '/'
      · exact Or.inl habs
      · have h2 := length_candidatePath_rel s.cwdName arg habs
        have h3 : 1 ≤ s.cwdName.length := List.length_pos.mpr hcne
        exact Or.inr (by omega)
    have hsize : 2 ≤ size := by
      have h2 := length_candidatePath s.cwdName arg hcwd ha
      omega
    rw [makePath_defined size cap s arg hsize hcwd hlen hbuf hcat, if_pos hfit]

/-- A candidate path that fits an array of `FTP_CWD_SIZE` bytes resolves with
success. -/
theorem makePath_path_buffer (size : Nat) (s : FtpServer) (arg : List Char)
    (hcwd : s.cwdName.head? = some '/') (hlen : s.cwdName.length + arg.length < 65536)
    (hbuf : pathBytes s.cwdName arg ≤ size) :
    makePath size size s (some arg) = some (true, resolvePath s.cwdName arg, s) :=
  makePath_fits size size s arg hcwd hlen hbuf
    (by have := length_resolvePath_lt_pathBytes s.cwdName arg hcwd; omega)

/-- A candidate path that does not fit the array with its terminator: `strcpy`
and `strncat` write past the end of the array. -/
theorem makePath_overrun (size cap : Nat) (s : FtpServer) (arg : List Char)
    (hcwd : s.cwdName.head? = some '/') (hlen : s.cwdName.length + arg.length < 65536)
    (hcat : arg.head? = some '/' ∨ arg.length ≤ size)
    (hbuf : cap < pathBytes s.cwdName arg) :
    makePath size cap s (some arg) = none := by
  by_cases ha : arg = [] ∨ arg = [('/' : Char)]
  · have ha2 : arg = [('/' : Char)] ∨ arg.length = 0 := by
      rcases ha with h | h
      · exact Or.inr (by simp [h])
      · exact Or.inl h
    have hcap : cap < 2 := by
      unfold pathBytes at hbuf
      rw [if_pos ha] at hbuf
      exact hbuf
    simp only [makePath, if_pos ha2, if_pos hcap]
  · have hcne : s.cwdName ≠ [] := by
      intro h
      simp [h] at hcwd
    have hane : arg ≠ [] := fun h => ha (Or.inl h)
    have hcond : arg.head? = some '/' ∨ (1 ≤ size ∧ arg.length ≤ size) := by
      rcases hcat with h | h
      · exact Or.inl h
      · exact Or.inr ⟨by have := List.length_pos.mpr hane; omega, h⟩
    have hcp := copiedPath_eq_candidatePath size s.cwdName arg hcond
    have hle : (copiedPath size s.cwdName arg).length ≤ 65536 := by
      have := length_copiedPath_le size s.cwdName arg
      omega
    have hcap : cap ≤ (copiedPath size s.cwdName arg).length := by
      unfold pathBytes at hbuf
      rw [if_neg ha] at hbuf
      rw [hcp]
      omega
    rw [makePath_eq size cap s arg (fun _ => hcne) hle ((not_root_iff arg).mpr ha),
      if_pos hcap]

/-- What every result of `makePath` looks like: the array holds the string with
its terminator, the return value is true exactly when the string is shorter
than `FTP_CWD_SIZE`, and the reply 500 is printed exactly when it is false. -/
theorem makePath_result (size cap : Nat) (s : FtpServer) (p : Option (List Char)) (ok : Bool)
    (full : List Char) (s' : FtpServer) (h : makePath size cap s p = some (ok, full, s')) :
    full.length < cap
      ∧ (ok = true → s' = s)
      ∧ (ok = false → size ≤ full.length ∧ s' = s.reply "500 Command line too long") := by
  have key : ∀ c fn : List Char, ¬ cap ≤ c.length → fn.length ≤ c.length →
      (if fn.length < size then some (true, fn, s)
        else some (false, fn, s.reply "500 Command line too long")) = some (ok, full, s') →
      full.length < cap
        ∧ (ok = true → s' = s)
        ∧ (ok = false → size ≤ full.length ∧ s' = s.reply "500 Command line too long") := by
    intro c fn hc hfn hh
    split at hh
    · simp only [Option.some.injEq, Prod.mk.injEq] at hh
      obtain ⟨rfl, rfl, rfl⟩ := hh
      exact ⟨by omega, fun _ => rfl, fun hb => absurd hb (by decide)⟩
    · rename_i hlt
      simp only [Option.some.injEq, Prod.mk.injEq] at hh
      obtain ⟨rfl, rfl, rfl⟩ := hh
      exact ⟨by omega, fun hb => absurd hb (by decide), fun _ => ⟨by omega, rfl⟩⟩
  unfold makePath at h
  split at h
  · exact Option.noConfusion h
  · split at h
    · split at h
      · exact Option.noConfusion h
      · rename_i hcap
        simp only [Option.some.injEq, Prod.mk.injEq] at h
        obtain ⟨rfl, rfl, rfl⟩ := h
        exact ⟨by simp only [List.length_singleton]; omega, fun _ => rfl,
          fun hb => absurd hb (by decide)⟩
    · dsimp only at h
      split at h
      · exact Option.noConfusion h
      · rename_i copied hcop
        split at h
        · exact Option.noConfusion h
        · rename_i hcap
          split at h
          · exact key copied _ hcap (by simp only [List.length_take]; omega) h
          · exact key copied _ hcap (Nat.le_refl _) h

/-! ## C2: what `makePath` produces -/

set_option maxRecDepth 100000 in
/-- C2 does not hold: in the directory `/data` the argument of 257 letters has
the candidate path `/data/xxx...` of 263 characters, which is `FTP_CWD_SIZE`.
`makePath` copies it with its terminator, 264 bytes, into
`char path[FTP_CWD_SIZE]`: the call has no defined result, and neither has the
command `DELE` that makes it.  In a directory of 200 characters the argument
of 61 letters followed by a slash has a resolved path of 262 characters and a
candidate of 263, which is copied before the slash is removed: no defined
result either.  With 256 letters in `/data` the candidate fits and `makePath`
leaves it in `fullName`. -/
theorem makePath_candidate_overruns_buffer :
    (candidatePath "/data".toList (List.replicate 257 'x')).length = 263
      ∧ makePath 263 263 { session 5 [] with cwdName := "/data".toList }
          (some (List.replicate 257 'x')) = none
      ∧ processCommand defaultConfig listFS 1000
          (withLine { session 5 [] with cwdName := "/data".toList } "DELE".toList
            (List.replicate 257 'x')) [] = none
      ∧ (resolvePath ('/' :: List.replicate 199 'd')
          (List.replicate 61 'x' ++ ['/'])).length = 262
      ∧ makePath 263 263 { session 5 [] with cwdName := '/' :: List.replicate 199 'd' }
          (some (List.replicate 61 'x' ++ ['/'])) = none
      ∧ (makePath 263 263 { session 5 [] with cwdName := "/data".toList }
          (some (List.replicate 256 'x'))).map (fun r => (r.1, r.2.1))
          = some (true, "/data/".toList ++ List.replicate 256 'x') :=
  ⟨by decide, rfl, rfl, by decide, rfl, by decide⟩

/-- What `makePath` produces when the path fits.  The current directory starts
with a slash, the strings are shorter
than 64 KiB (the index of the last character is a `uint16_t`), and the
candidate path fits, with its terminator, the array of `cap` bytes that
`fullName` points at.  Then `makePath` leaves in `fullName` the resolved path:
`/` for an empty argument or for `/`; else the candidate (the argument itself
when it starts with a slash, else the current directory joined to it by a
single slash) without its trailing slash, the slash being kept where its
removal would leave the root `/`.  In an array of at most `FTP_CWD_SIZE` bytes
(the buffers `path`) it returns true; in a larger one (`buf`), for an argument
that `strncat` does not cut, it returns true when the resolved path is shorter
than `FTP_CWD_SIZE` and false after the reply 500 otherwise. -/
theorem makePath_resolves (size cap : Nat) (s : FtpServer) (arg : List Char)
    (hcwd : s.cwdName.head? = some '/') (hlen : s.cwdName.length + arg.length < 65536)
    (hbuf : pathBytes s.cwdName arg ≤ cap) :
    (cap ≤ size → makePath size cap s (some arg) = some (true, resolvePath s.cwdName arg, s))
      ∧ (2 ≤ size → (arg.head? = some '/' ∨ arg.length ≤ size) →
          makePath size cap s (some arg)
            = (if (resolvePath s.cwdName arg).length < size
                then some (true, resolvePath s.cwdName arg, s)
                else some (false, resolvePath s.cwdName arg,
                  s.reply "500 Command line too long")))
      ∧ resolvePath s.cwdName arg
          = (if arg = [] ∨ arg = [('/' : Char)] then ['/']
             else stripSlash (if arg.head? = some '/' then arg else joinPath s.cwdName arg))
      ∧ pathBytes s.cwdName arg
          = (if arg = [] ∨ arg = [('/' : Char)] then 2
             else (if arg.head? = some '/' then arg else joinPath s.cwdName arg).length + 1) :=
  ⟨fun hcs => makePath_fits size cap s arg hcwd hlen hbuf
      (by have := length_resolvePath_lt_pathBytes s.cwdName arg hcwd; omega),
    fun hsize hcat => makePath_defined size cap s arg hsize hcwd hlen hbuf hcat, rfl, rfl⟩

/-- The argument `docs/` in the directory `/data`. -/
theorem makePath_resolves_witness :
    makePath 263 263 { cwdName := "/data".toList } (some "docs/".toList)
      = some (true, "/data/docs".toList, { cwdName := "/data".toList }) :=
  (makePath_resolves 263 263 { cwdName := "/data".toList } "docs/".toList
    (by decide) (by decide) (by decide)).1 (by decide)

/-! ## C7: failure of `makePath` -/

set_option maxRecDepth 100000 in
/-- C7 does not hold: in the directory `/abc` the argument of 258 letters
resolves to a path of 263 characters, which is `FTP_CWD_SIZE`.  `makePath`
copies it into `char path[FTP_CWD_SIZE]` with its terminator, 264 bytes,
before it tests the length: the run has no defined result and no reply 500,
for `makePath` and for the command `MKD` that calls it.  In a directory of 100
characters an argument of 162 characters that ends in a slash has a resolved
path of 262 characters, which fits, and a candidate of 263, which is copied
first and does not.  In an array of 1024 bytes (`buf`) the first path gives
false and the reply 500. -/
theorem makePath_overruns_path_buffer :
    (resolvePath "/abc".toList (List.replicate 258 'a')).length = 263
      ∧ makePath 263 263 { session 5 [] with cwdName := "/abc".toList }
          (some (List.replicate 258 'a')) = none
      ∧ processCommand defaultConfig listFS 1000
          (withLine { session 5 [] with cwdName := "/abc".toList } "MKD".toList
            (List.replicate 258 'a')) [] = none
      ∧ (resolvePath ('/' :: List.replicate 99 'd')
          (List.replicate 161 'a' ++ ['/'])).length = 262
      ∧ makePath 263 263 { session 5 [] with cwdName := '/' :: List.replicate 99 'd' }
          (some (List.replicate 161 'a' ++ ['/'])) = none
      ∧ (makePath 263 1024 { session 5 [] with cwdName := "/abc".toList }
          (some (List.replicate 258 'a'))).map
            (fun r => (r.1, r.2.1.length, r.2.2.client.tx))
          = some (false, 263, ["500 Command line too long"]) :=
  ⟨by decide, rfl, rfl, by decide, rfl, by decide⟩

/-- In an array of `FTP_CWD_SIZE` bytes `makePath` never returns false and
never prints the reply 500: whenever it has a result, the result is true, the
string in `fullName` is shorter than `FTP_CWD_SIZE` and the state is
unchanged. -/
theorem makePath_path_buffer_true (size : Nat) (s : FtpServer) (p : Option (List Char))
    (ok : Bool) (full : List Char) (s' : FtpServer)
    (h : makePath size size s p = some (ok, full, s')) :
    ok = true ∧ full.length < size ∧ s' = s := by
  obtain ⟨h1, h2, h3⟩ := makePath_result size size s p ok full s' h
  cases ok with
  | true => exact ⟨rfl, h1, h2 rfl⟩
  | false =>
    have := (h3 rfl).1
    omega

theorem makePath_path_buffer_true_witness :
    makePath 263 263 { cwdName := "/data".toList } (some "docs".toList)
        = some (true, "/data/docs".toList, { cwdName := "/data".toList })
      ∧ "/data/docs".toList.length < 263 :=
  ⟨rfl, (makePath_path_buffer_true 263 { cwdName := "/data".toList } (some "docs".toList)
    true "/data/docs".toList { cwdName := "/data".toList } rfl).2.1⟩

/-- For a candidate path that fits the array and an argument that `strncat`
does not cut, `makePath` returns false exactly when the resolved path has
`FTP_CWD_SIZE` characters or more, and it then prints `500 Command line too
long`; when it returns true, `fullName` holds the whole resolved path, which
is shorter than `FTP_CWD_SIZE`, and nothing is printed. -/
theorem makePath_fails_iff_too_long (size cap : Nat) (s : FtpServer) (arg : List Char)
    (hsize : 2 ≤ size) (hcwd : s.cwdName.head? = some '/')
    (hlen : s.cwdName.length + arg.length < 65536)
    (hbuf : pathBytes s.cwdName arg ≤ cap)
    (hcat : arg.head? = some '/' ∨ arg.length ≤ size) :
    ∃ ok full s', makePath size cap s (some arg) = some (ok, full, s')
      ∧ full = resolvePath s.cwdName arg
      ∧ (ok = false ↔ size ≤ (resolvePath s.cwdName arg).length)
      ∧ (ok = false → s' = s.reply "500 Command line too long")
      ∧ (ok = true → full.length < size ∧ s' = s) := by
  have hd := makePath_defined size cap s arg hsize hcwd hlen hbuf hcat
  by_cases hfit : (resolvePath s.cwdName arg).length < size
  · rw [if_pos hfit] at hd
    refine ⟨true, resolvePath s.cwdName arg, s, hd, rfl, ?_, ?_, ?_⟩
    · constructor
      · intro h
        cases h
      · intro h
        omega
    · intro h
      cases h
    · intro _
      exact ⟨hfit, rfl⟩
  · rw [if_neg hfit] at hd
    refine ⟨false, resolvePath s.cwdName arg, s.reply "500 Command line too long", hd, rfl,
      ?_, ?_, ?_⟩
    · constructor
      · intro _
        omega
      · intro _
        rfl
    · intro _
      rfl
    · intro h
      cases h

/-- The path `/data/docs` in the buffer of 1024 bytes, with `FTP_CWD_SIZE` set
to 8. -/
theorem makePath_fails_iff_too_long_witness :
    ∃ ok full s', makePath 8 1024 { cwdName := "/data".toList } (some "docs".toList)
        = some (ok, full, s')
      ∧ full = resolvePath "/data".toList "docs".toList
      ∧ (ok = false ↔ 8 ≤ (resolvePath "/data".toList "docs".toList).length)
      ∧ (ok = false →
          s' = FtpServer.reply { cwdName := "/data".toList } "500 Command line too long")
      ∧ (ok = true → full.length < 8 ∧ s' = { cwdName := "/data".toList }) :=
  makePath_fails_iff_too_long 8 1024 { cwdName := "/data".toList } "docs".toList
    (by decide) (by decide) (by decide) (by decide) (by decide)

/-! ## C6: resolving a resolved path again -/

/-- C6, counterexample. In the root directory the absolute argument `/a//`
resolves to `/a/`, and `/a/` resolves to `/a`: resolving the result again
gives another path. -/
theorem makePath_not_idempotent :
    (makePath 263 263 (session 5 []) (some "/a//".toList)).map (fun r => (r.1, r.2.1))
        = some (true, "/a/".toList)
      ∧ (makePath 263 263 (session 5 []) (some "/a/".toList)).map (fun r => (r.1, r.2.1))
        = some (true, "/a".toList) := by
  decide

/-- C6, amended. The argument `p` starts with a slash, is shorter than 64 KiB
and does not end in two slashes (or has fewer than four characters). If
`makePath` resolves it with success to `r`, then `makePath` applied to `r`
succeeds with `r` again, whatever the current directory. -/
theorem makePath_idempotent_absolute (size cap : Nat) (s s' : FtpServer) (p r : List Char)
    (habs : p.head? = some '/') (hlen : p.length ≤ 65536)
    (hp : p.length < 4 ∨ p.getLast? ≠ some '/' ∨ p.dropLast.getLast? ≠ some '/')
    (hres : makePath size cap s (some p) = some (true, r, s')) :
    makePath size cap s' (some r) = some (true, r, s') := by
  have hrcap := (makePath_result size cap s (some p) true r s' hres).1
  by_cases ha : p = [] ∨ p = [('/' : Char)]
  · have hcap : 2 ≤ cap := by
      by_contra hc
      have ha2 : p = [('/' : Char)] ∨ p.length = 0 := by
        rcases ha with h | h
        · exact Or.inr (by simp [h])
        · exact Or.inl h
      simp only [makePath, if_pos ha2, if_pos (show cap < 2 by omega)] at hres
      exact Option.noConfusion hres
    rw [makePath_root size cap s p ha hcap] at hres
    simp only [Option.some.injEq, Prod.mk.injEq, true_and] at hres
    obtain ⟨h1, h2⟩ := hres
    subst h1 h2
    exact makePath_root size cap s ['/'] (Or.inr rfl) hcap
  · have hcp : copiedPath size s.cwdName p = p := by simp [copiedPath, habs]
    rw [makePath_eq size cap s p (fun h => absurd habs h) (by rw [hcp]; exact hlen)
      ((not_root_iff p).mpr ha), hcp] at hres
    by_cases hov : cap ≤ p.length
    · rw [if_pos hov] at hres
      exact Option.noConfusion hres
    rw [if_neg hov] at hres
    have hp2 : 2 ≤ p.length := by
      match p, habs, ha with
      | [a], habs, ha =>
        have : a = '/' := by simpa using habs
        subst this
        exact absurd (Or.inr rfl) ha
      | a :: b :: rest, _, _ => simp
    by_cases hfit : (if p.getLast? = some '/' ∧ 2 < p.length then p.dropLast else p).length
        < size
    · rw [if_pos hfit] at hres
      simp only [Option.some.injEq, Prod.mk.injEq, true_and] at hres
      obtain ⟨h1, h2⟩ := hres
      subst h2
      have hr2 : 2 ≤ r.length := by
        rw [← h1]
        split
        · simp only [List.length_dropLast]
          omega
        · exact hp2
      have hrh : r.head? = some '/' := by
        rw [← h1]
        split
        · rename_i hc
          rw [List.head?_dropLast, if_pos (by omega)]
          exact habs
        · exact habs
      have hrstrip : ¬ (r.getLast? = some '/' ∧ 2 < r.length) := by
        rw [← h1]
        by_cases hc : p.getLast? = some '/' ∧ 2 < p.length
        · rw [if_pos hc]
          simp only [List.length_dropLast]
          rintro ⟨h3, h4⟩
          rcases hp with hp | hp | hp
          · omega
          · exact hp hc.1
          · exact hp h3
        · rw [if_neg hc]
          exact hc
      have hra : ¬ (r = [] ∨ r = [('/' : Char)]) := by
        rintro (h | h)
        · rw [h] at hr2
          simp at hr2
        · rw [h] at hr2
          simp at hr2
      have hcr : copiedPath size s.cwdName r = r := by simp [copiedPath, hrh]
      have hrlen : r.length ≤ 65536 := by
        rw [← h1]
        split
        · simp only [List.length_dropLast]
          omega
        · exact hlen
      rw [makePath_eq size cap s r (fun h => absurd hrh h) (by rw [hcr]; exact hrlen)
        ((not_root_iff r).mpr hra), hcr, if_neg (show ¬ cap ≤ r.length by omega),
        if_neg hrstrip]
      rw [h1] at hfit
      rw [if_pos hfit]
    · rw [if_neg hfit] at hres
      simp at hres

/-- Witness for the amended C6: the argument `/data/docs/`. -/
theorem makePath_idempotent_absolute_witness :
    makePath 263 263 { cwdName := "/x".toList } (some "/data/docs".toList)
      = some (true, "/data/docs".toList, { cwdName := "/x".toList }) :=
  makePath_idempotent_absolute 263 263 { cwdName := "/x".toList } { cwdName := "/x".toList }
    "/data/docs/".toList "/data/docs".toList (by decide) (by decide) (by decide)
    (by simp [makePath, copiedPath, strncat, toUInt16, NUL])

/-! ## C5: the parent directory -/

theorem dropWhile_reverse_of_not_mem (xs : List Char) (c : Char) (h : c ∉ xs) :
    xs.reverse.dropWhile (· ≠ c) = [] := by
  rw [List.dropWhile_eq_nil_iff]
  intro x hx
  have hx2 : x ∈ xs := List.mem_reverse.mp hx
  have : x ≠ c := fun e => h (e ▸ hx2)
  simpa using this

theorem dropWhile_reverse_ne_nil (xs : List Char) (c : Char) (h : c ∈ xs) :
    xs.reverse.dropWhile (· ≠ c) ≠ [] := by
  intro h2
  rw [List.dropWhile_eq_nil_iff] at h2
  have := h2 c (List.mem_reverse.mpr h)
  simp at this

theorem dropWhile_append_of_ne_nil (l1 l2 : List Char) (p : Char → Bool)
    (h : l1.dropWhile p ≠ []) : (l1 ++ l2).dropWhile p = l1.dropWhile p ++ l2 := by
  induction l1 with
  | nil => simp at h
  | cons x l1 ih =>
    by_cases hx : p x
    · simp only [List.cons_append, List.dropWhile_cons, hx, if_true] at h ⊢
      exact ih h
    · simp [List.dropWhile_cons, hx]

theorem strrchr_eq_none (t : List Char) (c : Char) : strrchr t c = none ↔ c ∉ t := by
  induction t with
  | nil => simp [strrchr]
  | cons x xs ih =>
    cases hs : strrchr xs c with
    | some k =>
      have hm : c ∈ xs := by
        by_contra hn
        rw [ih.mpr hn] at hs
        cases hs
      simp [strrchr, hs, hm]
    | none =>
      have hn := ih.mp hs
      by_cases hx : x = c
      · simp [strrchr, hs, hx]
      · have hx2 : ¬ c = x := fun e => hx e.symm
        simp [strrchr, hs, hx, hn, hx2]

theorem drop_one_append (l1 l2 : List Char) (h : l1 ≠ []) :
    (l1 ++ l2).drop 1 = l1.drop 1 ++ l2 := by
  cases l1 with
  | nil => exact absurd rfl h
  | cons x l1 => rfl

/-- What `strrchr` finds, in terms of the text before the last occurrence. -/
theorem strrchr_slash (t : List Char) :
    ∀ k, strrchr t '/' = some k → t.take k = beforeLastSlash t := by
  induction t with
  | nil => simp [strrchr]
  | cons x xs ih =>
    intro k hk
    cases hs : strrchr xs '/' with
    | some j =>
      have hmem : '/' ∈ xs := by
        by_contra hn
        rw [(strrchr_eq_none xs '/').mpr hn] at hs
        cases hs
      have hne := dropWhile_reverse_ne_nil xs '/' hmem
      have hk2 : k = j + 1 := by
        simp only [strrchr, hs, Option.some.injEq] at hk
        exact hk.symm
      subst hk2
      have h1 := ih j hs
      unfold beforeLastSlash at h1 ⊢
      rw [List.reverse_cons, dropWhile_append_of_ne_nil _ _ _ hne, drop_one_append _ _ hne,
        List.reverse_append, ← h1]
      rfl
    | none =>
      have hn := (strrchr_eq_none xs '/').mp hs
      by_cases hx : x = '/'
      · have hk2 : k = 0 := by
          simp only [strrchr, hs, hx, if_true, Option.some.injEq] at hk
          exact hk.symm
        subst hk2
        unfold beforeLastSlash
        have hall : ∀ a ∈ xs.reverse, (fun y : Char => decide (y ≠ '/')) a = true := by
          intro a ha
          have ha2 : a ∈ xs := List.mem_reverse.mp ha
          have : a ≠ '/' := fun e => hn (e ▸ ha2)
          simpa using this
        rw [List.reverse_cons, List.dropWhile_append_of_pos hall, hx]
        simp
      · simp [strrchr, hs, hx] at hk

theorem beforeLastSlash_of_not_mem (t : List Char) (h : '/' ∉ t) : beforeLastSlash t = [] := by
  unfold beforeLastSlash
  rw [dropWhile_reverse_of_not_mem t '/' h]
  rfl

theorem beforeLastSlash_short (cwd : List Char) (h : ¬ cwd.length > 1) :
    beforeLastSlash (if cwd.getLast? = some '/' then cwd.dropLast else cwd) = [] := by
  match cwd, h with
  | [], _ => rfl
  | [x], _ =>
    by_cases hx : x = '/'
    · subst hx
      rfl
    · have h1 : ¬ ([x].getLast? = some '/') := by simpa using hx
      rw [if_neg h1]
      apply beforeLastSlash_of_not_mem
      simpa using fun e : '/' = x => hx e.symm
  | a :: b :: rest, h => simp at h

/-- The directory computed by the branch `CDUP` is the parent directory of the
specification. -/
theorem cdupTarget_eq_parentDir (pathExists : List Char → Bool) (cwd : List Char) :
    cdupTarget pathExists cwd = parentDir pathExists cwd := by
  unfold cdupTarget parentDir
  by_cases hlen : cwd.length > 1
  · simp only [hlen, if_true]
    generalize (if cwd.getLast? = some '/' then cwd.dropLast else cwd) = t
    cases hs : strrchr t '/' with
    | some k =>
      have hB := strrchr_slash t k hs
      rw [← hB]
      by_cases hk : k > 0
      · have htne : t ≠ [] := by
          intro h
          rw [h] at hs
          simp [strrchr] at hs
        have hne : t.take k ≠ [] := by
          intro h
          rw [List.take_eq_nil_iff] at h
          rcases h with h | h
          · omega
          · exact htne h
        by_cases hex : pathExists (t.take k) = true
        · simp [hk, hex, hne]
        · simp [hk, hex]
      · have hk0 : k = 0 := by omega
        subst hk0
        simp
    | none =>
      have hB := beforeLastSlash_of_not_mem t ((strrchr_eq_none t '/').mp hs)
      simp [hB]
  · simp only [hlen, if_false, beforeLastSlash_short cwd hlen]
    simp

/-- C5. For every state of the session and of the filesystem, the command
`CDUP`, and the command `CWD` with the argument `..`, set `cwdName` to the text
before the last slash of the current directory, taken after one trailing slash
has been dropped, when that text is not empty (the slash is not at position 0)
and exists in the filesystem, and to `/` in every other case; the reply is
`250 Ok. Current directory is` followed by the new directory, and
`processCommand` returns true. -/
theorem processCommand_CDUP {σ : Type} (cfg : Config) (F : FS σ) (now : Nat) (s : FtpServer)
    (fs : σ)
    (h : s.command = "CDUP".toList
      ∨ (s.command = "CWD".toList ∧ s.params = some "..".toList)) :
    processCommand cfg F now s fs
      = some (true,
          { s with cwdName := parentDir (F.exists_ fs) s.cwdName }.reply
            ("250 Ok. Current directory is " ++ str (parentDir (F.exists_ fs) s.cwdName)),
          fs) := by
  have hne : "CWD".toList ≠ "CDUP".toList := by decide
  rcases h with h | ⟨h1, h2⟩
  · simp [processCommand, h, processCDUP, cdupTarget_eq_parentDir]
  · simp [processCommand, h1, h2, hne, processCDUP, cdupTarget_eq_parentDir]

/-- Witness for C5: from `/a/b` to `/a` when `/a` exists, from `/a` to `/`, and
from `/` to `/`. -/
theorem processCommand_CDUP_witness :
    ((processCommand defaultConfig listFS 0
        { cwdName := "/a/b".toList, command := "CDUP".toList } ["/a".toList]).map
          (fun r => r.2.1.cwdName) = some "/a".toList)
      ∧ ((processCommand defaultConfig listFS 0
        { cwdName := "/a".toList, command := "CDUP".toList } ["/a".toList]).map
          (fun r => r.2.1.cwdName) = some "/".toList)
      ∧ ((processCommand defaultConfig listFS 0
        { cwdName := "/".toList, command := "CDUP".toList } ["/a".toList]).map
          (fun r => r.2.1.cwdName) = some "/".toList) := by
  refine ⟨?_, ?_, ?_⟩
  · rw [processCommand_CDUP defaultConfig listFS 0
      { cwdName := "/a/b".toList, command := "CDUP".toList } ["/a".toList] (Or.inl rfl)]
    decide
  · rw [processCommand_CDUP defaultConfig listFS 0
      { cwdName := "/a".toList, command := "CDUP".toList } ["/a".toList] (Or.inl rfl)]
    decide
  · rw [processCommand_CDUP defaultConfig listFS 0
      { cwdName := "/".toList, command := "CDUP".toList } ["/a".toList] (Or.inl rfl)]
    decide

/-! ## C4: the identity line -/

set_option maxRecDepth 100000 in
/-- C4, at the failing input. The configured user is `esp32` and the session
waits for the user identity (`cmdStatus` 3). The line `NOOP esp32`, whose verb
is not `USER`, is answered `500 Syntax error` and then
`331 OK. Password required`, `userIdentity` returns true and the session moves
to `cmdStatus` 4. The line `USER` without an argument hands a null
`parameters` to `strcmp`. -/
theorem userIdentity_accepts_any_verb :
    (((readCharN 263 12 (session 3 ("NOOP esp32".toList ++ [CR, LF]))).bind
        (fun r => userIdentity 1000 r.2)).map (fun r => r.1) = some true)
      ∧ ((ticks defaultConfig listFS 1000 12
          (session 3 ("NOOP esp32".toList ++ [CR, LF])) []).map
            (fun r => (r.1.cmdStatus, r.1.client.tx))
          = some (4, ["500 Syntax error", "331 OK. Password required"]))
      ∧ ((ticks defaultConfig listFS 1000 6
          (session 3 ("USER".toList ++ [CR, LF])) []).map
            (fun r => r.1.cmdStatus) = none) := by
  decide

/-! ## C3: a client that replaces the current one -/

set_option maxRecDepth 100000 in
/-- C3, at the failing input. The session is ready (`cmdStatus` 5) when a new
client, which has sent `PWD`, waits on the control listener. The tick that
accepts it leaves `cmdStatus` at 5, and after five ticks the new client has
received neither the greeting 220 nor a request for its identity, but the
reply of `processCommand` to its first line,
`257 "/" is your current directory`; the session is still ready. -/
theorem handleFTP_new_client_inherits_session :
    ((handleFTP defaultConfig listFS 1000
        { session 5 [] with
          ftpServer := [{ connected := true, rx := "PWD".toList ++ [CR, LF] }] } []).map
          (fun r => (r.1.cmdStatus, r.1.client.rx, r.1.client.tx))
        = some (5, "WD".toList ++ [CR, LF], []))
      ∧ ((ticks defaultConfig listFS 1000 5
          { session 5 [] with
            ftpServer := [{ connected := true, rx := "PWD".toList ++ [CR, LF] }] } []).map
            (fun r => (r.1.cmdStatus, r.1.client.tx))
          = some (5, ["257 \"/\" is your current directory"])) := by
  decide

/-- In every state, a line whose argument is the configured user name makes
`userIdentity` return true, whatever its verb. -/
theorem userIdentity_ignores_verb (now : Nat) (s : FtpServer)
    (h : s.params = some s._FTP_USER) :
    (userIdentity now s).map (fun r => r.1) = some true := by
  have h2 : (if s.command ≠ "USER".toList then s.reply "500 Syntax error" else s).params
      = some s._FTP_USER := by
    split
    · exact h
    · exact h
  have h3 : (if s.command ≠ "USER".toList then s.reply "500 Syntax error" else s)._FTP_USER
      = s._FTP_USER := by
    split <;> rfl
  unfold userIdentity
  simp only [h2, h3, ne_eq, not_true_eq_false, if_false, Option.map_some']

/-- Witness: the verb `NOOP` with the user name `esp32`. -/
theorem userIdentity_ignores_verb_witness :
    (userIdentity 0 { _FTP_USER := "esp32".toList, command := "NOOP".toList
                      cmdLine := "NOOP esp32".toList, parameters := some 5 }).map
      (fun r => r.1) = some true :=
  userIdentity_ignores_verb 0 { _FTP_USER := "esp32".toList, command := "NOOP".toList
                                cmdLine := "NOOP esp32".toList, parameters := some 5 }
    (by decide)

/-- In a connected state with no transfer running and the idle deadline not
reached, a tick that finds a connected client without pending bytes on the
control listener replaces `client` by it and changes nothing else. -/
theorem handleFTP_accept_keeps_session {σ : Type} (cfg : Config) (F : FS σ) (now : Nat)
    (s : FtpServer) (fs : σ) (c : WiFiClient) (rest : List WiFiClient)
    (hgate : ¬ toInt32 ((s.millisDelay : Int) - now) > 0)
    (hnew : s.ftpServer = c :: rest) (hc : c.connected = true) (hrx : c.rx = [])
    (hst : 2 < s.cmdStatus) (htr : s.transferStatus = 0)
    (hdl : toInt32 ((s.millisEndConnection : Int) - now) > 0) :
    handleFTP cfg F now s fs = some ({ s with client := c, ftpServer := rest }, fs) := by
  have h0 : s.cmdStatus ≠ 0 := by omega
  have h1 : s.cmdStatus ≠ 1 := by omega
  have h2 : s.cmdStatus ≠ 2 := by omega
  simp [handleFTP, hgate, hnew, h0, h1, h2, readChar, hrx, hc, handleTransfer, htr, hdl]

/-- Witness: a ready session and a new client. -/
theorem handleFTP_accept_keeps_session_witness :
    handleFTP defaultConfig listFS 1000
        { session 5 [] with ftpServer := [{ connected := true }] } []
      = some ({ session 5 [] with client := { connected := true }, ftpServer := [] }, []) :=
  handleFTP_accept_keeps_session defaultConfig listFS 1000
    { session 5 [] with ftpServer := [{ connected := true }] } [] { connected := true } []
    (by decide) rfl rfl rfl (by decide) rfl (by decide)

/-! ## C20: the throughput of a finished transfer -/

/-- C20. For every clock value and every state, `closeTransfer` executes no
division by zero: with the division taken as a partial operation it still
returns, and returns the same state. With `deltaT` the elapsed time as a
32-bit unsigned number: when `deltaT` is zero the only line printed is
`226 File successfully transferred`; the two lines with the quotient
`bytesTransferred / deltaT` are printed when `deltaT` and `bytesTransferred`
are both non-zero, and in no other case. -/
theorem closeTransfer_no_division_by_zero (now : Nat) (s : FtpServer) :
    closeTransferChecked now s = some (closeTransfer now s)
      ∧ (toUInt32 ((now : Int) - s.millisBeginTrans) = 0 →
          (closeTransfer now s).client.tx
            = s.client.tx ++ ["226 File successfully transferred"])
      ∧ (toUInt32 ((now : Int) - s.millisBeginTrans) ≠ 0 → s.bytesTransferred ≠ 0 →
          (closeTransfer now s).client.tx
            = s.client.tx ++ ["226-File successfully transferred",
                "226 " ++ decimal (toUInt32 ((now : Int) - s.millisBeginTrans)) ++ " ms, "
                  ++ decimal (s.bytesTransferred / toUInt32 ((now : Int) - s.millisBeginTrans))
                  ++ " kbytes/s"])
      ∧ (s.bytesTransferred = 0 →
          (closeTransfer now s).client.tx
            = s.client.tx ++ ["226 File successfully transferred"]) := by
  refine ⟨?_, ?_, ?_, ?_⟩
  · unfold closeTransferChecked closeTransfer udiv
    by_cases h : toUInt32 ((now : Int) - s.millisBeginTrans) > 0 ∧ s.bytesTransferred > 0
    · have h0 : toUInt32 ((now : Int) - s.millisBeginTrans) ≠ 0 := by omega
      simp [h, h0, FtpServer.reply]
    · simp [h]
  · intro h
    simp [closeTransfer, h, FtpServer.reply, WiFiClient.println]
  · intro h1 h2
    have h : toUInt32 ((now : Int) - s.millisBeginTrans) > 0 ∧ s.bytesTransferred > 0 := by
      omega
    simp [closeTransfer, h, FtpServer.reply, WiFiClient.println]
  · intro h
    simp [closeTransfer, h, FtpServer.reply, WiFiClient.println]

/-! ## C13: the end of a transfer -/

/-- What `closeTransfer` leaves behind: the file and the data socket are
closed, and the reply printed is the line `226 File successfully transferred`
or the two lines that start with `226-File successfully transferred`. -/
theorem closeTransfer_effects (now : Nat) (s : FtpServer) :
    (closeTransfer now s).file.isOpen = false
      ∧ (closeTransfer now s).data.connected = false
      ∧ ((closeTransfer now s).client.tx = s.client.tx ++ ["226 File successfully transferred"]
        ∨ ∃ l, (closeTransfer now s).client.tx
            = s.client.tx ++ ["226-File successfully transferred", l])
      ∧ (closeTransfer now s).transferStatus = s.transferStatus := by
  unfold closeTransfer
  by_cases h : toUInt32 ((now : Int) - s.millisBeginTrans) > 0 ∧ s.bytesTransferred > 0
  · simp [h, FtpServer.reply, WiFiClient.println, File.close, WiFiClient.stop]
  · simp [h, FtpServer.reply, WiFiClient.println, File.close, WiFiClient.stop]

theorem writeBytes_nil (mem : List Char) : writeBytes mem [] = mem := by
  simp [writeBytes]

/-- A step of `doRetrieve` that reads no byte from the file. -/
theorem doRetrieve_zero_read (cfg : Config) (now : Nat) (s : FtpServer)
    (hz : (if s.file.isOpen then s.file.rd.take cfg.FTP_BUF_SIZE else []) = []) :
    doRetrieve cfg now s = (false, closeTransfer now s) := by
  unfold doRetrieve
  by_cases hc : s.data.connected = true
  · have h0 : ¬ toInt16 ((0 : Nat) : Int) > 0 := by decide
    simp only [hc, if_true]
    rw [hz]
    simp only [List.length_nil, h0, if_false, writeBytes_nil, List.drop_zero]
  · simp [hc]

/-- A step of `doStore` on a data socket that is no longer connected. -/
theorem doStore_disconnected (cfg : Config) (now : Nat) (s : FtpServer)
    (hc : s.data.connected = false) :
    doStore cfg now s = (false, closeTransfer now s) := by
  simp [doStore, hc]

/-- A step of `doStore` that reads no byte from the connected data socket. -/
theorem doStore_zero_read (cfg : Config) (now : Nat) (s : FtpServer)
    (hc : s.data.connected = true) (hz : s.data.rx.take cfg.FTP_BUF_SIZE = []) :
    doStore cfg now s = (true, s) := by
  unfold doStore
  have h0 : ¬ toInt16 ((0 : Nat) : Int) > 0 := by decide
  rw [if_pos hc]
  simp only [hz, List.length_nil, h0, if_false, writeBytes_nil, List.drop_zero]

/-- A step of `doStore` on a connected data socket returns true, whatever the
number of bytes read, and leaves the transfer active, the file open, the data
socket connected and the control connection as it is. -/
theorem doStore_connected (cfg : Config) (now : Nat) (s : FtpServer)
    (hc : s.data.connected = true) :
    (doStore cfg now s).1 = true
      ∧ (doStore cfg now s).2.transferStatus = s.transferStatus
      ∧ (doStore cfg now s).2.file.isOpen = s.file.isOpen
      ∧ (doStore cfg now s).2.data.connected = true
      ∧ (doStore cfg now s).2.client = s.client := by
  unfold doStore
  rw [if_pos hc]
  dsimp only
  split <;> exact ⟨rfl, rfl, rfl, hc, rfl⟩

/-- C13, counterexample. A store is running, the data socket is connected and
has no byte to deliver: the step `doStore` returns true, and after the tick
the transfer is still active, the file is open, the data socket is connected
and no reply 226 has been printed. -/
theorem doStore_zero_read_continues :
    (doStore defaultConfig 1000 (transferSession 2 [] [])).1 = true
      ∧ (handleTransfer defaultConfig 1000 (transferSession 2 [] [])).transferStatus = 2
      ∧ (handleTransfer defaultConfig 1000 (transferSession 2 [] [])).file.isOpen = true
      ∧ (handleTransfer defaultConfig 1000 (transferSession 2 [] [])).data.connected = true
      ∧ (handleTransfer defaultConfig 1000 (transferSession 2 [] [])).client.tx = [] := by
  decide

/-- C13, amended. A step of `doRetrieve` whose read from the file returns no
byte ends the transfer: it returns false, the file and the data socket are
closed, a reply 226 is printed and `handleFTP` sets `transferStatus` to 0. A
step of `doStore` ends the transfer in the same way when the data socket is
not connected any more; when its read from the connected data socket returns
no byte, it returns true and changes nothing, and the transfer stays active.
On a connected data socket a step of `doStore` never ends the transfer,
whatever it reads: it returns true, the transfer stays active, the file stays
open and nothing is printed. -/
theorem transfer_step_end (cfg : Config) (now : Nat) (s : FtpServer) :
    ((if s.file.isOpen then s.file.rd.take cfg.FTP_BUF_SIZE else []) = [] →
        doRetrieve cfg now s = (false, closeTransfer now s)
        ∧ (s.transferStatus = 1 →
            handleTransfer cfg now s = { closeTransfer now s with transferStatus := 0 }))
      ∧ (s.data.connected = false →
        doStore cfg now s = (false, closeTransfer now s)
        ∧ (s.transferStatus = 2 →
            handleTransfer cfg now s = { closeTransfer now s with transferStatus := 0 }))
      ∧ (s.data.connected = true → s.data.rx.take cfg.FTP_BUF_SIZE = [] →
        doStore cfg now s = (true, s)
        ∧ (s.transferStatus = 2 → handleTransfer cfg now s = s))
      ∧ (s.data.connected = true →
        (doStore cfg now s).1 = true
        ∧ (s.transferStatus = 2 →
            handleTransfer cfg now s = (doStore cfg now s).2
            ∧ (handleTransfer cfg now s).transferStatus = 2
            ∧ (handleTransfer cfg now s).file.isOpen = s.file.isOpen
            ∧ (handleTransfer cfg now s).data.connected = true
            ∧ (handleTransfer cfg now s).client.tx = s.client.tx))
      ∧ (closeTransfer now s).file.isOpen = false
      ∧ (closeTransfer now s).data.connected = false
      ∧ ((closeTransfer now s).client.tx = s.client.tx ++ ["226 File successfully transferred"]
        ∨ ∃ l, (closeTransfer now s).client.tx
            = s.client.tx ++ ["226-File successfully transferred", l]) := by
  obtain ⟨e1, e2, e3, _⟩ := closeTransfer_effects now s
  refine ⟨?_, ?_, ?_, ?_, e1, e2, e3⟩
  · intro hz
    have h := doRetrieve_zero_read cfg now s hz
    refine ⟨h, ?_⟩
    intro ht
    simp [handleTransfer, ht, h]
  · intro hc
    have h := doStore_disconnected cfg now s hc
    refine ⟨h, ?_⟩
    intro ht
    simp [handleTransfer, ht, h]
  · intro hc hz
    have h := doStore_zero_read cfg now s hc hz
    refine ⟨h, ?_⟩
    intro ht
    simp [handleTransfer, ht, h]
  · intro hc
    obtain ⟨k1, k2, k3, k4, k5⟩ := doStore_connected cfg now s hc
    refine ⟨k1, fun ht => ?_⟩
    have hk : handleTransfer cfg now s = (doStore cfg now s).2 := by
      have h1 : ¬ s.transferStatus = 1 := by rw [ht]; decide
      unfold handleTransfer
      rw [if_neg h1, if_pos ht]
      generalize doStore cfg now s = r at k1
      obtain ⟨b, u⟩ := r
      cases b with
      | true => rfl
      | false => cases k1
    rw [hk]
    exact ⟨rfl, k2.trans ht, k3, k4, by rw [k5]⟩

/-- Witness for the amended C13: a retrieve whose file is at its end. -/
theorem transfer_step_end_witness :
    doRetrieve defaultConfig 1000 (transferSession 1 [] [])
        = (false, closeTransfer 1000 (transferSession 1 [] []))
      ∧ handleTransfer defaultConfig 1000 (transferSession 1 [] [])
        = { closeTransfer 1000 (transferSession 1 [] []) with transferStatus := 0 } :=
  have h := (transfer_step_end defaultConfig 1000 (transferSession 1 [] [])).1 (by decide)
  ⟨h.1, h.2 (by decide)⟩

/-! ## C14: the command `ABOR` -/

/-- With no transfer active the transfer step of a tick moves no chunk: it
leaves the file, the data socket, the transfer buffer and the byte count as
they are, and `transferStatus` at 0. -/
theorem handleTransfer_idle (cfg : Config) (now : Nat) (s : FtpServer)
    (h : s.transferStatus = 0) :
    (handleTransfer cfg now s).file = s.file ∧ (handleTransfer cfg now s).data = s.data
      ∧ (handleTransfer cfg now s).buf = s.buf
      ∧ (handleTransfer cfg now s).bytesTransferred = s.bytesTransferred
      ∧ (handleTransfer cfg now s).transferStatus = 0 := by
  have h1 : ¬ ((0 : Int) = 1) := by decide
  have h2 : ¬ ((0 : Int) = 2) := by decide
  unfold handleTransfer
  simp only [h, h1, h2, if_false]
  by_cases hto : s.cmdStatus > 2 ∧ ¬ (toInt32 ((s.millisEndConnection : Int) - now) > 0)
  · rw [if_pos hto]
    simp [FtpServer.reply, h]
  · rw [if_neg hto]
    simp [h]

/-- C14. In every state in which a transfer is active (`transferStatus` 1 or
2), `processCommand` on the verb `ABOR` returns true, closes the file and the
data socket, prints `426 Transfer aborted` (and then
`226 Data connection closed`) and sets `transferStatus` to 0; the transfer step
of this tick, and of every later tick that starts with `transferStatus` 0,
touches neither the file nor the data socket. In a state with no transfer
active, `abortTransfer` changes nothing: no reply, nothing closed. -/
theorem processCommand_ABOR {σ : Type} (cfg : Config) (F : FS σ) (now : Nat) (s : FtpServer)
    (fs : σ) (hcmd : s.command = "ABOR".toList)
    (ht : s.transferStatus = 1 ∨ s.transferStatus = 2) :
    (∃ s', processCommand cfg F now s fs = some (true, s', fs)
        ∧ s'.file.isOpen = false ∧ s'.data.connected = false
        ∧ s'.client.tx = s.client.tx ++ ["426 Transfer aborted", "226 Data connection closed"]
        ∧ s'.transferStatus = 0
        ∧ (handleTransfer cfg now s').file = s'.file
        ∧ (handleTransfer cfg now s').data = s'.data
        ∧ (handleTransfer cfg now s').transferStatus = 0)
      ∧ (∀ (t : FtpServer) (later : Nat), t.transferStatus = 0 →
          (handleTransfer cfg later t).file = t.file
          ∧ (handleTransfer cfg later t).data = t.data
          ∧ (handleTransfer cfg later t).transferStatus = 0)
      ∧ (∀ t : FtpServer, t.transferStatus = 0 → abortTransfer t = t) := by
  have hpos : s.transferStatus > 0 := by omega
  refine ⟨⟨(abortTransfer s).reply "226 Data connection closed", ?_, ?_, ?_, ?_, ?_, ?_⟩, ?_, ?_⟩
  · simp [processCommand, hcmd]
  · simp [abortTransfer, hpos, FtpServer.reply, File.close]
  · simp [abortTransfer, hpos, FtpServer.reply, WiFiClient.stop, WiFiClient.println]
  · simp [abortTransfer, hpos, FtpServer.reply, WiFiClient.println]
  · simp [abortTransfer, FtpServer.reply]
  · have h0 : ((abortTransfer s).reply "226 Data connection closed").transferStatus = 0 := by
      simp [abortTransfer, FtpServer.reply]
    obtain ⟨h1, h2, _, _, h5⟩ := handleTransfer_idle cfg now _ h0
    exact ⟨h1, h2, h5⟩
  · intro t later h0
    obtain ⟨h1, h2, _, _, h5⟩ := handleTransfer_idle cfg later t h0
    exact ⟨h1, h2, h5⟩
  · intro t h0
    have hn : ¬ t.transferStatus > 0 := by omega
    cases t
    simp_all [abortTransfer]

/-- Witness for C14: `ABOR` during a store. -/
theorem processCommand_ABOR_witness :
    ∃ s', processCommand defaultConfig listFS 1000
        { transferSession 2 [] [] with command := "ABOR".toList } []
          = some (true, s', [])
      ∧ s'.file.isOpen = false ∧ s'.data.connected = false
      ∧ s'.client.tx = ["426 Transfer aborted", "226 Data connection closed"]
      ∧ s'.transferStatus = 0 :=
  have h := (processCommand_ABOR defaultConfig listFS 1000
    { transferSession 2 [] [] with command := "ABOR".toList } [] rfl (Or.inr rfl)).1
  h.elim fun s' hs => ⟨s', hs.1, hs.2.1, hs.2.2.1, hs.2.2.2.1, hs.2.2.2.2.1⟩

/-! ## C16: the tuple of `PASV` read back by `PORT` -/

set_option maxRecDepth 100000 in
theorem digitsOk_lt (n : Nat) (h : n < 256) : digitsOk n = true := by
  revert n
  decide

theorem isDigit_toNat (c : Char) (h : c.isDigit = true) : 48 ≤ c.toNat ∧ c.toNat ≤ 57 := by
  unfold Char.isDigit at h
  simp only [Bool.and_eq_true, decide_eq_true_eq] at h
  exact ⟨h.1, h.2⟩

theorem isDigit_props (c : Char) (h : c.isDigit = true) :
    isspace c = false ∧ c ≠ '-' ∧ c ≠ '+' ∧ c ≠ ',' ∧ c ≠ NUL := by
  have h1 := isDigit_toNat c h
  refine ⟨?_, ?_, ?_, ?_, ?_⟩
  · unfold isspace
    have h2 : c ≠ ' ' := by
      rintro rfl
      exact absurd h (by decide)
    simp [h2]
    omega
  · rintro rfl
    exact absurd h (by decide)
  · rintro rfl
    exact absurd h (by decide)
  · rintro rfl
    exact absurd h (by decide)
  · rintro rfl
    exact absurd h (by decide)

/-- The digits of a number below 256. -/
theorem digits_lt (n : Nat) (h : n < 256) :
    (∀ x ∈ (decimal n).toList, x.isDigit = true) ∧ atoiDigits (decimal n).toList 0 = n
      ∧ (decimal n).toList ≠ [] := by
  have h1 := digitsOk_lt n h
  unfold digitsOk at h1
  simp only [Bool.and_eq_true, List.all_eq_true, beq_iff_eq, Bool.not_eq_true',
    List.isEmpty_eq_false] at h1
  exact ⟨h1.1.1, h1.1.2, h1.2⟩

/-- Reading digits stops at the first character that is not a digit. -/
theorem atoiDigits_append (ds rest : List Char) (hds : ∀ x ∈ ds, x.isDigit = true)
    (hr : rest = [] ∨ ∃ r, rest = ',' :: r) :
    ∀ acc, atoiDigits (ds ++ rest) acc = atoiDigits ds acc := by
  induction ds with
  | nil =>
    intro acc
    rcases hr with rfl | ⟨r, rfl⟩
    · rfl
    · have : (',' : Char).isDigit = false := by decide
      simp [atoiDigits, this]
  | cons d ds ih =>
    intro acc
    have hd : d.isDigit = true := hds d (by simp)
    have hds2 : ∀ x ∈ ds, x.isDigit = true := fun x hx => hds x (by simp [hx])
    simp only [List.cons_append, atoiDigits, hd, if_true]
    exact ih hds2 _

/-- The function `atoi` on the digits of a number below 256, followed by the
end of the string or by a comma. -/
theorem atoi_field (n : Nat) (h : n < 256) (rest : List Char)
    (hr : rest = [] ∨ ∃ r, rest = ',' :: r) :
    atoi ((decimal n).toList ++ rest) = n := by
  obtain ⟨h1, h2, h3⟩ := digits_lt n h
  have h4 := atoiDigits_append (decimal n).toList rest h1 hr 0
  rw [h2] at h4
  cases hd : (decimal n).toList with
  | nil => exact absurd hd h3
  | cons d ds =>
    rw [hd] at h4 h1
    have hdig : d.isDigit = true := h1 d (by simp)
    obtain ⟨p1, p2, p3, _, _⟩ := isDigit_props d hdig
    unfold atoi
    have hdw : List.dropWhile isspace (d :: ds ++ rest) = d :: (ds ++ rest) := by
      simp [List.dropWhile, p1]
    rw [hdw]
    have hm : (match d :: (ds ++ rest) with
        | '-' :: ds => - (atoiDigits ds 0 : Int)
        | '+' :: ds => (atoiDigits ds 0 : Int)
        | ds => (atoiDigits ds 0 : Int)) = (atoiDigits (d :: (ds ++ rest)) 0 : Int) := by
      split
      · rename_i heq
        simp only [List.cons.injEq] at heq
        exact absurd heq.1 p2
      · rename_i heq
        simp only [List.cons.injEq] at heq
        exact absurd heq.1 p3
      · rfl
    simp only [hm]
    have h5 : atoiDigits (d :: (ds ++ rest)) 0 = n := h4
    rw [h5]
    omega

/-- The first comma of a string that starts with digits. -/
theorem strchr_comma (ds rest : List Char) (hds : ∀ x ∈ ds, x.isDigit = true) :
    strchr (ds ++ ',' :: rest) ',' = some ds.length := by
  induction ds with
  | nil => simp [strchr]
  | cons d ds ih =>
    have hd : d.isDigit = true := hds d (by simp)
    have hds2 : ∀ x ∈ ds, x.isDigit = true := fun x hx => hds x (by simp [hx])
    obtain ⟨_, _, _, p4, p5⟩ := isDigit_props d hd
    simp [strchr, p4, p5, ih hds2]

theorem drop_past_comma (l r : List Char) : List.drop (l.length + 1) (l ++ ',' :: r) = r := by
  induction l with
  | nil => rfl
  | cons x l ih => simp

theorem nextField_field (n : Nat) (h : n < 256) (rest : List Char) :
    nextField ((decimal n).toList ++ ',' :: rest) = some rest := by
  obtain ⟨h1, _, _⟩ := digits_lt n h
  unfold nextField
  rw [strchr_comma _ _ h1]
  simp only [Option.map_some', drop_past_comma]

theorem atoi_field_comma (n : Nat) (h : n < 256) (r : List Char) :
    atoi ((decimal n).toList ++ ',' :: r) = n :=
  atoi_field n h _ (Or.inr ⟨r, rfl⟩)

theorem atoi_field_end (n : Nat) (h : n < 256) : atoi (decimal n).toList = n := by
  have h1 := atoi_field n h [] (Or.inl rfl)
  rw [List.append_nil] at h1
  exact h1

theorem hostPort_toList (a b c d port : Nat) :
    (hostPort [a, b, c, d] port).toList
      = (decimal a).toList ++ ',' :: ((decimal b).toList ++ ',' :: ((decimal c).toList
          ++ ',' :: ((decimal d).toList ++ ',' :: ((decimal (port / 256)).toList
          ++ ',' :: (decimal (port % 256)).toList)))) := by
  simp [hostPort, String.toList]

/-- The branch `PORT` on the tuple of an address and a port. -/
theorem processPORT_hostPort (t : FtpServer) (a b c d port : Nat)
    (ha : a < 256) (hb : b < 256) (hc : c < 256) (hd : d < 256) (hport : port < 65536)
    (ht : t.params = some (hostPort [a, b, c, d] port).toList) :
    ∃ t', processPORT t = some t' ∧ t'.dataIp = [a, b, c, d] ∧ t'.dataPort = port
      ∧ t'.dataPassiveConn = false
      ∧ t'.client.tx = t.client.tx ++ ["200 PORT command successful"] := by
  have hp1 : port / 256 < 256 := by omega
  have hp2 : port % 256 < 256 := by omega
  have hpar : (if t.data.connected = true then { t with data := t.data.stop } else t).params
      = some (hostPort [a, b, c, d] port).toList := by
    split
    · exact ht
    · exact ht
  have htx : (if t.data.connected = true then { t with data := t.data.stop } else t).client
      = t.client := by
    split <;> rfl
  unfold processPORT
  simp only [hpar, hostPort_toList, nextField_field _ ha, nextField_field _ hb,
    nextField_field _ hc, nextField_field _ hd, nextField_field _ hp1,
    atoi_field_comma _ ha, atoi_field_comma _ hb, atoi_field_comma _ hc,
    atoi_field_comma _ hd, atoi_field_comma _ hp1, atoi_field_end _ hp2]
  refine ⟨_, rfl, ?_, ?_, rfl, ?_⟩
  · simp only [FtpServer.reply, List.cons.injEq, and_true]
    refine ⟨?_, ?_, ?_, ?_⟩ <;> omega
  · simp only [FtpServer.reply]
    unfold toUInt16
    omega
  · simp [FtpServer.reply, WiFiClient.println, htx]

/-- C16: for every address of four octets and every 16-bit port, the reply of
the `PASV` handler is `227 Entering Passive Mode (o1,o2,o3,o4,p1,p2).` with the
octets, the port divided by 256 and the port modulo 256 in decimal (`hostPort`),
and the `PORT` handler, given that tuple as its argument, stores the same four
octets and the same port, which is `256 * p1 + p2`. -/
theorem processPASV_tuple_read_by_PORT (cfg : Config) (s t : FtpServer) (a b c d : Nat)
    (hip : cfg.localIP = [a, b, c, d])
    (ha : a < 256) (hb : b < 256) (hc : c < 256) (hd : d < 256)
    (hport : cfg.FTP_DATA_PORT_PASV < 65536)
    (ht : t.params = some (hostPort cfg.localIP cfg.FTP_DATA_PORT_PASV).toList) :
    (processPASV cfg s).client.tx
        = s.client.tx ++ ["227 Entering Passive Mode ("
            ++ hostPort cfg.localIP cfg.FTP_DATA_PORT_PASV ++ ")."]
      ∧ (processPASV cfg s).dataIp = [a, b, c, d]
      ∧ (processPASV cfg s).dataPort = cfg.FTP_DATA_PORT_PASV
      ∧ (∃ t', processPORT t = some t'
          ∧ t'.dataIp = [a, b, c, d]
          ∧ t'.dataPort = cfg.FTP_DATA_PORT_PASV
          ∧ t'.dataPort
              = 256 * (cfg.FTP_DATA_PORT_PASV / 256) + cfg.FTP_DATA_PORT_PASV % 256
          ∧ t'.client.tx = t.client.tx ++ ["200 PORT command successful"]) := by
  refine ⟨?_, ?_, ?_, ?_⟩
  · have h1 : cfg.FTP_DATA_PORT_PASV >>> 8 = cfg.FTP_DATA_PORT_PASV / 256 := by
      rw [Nat.shiftRight_eq_div_pow]
    have h2 : cfg.FTP_DATA_PORT_PASV &&& 255 = cfg.FTP_DATA_PORT_PASV % 256 :=
      Nat.and_pow_two_sub_one_eq_mod _ 8
    have htx : (if s.data.connected = true then { s with data := s.data.stop } else s).client
        = s.client := by
      split <;> rfl
    simp only [processPASV, FtpServer.reply, WiFiClient.println, htx, h1, h2, hostPort,
      String.append_assoc]
  · simp [processPASV, FtpServer.reply, hip]
  · simp [processPASV, FtpServer.reply]
  · rw [hip] at ht
    obtain ⟨t', h1, h2, h3, _, h5⟩ := processPORT_hostPort t a b c d _ ha hb hc hd hport ht
    refine ⟨t', h1, h2, h3, ?_, h5⟩
    rw [h3]
    omega

set_option maxRecDepth 100000 in
/-- Witness for C16: the address 192.168.1.10 and the port 50009. -/
theorem processPASV_tuple_read_by_PORT_witness :
    (processPASV defaultConfig (session 5 [])).client.tx
        = ["227 Entering Passive Mode (192,168,1,10,195,89)."]
      ∧ (processPASV defaultConfig (session 5 [])).dataIp = [192, 168, 1, 10]
      ∧ (processPASV defaultConfig (session 5 [])).dataPort = 50009
      ∧ (∃ t', processPORT (withLine (session 5 []) "PORT".toList
              "192,168,1,10,195,89".toList) = some t'
          ∧ t'.dataIp = [192, 168, 1, 10]
          ∧ t'.dataPort = 50009
          ∧ t'.dataPort = 256 * (50009 / 256) + 50009 % 256
          ∧ t'.client.tx = ["200 PORT command successful"]) :=
  processPASV_tuple_read_by_PORT defaultConfig (session 5 [])
    (withLine (session 5 []) "PORT".toList "192,168,1,10,195,89".toList)
    192 168 1 10 rfl (by decide) (by decide) (by decide) (by decide) (by decide) (by decide)

/-! ## C17: `PORT` with a missing field -/

set_option maxRecDepth 100000 in
/-- C17 does not hold: the `PORT` handler given `1,2,3,4,5` (four commas), an
empty argument or no argument does not reply 501: `strchr` returns the null
pointer, `++ p` makes it the address 1, which is handed to `atoi`, and the test
`p == NULL` comes after that increment.  The run has no defined result. -/
theorem processPORT_missing_field_undefined :
    processPORT (withLine (session 5 []) "PORT".toList "1,2,3,4,5".toList) = none
      ∧ processPORT (withLine (session 5 []) "PORT".toList []) = none
      ∧ processPORT (withVerb (session 5 []) "PORT".toList) = none
      ∧ processCommand defaultConfig listFS 1000
          (withLine (session 5 []) "PORT".toList "1,2,3,4,5".toList) [] = none :=
  ⟨rfl, rfl, rfl, rfl⟩

/-- Whenever the `PORT` handler completes, its reply is 200 and the session is
in active mode: the reply 501 is never printed. -/
theorem processPORT_replies_200 (s s' : FtpServer) (h : processPORT s = some s') :
    s'.client.tx = s.client.tx ++ ["200 PORT command successful"]
      ∧ s'.dataPassiveConn = false
      ∧ "501 Can't interpret parameters" ∉ s'.client.tx.drop s.client.tx.length := by
  have htx : (if s.data.connected = true then { s with data := s.data.stop } else s).client
      = s.client := by
    split <;> rfl
  unfold processPORT at h
  generalize (if s.data.connected = true then { s with data := s.data.stop } else s) = u at h htx
  have key : s'.client.tx = s.client.tx ++ ["200 PORT command successful"]
      ∧ s'.dataPassiveConn = false := by
    dsimp only at h
    split at h
    · exact absurd h (by simp)
    split at h
    · exact absurd h (by simp)
    split at h
    · exact absurd h (by simp)
    split at h
    · exact absurd h (by simp)
    split at h
    · exact absurd h (by simp)
    split at h
    · exact absurd h (by simp)
    simp only [Option.some.injEq] at h
    subst h
    simp [FtpServer.reply, WiFiClient.println, htx]
  refine ⟨key.1, key.2, ?_⟩
  rw [key.1]
  simp

set_option maxRecDepth 100000 in
/-- Witness of `processPORT_replies_200`: the argument `10,0,0,2,4,1`. -/
theorem processPORT_replies_200_witness :
    ∃ s', processPORT (withLine (session 5 []) "PORT".toList "10,0,0,2,4,1".toList) = some s'
      ∧ s'.client.tx = ["200 PORT command successful"] ∧ s'.dataPassiveConn = false
      ∧ s'.dataIp = [10, 0, 0, 2] ∧ s'.dataPort = 1025 :=
  ⟨_, rfl,
    (processPORT_replies_200 (withLine (session 5 []) "PORT".toList "10,0,0,2,4,1".toList) _
      rfl).1,
    (processPORT_replies_200 (withLine (session 5 []) "PORT".toList "10,0,0,2,4,1".toList) _
      rfl).2.1, by decide, by decide⟩

/-! ## What the command handlers leave unchanged -/

theorem clientOnly_refl (s : FtpServer) : ClientOnly s s := ⟨s.client, rfl⟩

theorem clientOnly_reply (s : FtpServer) (line : String) : ClientOnly s (s.reply line) :=
  ⟨_, rfl⟩

theorem clientOnly_trans {s t u : FtpServer} (h1 : ClientOnly s t) (h2 : ClientOnly t u) :
    ClientOnly s u := by
  obtain ⟨c, rfl⟩ := h1
  obtain ⟨d, rfl⟩ := h2
  exact ⟨d, rfl⟩

theorem clientOnly_reply_of {s t : FtpServer} (h : ClientOnly s t) (line : String) :
    ClientOnly s (t.reply line) :=
  clientOnly_trans h (clientOnly_reply t line)

theorem clientOnly_fields {s t : FtpServer} (h : ClientOnly s t) :
    t.file = s.file ∧ t.data = s.data ∧ t.buf = s.buf ∧ t.cwdName = s.cwdName
      ∧ t.rnfrCmd = s.rnfrCmd ∧ t.params = s.params ∧ t.transferStatus = s.transferStatus
      ∧ t.cmdStatus = s.cmdStatus ∧ t.dataServer = s.dataServer ∧ t.command = s.command := by
  obtain ⟨c, rfl⟩ := h
  exact ⟨rfl, rfl, rfl, rfl, rfl, rfl, rfl, rfl, rfl, rfl⟩

theorem makePath_clientOnly (n m : Nat) (s : FtpServer) (p : Option (List Char)) (b : Bool)
    (path : List Char) (s' : FtpServer) (h : makePath n m s p = some (b, path, s')) :
    ClientOnly s s' := by
  obtain ⟨_, h2, h3⟩ := makePath_result n m s p b path s' h
  cases b with
  | true =>
    rw [h2 rfl]
    exact clientOnly_refl s
  | false =>
    rw [(h3 rfl).2]
    exact clientOnly_reply s _

theorem haveParameter_clientOnly (s : FtpServer) : ClientOnly s (haveParameter s).2 := by
  unfold haveParameter
  split
  · split
    · exact clientOnly_refl s
    · exact clientOnly_reply s _
  · exact clientOnly_reply s _

theorem makeExistsPath_clientOnly {σ : Type} (cfg : Config) (F : FS σ) (s : FtpServer) (fs : σ)
    (b : Bool) (path : List Char) (s' : FtpServer)
    (h : makeExistsPath cfg F s fs = some (b, path, s')) :
    ClientOnly s s' ∧ (b = true → F.exists_ fs path = true) := by
  unfold makeExistsPath at h
  split at h
  · exact absurd h (by simp)
  · rename_i path1 s1 hm
    simp only [Option.some.injEq, Prod.mk.injEq] at h
    obtain ⟨hb, _, hs⟩ := h
    rw [← hs, ← hb]
    exact ⟨makePath_clientOnly _ _ _ _ _ _ _ hm, by simp⟩
  · rename_i path1 s1 hm
    have h1 := makePath_clientOnly _ _ _ _ _ _ _ hm
    split at h
    · rename_i hex
      simp only [Option.some.injEq, Prod.mk.injEq] at h
      obtain ⟨_, hp, hs⟩ := h
      rw [← hs, ← hp]
      exact ⟨h1, fun _ => hex⟩
    · simp only [Option.some.injEq, Prod.mk.injEq] at h
      obtain ⟨hb, _, hs⟩ := h
      rw [← hs, ← hb]
      exact ⟨clientOnly_reply_of h1 _, by simp⟩

theorem replyOnParam_clientOnly (s : FtpServer) (cases : List (List Char × String))
    (other : String) (s' : FtpServer) (h : replyOnParam s cases other = some s') :
    ClientOnly s s' := by
  unfold replyOnParam at h
  split at h
  · exact absurd h (by simp)
  · split at h
    · simp only [Option.some.injEq] at h
      rw [← h]
      exact clientOnly_reply s _
    · simp only [Option.some.injEq] at h
      rw [← h]
      exact clientOnly_reply s _

theorem cdupTarget_root_or_exists (pathExists : List Char → Bool) (cwd : List Char) :
    cdupTarget pathExists cwd = ['/'] ∨ pathExists (cdupTarget pathExists cwd) = true := by
  unfold cdupTarget
  dsimp only
  by_cases h1 : cwd.length > 1
  · rw [if_pos h1]
    generalize (if cwd.getLast? = some '/' then cwd.dropLast else cwd) = c
    cases strrchr c '/' with
    | none => left; simp
    | some k =>
      by_cases hk : k > 0
      · cases hpe : pathExists (c.take k) with
        | false => left; simp [hk, hpe]
        | true => right; simp [hk, hpe]
      · left; simp [hk]
  · left
    rw [if_neg h1]
    rfl

theorem processCDUP_frame {σ : Type} (F : FS σ) (s : FtpServer) (fs : σ) :
    (processCDUP F s fs).file = s.file ∧ (processCDUP F s fs).data = s.data
      ∧ (processCDUP F s fs).buf = s.buf ∧ (processCDUP F s fs).rnfrCmd = s.rnfrCmd
      ∧ ((processCDUP F s fs).cwdName = ['/']
          ∨ F.exists_ fs (processCDUP F s fs).cwdName = true) :=
  ⟨rfl, rfl, rfl, rfl, cdupTarget_root_or_exists _ _⟩

theorem processCWD_frame {σ : Type} (cfg : Config) (F : FS σ) (s : FtpServer) (fs : σ)
    (s' : FtpServer) (h : processCWD cfg F s fs = some s') :
    s'.file = s.file ∧ s'.data = s.data ∧ s'.buf = s.buf ∧ s'.rnfrCmd = s.rnfrCmd
      ∧ (s'.cwdName = s.cwdName ∨ F.exists_ fs s'.cwdName = true) := by
  unfold processCWD at h
  have hp := haveParameter_clientOnly s
  split at h
  · rename_i s1 hs1
    rw [hs1] at hp
    simp only [Option.some.injEq] at h
    subst h
    obtain ⟨h1, h2, h3, h4, h5, _⟩ := clientOnly_fields hp
    exact ⟨h1, h2, h3, h5, Or.inl h4⟩
  · rename_i s1 hs1
    rw [hs1] at hp
    split at h
    · exact absurd h (by simp)
    · rename_i path s2 hm
      simp only [Option.some.injEq] at h
      subst h
      obtain ⟨h1, h2, h3, h4, h5, _⟩ :=
        clientOnly_fields (clientOnly_trans hp (makeExistsPath_clientOnly _ _ _ _ _ _ _ hm).1)
      exact ⟨h1, h2, h3, h5, Or.inl h4⟩
    · rename_i path s2 hm
      simp only [Option.some.injEq] at h
      subst h
      have hm2 := makeExistsPath_clientOnly _ _ _ _ _ _ _ hm
      obtain ⟨h1, h2, h3, h4, h5, _⟩ := clientOnly_fields (clientOnly_trans hp hm2.1)
      exact ⟨h1, h2, h3, h5, Or.inr (hm2.2 rfl)⟩



theorem processDELE_clientOnly {σ : Type} (cfg : Config) (F : FS σ) (s : FtpServer) (fs : σ)
    (s' : FtpServer) (fs' : σ) (h : processDELE cfg F s fs = some (s', fs')) :
    ClientOnly s s' := by
  unfold processDELE at h
  split at h
  · exact absurd h (by simp)
  · split at h
    · simp only [Option.some.injEq, Prod.mk.injEq] at h
      rw [← h.1]
      exact clientOnly_reply s _
    · split at h
      · exact absurd h (by simp)
      · rename_i s1 hm
        simp only [Option.some.injEq, Prod.mk.injEq] at h
        rw [← h.1]
        exact makePath_clientOnly _ _ _ _ _ _ _ hm
      · rename_i path s1 hm
        have h1 := makePath_clientOnly _ _ _ _ _ _ _ hm
        repeat' (first | split at h | (dsimp only at h; split at h))
        all_goals
          simp only [Option.some.injEq, Prod.mk.injEq] at h
          rw [← h.1]
          first | exact h1 | exact clientOnly_reply_of h1 _

theorem processMKD_clientOnly {σ : Type} (cfg : Config) (F : FS σ) (s : FtpServer) (fs : σ)
    (s' : FtpServer) (fs' : σ) (h : processMKD cfg F s fs = some (s', fs')) :
    ClientOnly s s' := by
  unfold processMKD at h
  have hp := haveParameter_clientOnly s
  split at h
  · rename_i s0 hs0
    rw [hs0] at hp
    simp only [Option.some.injEq, Prod.mk.injEq] at h
    rw [← h.1]
    exact hp
  · rename_i s0 hs0
    rw [hs0] at hp
    split at h
    · exact absurd h (by simp)
    · rename_i s1 hm
      simp only [Option.some.injEq, Prod.mk.injEq] at h
      rw [← h.1]
      exact clientOnly_trans hp (makePath_clientOnly _ _ _ _ _ _ _ hm)
    · rename_i path s1 hm
      have h1 := clientOnly_trans hp (makePath_clientOnly _ _ _ _ _ _ _ hm)
      repeat' split at h
      all_goals
        simp only [Option.some.injEq, Prod.mk.injEq] at h
        rw [← h.1]
        first | exact h1 | exact clientOnly_reply_of h1 _

theorem processRMD_clientOnly {σ : Type} (cfg : Config) (F : FS σ) (s : FtpServer) (fs : σ)
    (s' : FtpServer) (fs' : σ) (h : processRMD cfg F s fs = some (s', fs')) :
    ClientOnly s s' := by
  unfold processRMD at h
  have hp := haveParameter_clientOnly s
  split at h
  · rename_i s0 hs0
    rw [hs0] at hp
    simp only [Option.some.injEq, Prod.mk.injEq] at h
    rw [← h.1]
    exact hp
  · rename_i s0 hs0
    rw [hs0] at hp
    split at h
    · exact absurd h (by simp)
    · rename_i s1 hm
      simp only [Option.some.injEq, Prod.mk.injEq] at h
      rw [← h.1]
      exact clientOnly_trans hp (makePath_clientOnly _ _ _ _ _ _ _ hm)
    · rename_i path s1 hm
      have h1 := clientOnly_trans hp (makePath_clientOnly _ _ _ _ _ _ _ hm)
      repeat' split at h
      all_goals
        simp only [Option.some.injEq, Prod.mk.injEq] at h
        rw [← h.1]
        first | exact h1 | exact clientOnly_reply_of h1 _



theorem dataConnect_snd (s : FtpServer) :
    ∃ d ds, (dataConnect s).2 = { s with data := d, dataServer := ds } := by
  unfold dataConnect
  dsimp only
  split
  · split
    · exact ⟨s.data, s.dataServer, rfl⟩
    · exact ⟨_, _, rfl⟩
  · exact ⟨s.data, s.dataServer, rfl⟩

theorem dataConnect_eq {s t : FtpServer} {b : Bool} (h : dataConnect s = (b, t)) :
    ∃ d ds, t = { s with data := d, dataServer := ds } := by
  obtain ⟨d, ds, hd⟩ := dataConnect_snd s
  rw [h] at hd
  exact ⟨d, ds, hd⟩

theorem processRNFR_frame {σ : Type} (cfg : Config) (F : FS σ) (s : FtpServer) (fs : σ)
    (s' : FtpServer) (h : processRNFR cfg F s fs = some s') :
    s'.cwdName = s.cwdName ∧ s'.file = s.file ∧ s'.data = s.data := by
  unfold processRNFR at h
  dsimp only at h
  split at h
  · exact absurd h (by simp)
  · split at h
    · simp only [Option.some.injEq] at h
      subst h
      exact ⟨rfl, rfl, rfl⟩
    · split at h
      · exact absurd h (by simp)
      · rename_i path s1 hm
        obtain ⟨c, rfl⟩ := makePath_clientOnly _ _ _ _ _ _ _ hm
        simp only [Option.some.injEq] at h
        subst h
        exact ⟨rfl, rfl, rfl⟩
      · rename_i path s1 hm
        obtain ⟨c, rfl⟩ := makePath_clientOnly _ _ _ _ _ _ _ hm
        repeat' split at h
        all_goals
          simp only [Option.some.injEq] at h
          subst h
          exact ⟨rfl, rfl, rfl⟩

theorem processRNTO_frame {σ : Type} (cfg : Config) (F : FS σ) (s : FtpServer) (fs : σ)
    (s' : FtpServer) (fs' : σ) (h : processRNTO cfg F s fs = some (s', fs')) :
    s'.cwdName = s.cwdName ∧ s'.file = s.file ∧ s'.data = s.data ∧ s'.buf = s.buf
      ∧ s'.rnfrCmd = false := by
  unfold processRNTO at h
  dsimp only at h
  rw [Option.map_eq_some'] at h
  obtain ⟨⟨t, fs1⟩, hr, ht⟩ := h
  simp only [Prod.mk.injEq] at ht
  obtain ⟨rfl, rfl⟩ := ht
  have hc : ClientOnly s t := by
    split at hr
    · simp only [Option.some.injEq, Prod.mk.injEq] at hr
      rw [← hr.1]
      exact clientOnly_reply s _
    · split at hr
      · exact absurd hr (by simp)
      · split at hr
        · simp only [Option.some.injEq, Prod.mk.injEq] at hr
          rw [← hr.1]
          exact clientOnly_reply s _
        · split at hr
          · exact absurd hr (by simp)
          · rename_i s1 hm
            simp only [Option.some.injEq, Prod.mk.injEq] at hr
            rw [← hr.1]
            exact makePath_clientOnly _ _ _ _ _ _ _ hm
          · rename_i path s1 hm
            have h1 := makePath_clientOnly _ _ _ _ _ _ _ hm
            repeat' split at hr
            all_goals
              simp only [Option.some.injEq, Prod.mk.injEq] at hr
              rw [← hr.1]
              exact clientOnly_reply_of h1 _
  obtain ⟨c, rfl⟩ := hc
  exact ⟨rfl, rfl, rfl, rfl, rfl⟩

theorem processSIZE_frame {σ : Type} (cfg : Config) (F : FS σ) (s : FtpServer) (fs : σ)
    (s' : FtpServer) (fs' : σ) (h : processSIZE cfg F s fs = some (s', fs')) :
    s'.cwdName = s.cwdName ∧ s'.rnfrCmd = s.rnfrCmd ∧ s'.data = s.data ∧ s'.buf = s.buf := by
  unfold processSIZE at h
  split at h
  · exact absurd h (by simp)
  · split at h
    · simp only [Option.some.injEq, Prod.mk.injEq] at h
      obtain ⟨rfl, _⟩ := h
      exact ⟨rfl, rfl, rfl, rfl⟩
    · split at h
      · exact absurd h (by simp)
      · rename_i s1 hm
        obtain ⟨c, rfl⟩ := makePath_clientOnly _ _ _ _ _ _ _ hm
        simp only [Option.some.injEq, Prod.mk.injEq] at h
        obtain ⟨rfl, _⟩ := h
        exact ⟨rfl, rfl, rfl, rfl⟩
      · rename_i path s1 hm
        obtain ⟨c, rfl⟩ := makePath_clientOnly _ _ _ _ _ _ _ hm
        dsimp only at h
        repeat' split at h
        all_goals
          simp only [Option.some.injEq, Prod.mk.injEq] at h
          obtain ⟨rfl, _⟩ := h
          exact ⟨rfl, rfl, rfl, rfl⟩

theorem processMLST_frame {σ : Type} (cfg : Config) (F : FS σ) (s : FtpServer) (fs : σ)
    (s' : FtpServer) (fs' : σ) (h : processMLST cfg F s fs = some (s', fs')) :
    s'.cwdName = s.cwdName ∧ s'.rnfrCmd = s.rnfrCmd ∧ s'.data = s.data ∧ s'.buf = s.buf := by
  unfold processMLST at h
  split at h
  · exact absurd h (by simp)
  · split at h
    · simp only [Option.some.injEq, Prod.mk.injEq] at h
      obtain ⟨rfl, _⟩ := h
      exact ⟨rfl, rfl, rfl, rfl⟩
    · split at h
      · exact absurd h (by simp)
      · rename_i s1 hm
        obtain ⟨c, rfl⟩ := makePath_clientOnly _ _ _ _ _ _ _ hm
        simp only [Option.some.injEq, Prod.mk.injEq] at h
        obtain ⟨rfl, _⟩ := h
        exact ⟨rfl, rfl, rfl, rfl⟩
      · rename_i path s1 hm
        obtain ⟨c, rfl⟩ := makePath_clientOnly _ _ _ _ _ _ _ hm
        dsimp only at h
        repeat' split at h
        all_goals
          simp only [Option.some.injEq, Prod.mk.injEq] at h
          obtain ⟨rfl, _⟩ := h
          exact ⟨rfl, rfl, rfl, rfl⟩

theorem processRETR_frame {σ : Type} (cfg : Config) (F : FS σ) (now : Nat) (s : FtpServer)
    (fs : σ) (s' : FtpServer) (fs' : σ) (h : processRETR cfg F now s fs = some (s', fs')) :
    s'.cwdName = s.cwdName ∧ s'.rnfrCmd = s.rnfrCmd ∧ s'.buf = s.buf := by
  unfold processRETR at h
  split at h
  · exact absurd h (by simp)
  · split at h
    · simp only [Option.some.injEq, Prod.mk.injEq] at h
      obtain ⟨rfl, _⟩ := h
      exact ⟨rfl, rfl, rfl⟩
    · split at h
      · exact absurd h (by simp)
      · rename_i s1 hm
        obtain ⟨c, rfl⟩ := makePath_clientOnly _ _ _ _ _ _ _ hm
        simp only [Option.some.injEq, Prod.mk.injEq] at h
        obtain ⟨rfl, _⟩ := h
        exact ⟨rfl, rfl, rfl⟩
      · rename_i path s1 hm
        obtain ⟨c, rfl⟩ := makePath_clientOnly _ _ _ _ _ _ _ hm
        dsimp only at h
        split at h
        · simp only [Option.some.injEq, Prod.mk.injEq] at h
          obtain ⟨rfl, _⟩ := h
          exact ⟨rfl, rfl, rfl⟩
        · split at h
          · rename_i s2 hd
            obtain ⟨d, ds, rfl⟩ := dataConnect_eq hd
            simp only [Option.some.injEq, Prod.mk.injEq] at h
            obtain ⟨rfl, _⟩ := h
            exact ⟨rfl, rfl, rfl⟩
          · rename_i s2 hd
            obtain ⟨d, ds, rfl⟩ := dataConnect_eq hd
            simp only [Option.some.injEq, Prod.mk.injEq] at h
            obtain ⟨rfl, _⟩ := h
            exact ⟨rfl, rfl, rfl⟩

theorem processSTOR_frame {σ : Type} (cfg : Config) (F : FS σ) (now : Nat) (s : FtpServer)
    (fs : σ) (s' : FtpServer) (fs' : σ) (h : processSTOR cfg F now s fs = some (s', fs')) :
    s'.cwdName = s.cwdName ∧ s'.rnfrCmd = s.rnfrCmd ∧ s'.buf = s.buf := by
  unfold processSTOR at h
  split at h
  · exact absurd h (by simp)
  · split at h
    · simp only [Option.some.injEq, Prod.mk.injEq] at h
      obtain ⟨rfl, _⟩ := h
      exact ⟨rfl, rfl, rfl⟩
    · split at h
      · exact absurd h (by simp)
      · rename_i s1 hm
        obtain ⟨c, rfl⟩ := makePath_clientOnly _ _ _ _ _ _ _ hm
        simp only [Option.some.injEq, Prod.mk.injEq] at h
        obtain ⟨rfl, _⟩ := h
        exact ⟨rfl, rfl, rfl⟩
      · rename_i path s1 hm
        obtain ⟨c, rfl⟩ := makePath_clientOnly _ _ _ _ _ _ _ hm
        dsimp only at h
        split at h
        · simp only [Option.some.injEq, Prod.mk.injEq] at h
          obtain ⟨rfl, _⟩ := h
          exact ⟨rfl, rfl, rfl⟩
        · split at h
          · rename_i s2 hd
            obtain ⟨d, ds, rfl⟩ := dataConnect_eq hd
            simp only [Option.some.injEq, Prod.mk.injEq] at h
            obtain ⟨rfl, _⟩ := h
            exact ⟨rfl, rfl, rfl⟩
          · rename_i s2 hd
            obtain ⟨d, ds, rfl⟩ := dataConnect_eq hd
            simp only [Option.some.injEq, Prod.mk.injEq] at h
            obtain ⟨rfl, _⟩ := h
            exact ⟨rfl, rfl, rfl⟩

theorem processLIST_frame {σ : Type} (cfg : Config) (F : FS σ) (s : FtpServer) (fs : σ)
    (s' : FtpServer) (h : processLIST cfg F s fs = some s') :
    s'.cwdName = s.cwdName ∧ s'.rnfrCmd = s.rnfrCmd ∧ s'.file = s.file ∧ s'.buf = s.buf := by
  unfold processLIST at h
  split at h
  · rename_i s2 hd
    obtain ⟨d, ds, rfl⟩ := dataConnect_eq hd
    dsimp only at h
    rw [Option.map_eq_some'] at h
    obtain ⟨t, ht, rfl⟩ := h
    have key : t.cwdName = s.cwdName ∧ t.rnfrCmd = s.rnfrCmd ∧ t.file = s.file
        ∧ t.buf = s.buf := by
      repeat' split at ht
      all_goals first
        | (simp only [Option.some.injEq] at ht
           subst ht
           exact ⟨rfl, rfl, rfl, rfl⟩)
        | (rw [Option.map_eq_some'] at ht
           obtain ⟨d2, _, rfl⟩ := ht
           exact ⟨rfl, rfl, rfl, rfl⟩)
    exact key
  · rename_i s2 hd
    obtain ⟨d, ds, rfl⟩ := dataConnect_eq hd
    simp only [Option.some.injEq] at h
    subst h
    exact ⟨rfl, rfl, rfl, rfl⟩

theorem processMLSD_frame {σ : Type} (cfg : Config) (F : FS σ) (s : FtpServer) (fs : σ) :
    (processMLSD cfg F s fs).cwdName = s.cwdName ∧ (processMLSD cfg F s fs).rnfrCmd = s.rnfrCmd
      ∧ (processMLSD cfg F s fs).file = s.file ∧ (processMLSD cfg F s fs).buf = s.buf := by
  unfold processMLSD
  split
  · rename_i s2 hd
    obtain ⟨d, ds, rfl⟩ := dataConnect_eq hd
    exact ⟨rfl, rfl, rfl, rfl⟩
  · rename_i s2 hd
    obtain ⟨d, ds, rfl⟩ := dataConnect_eq hd
    dsimp only
    repeat' split
    all_goals exact ⟨rfl, rfl, rfl, rfl⟩

theorem processNLST_frame {σ : Type} (F : FS σ) (s : FtpServer) (fs : σ) :
    (processNLST F s fs).cwdName = s.cwdName ∧ (processNLST F s fs).rnfrCmd = s.rnfrCmd
      ∧ (processNLST F s fs).file = s.file ∧ (processNLST F s fs).buf = s.buf := by
  unfold processNLST
  split
  · rename_i s2 hd
    obtain ⟨d, ds, rfl⟩ := dataConnect_eq hd
    exact ⟨rfl, rfl, rfl, rfl⟩
  · rename_i s2 hd
    obtain ⟨d, ds, rfl⟩ := dataConnect_eq hd
    dsimp only
    repeat' split
    all_goals exact ⟨rfl, rfl, rfl, rfl⟩

theorem processPASV_frame (cfg : Config) (s : FtpServer) :
    (processPASV cfg s).cwdName = s.cwdName ∧ (processPASV cfg s).rnfrCmd = s.rnfrCmd
      ∧ (processPASV cfg s).file = s.file ∧ (processPASV cfg s).buf = s.buf := by
  unfold processPASV
  dsimp only
  split <;> exact ⟨rfl, rfl, rfl, rfl⟩

theorem processPORT_frame (s s' : FtpServer) (h : processPORT s = some s') :
    s'.cwdName = s.cwdName ∧ s'.rnfrCmd = s.rnfrCmd ∧ s'.file = s.file ∧ s'.buf = s.buf := by
  have hu : ∃ d, (if s.data.connected = true then { s with data := s.data.stop } else s)
      = { s with data := d } := by
    split
    · exact ⟨_, rfl⟩
    · exact ⟨s.data, rfl⟩
  obtain ⟨d, hd⟩ := hu
  unfold processPORT at h
  rw [hd] at h
  dsimp only at h
  repeat' split at h
  all_goals first
    | exact Option.noConfusion h
    | (simp only [Option.some.injEq] at h
       subst h
       exact ⟨rfl, rfl, rfl, rfl⟩)

theorem abortTransfer_frame (s : FtpServer) :
    (abortTransfer s).cwdName = s.cwdName ∧ (abortTransfer s).rnfrCmd = s.rnfrCmd
      ∧ (abortTransfer s).buf = s.buf ∧ (abortTransfer s).cmdStatus = s.cmdStatus
      ∧ (abortTransfer s).transferStatus = 0 := by
  unfold abortTransfer
  dsimp only
  split <;> exact ⟨rfl, rfl, rfl, rfl, rfl⟩

theorem disconnectClient_frame (s : FtpServer) :
    (disconnectClient s).cwdName = s.cwdName ∧ (disconnectClient s).rnfrCmd = s.rnfrCmd
      ∧ (disconnectClient s).buf = s.buf ∧ (disconnectClient s).cmdStatus = s.cmdStatus
      ∧ (disconnectClient s).transferStatus = 0 := by
  obtain ⟨h1, h2, h3, h4, h5⟩ := abortTransfer_frame s
  unfold disconnectClient
  exact ⟨h1, h2, h3, h4, h5⟩

theorem frame_of_clientOnly {σ : Type} (F : FS σ) (fs : σ) {s s' : FtpServer}
    (h : ClientOnly s s') :
    (s'.cwdName = s.cwdName ∨ s'.cwdName = ['/'] ∨ F.exists_ fs s'.cwdName = true)
      ∧ (s.command ≠ "RNFR".toList → (s'.rnfrCmd = s.rnfrCmd ∨ s'.rnfrCmd = false))
      ∧ (s.command ∉ transferVerbs → s'.file = s.file ∧ s'.data = s.data)
      ∧ (s.command ≠ "RNFR".toList → s'.buf = s.buf)
      ∧ (s.command ≠ "CDUP".toList → s.command ≠ "CWD".toList → s'.cwdName = s.cwdName) := by
  obtain ⟨h1, h2, h3, h4, h5, _⟩ := clientOnly_fields h
  exact ⟨Or.inl h4, fun _ => Or.inl h5, fun _ => ⟨h1, h2⟩, fun _ => h3, fun _ _ => h4⟩

/-- What one call of `processCommand` may change of the working directory, of
the flag `rnfrCmd`, of the file object, of the data socket and of `buf`. -/
theorem processCommand_frame {σ : Type} (cfg : Config) (F : FS σ) (now : Nat) (s : FtpServer)
    (fs : σ) (b : Bool) (s' : FtpServer) (fs' : σ)
    (h : processCommand cfg F now s fs = some (b, s', fs')) :
    (s'.cwdName = s.cwdName ∨ s'.cwdName = ['/'] ∨ F.exists_ fs s'.cwdName = true)
      ∧ (s.command ≠ "RNFR".toList → (s'.rnfrCmd = s.rnfrCmd ∨ s'.rnfrCmd = false))
      ∧ (s.command ∉ transferVerbs → s'.file = s.file ∧ s'.data = s.data)
      ∧ (s.command ≠ "RNFR".toList → s'.buf = s.buf)
      ∧ (s.command ≠ "CDUP".toList → s.command ≠ "CWD".toList → s'.cwdName = s.cwdName) := by
  unfold processCommand at h
  dsimp only at h
  by_cases hv : s.command = "CDUP".toList
  · rw [if_pos hv] at h
    simp only [Option.some.injEq, Prod.mk.injEq] at h
    obtain ⟨_, rfl, _⟩ := h
    obtain ⟨h1, h2, h3, h4, h5⟩ := processCDUP_frame F s fs
    exact ⟨Or.inr h5, fun _ => Or.inl h4, fun _ => ⟨h1, h2⟩, fun _ => h3,
      fun hn _ => absurd hv hn⟩
  rw [if_neg hv] at h
  clear hv
  by_cases hv : s.command = "CWD".toList
  · rw [if_pos hv] at h
    split at h
    · exact absurd h (by simp)
    · split at h
      · simp only [Option.some.injEq, Prod.mk.injEq] at h
        obtain ⟨_, rfl, _⟩ := h
        obtain ⟨h1, h2, h3, h4, h5⟩ := processCDUP_frame F s fs
        exact ⟨Or.inr h5, fun _ => Or.inl h4, fun _ => ⟨h1, h2⟩, fun _ => h3,
          fun _ hn => absurd hv hn⟩
      · rw [Option.bind_eq_some] at h
        obtain ⟨t, ht, h⟩ := h
        simp only [Option.some.injEq, Prod.mk.injEq] at h
        obtain ⟨_, rfl, _⟩ := h
        obtain ⟨h1, h2, h3, h4, h5⟩ := processCWD_frame cfg F s fs t ht
        exact ⟨h5.elim Or.inl (fun e => Or.inr (Or.inr e)), fun _ => Or.inl h4,
          fun _ => ⟨h1, h2⟩, fun _ => h3, fun _ hn => absurd hv hn⟩
  rw [if_neg hv] at h
  clear hv
  by_cases hv : s.command = "PWD".toList
  · rw [if_pos hv] at h
    simp only [Option.some.injEq, Prod.mk.injEq] at h
    obtain ⟨_, rfl, _⟩ := h
    exact frame_of_clientOnly F fs (clientOnly_reply s _)
  rw [if_neg hv] at h
  clear hv
  by_cases hv : s.command = "QUIT".toList
  · rw [if_pos hv] at h
    simp only [Option.some.injEq, Prod.mk.injEq] at h
    obtain ⟨_, rfl, _⟩ := h
    obtain ⟨h1, h2, h3, _, _⟩ := disconnectClient_frame s
    exact ⟨Or.inl h1, fun _ => Or.inl h2, fun hn => absurd (show s.command ∈ transferVerbs by rw [hv]; decide) hn, fun _ => h3, fun _ _ => h1⟩
  rw [if_neg hv] at h
  clear hv
  by_cases hv : s.command = "MODE".toList
  · rw [if_pos hv] at h
    rw [Option.bind_eq_some] at h
    obtain ⟨t, ht, h⟩ := h
    simp only [Option.some.injEq, Prod.mk.injEq] at h
    obtain ⟨_, rfl, _⟩ := h
    exact frame_of_clientOnly F fs (replyOnParam_clientOnly _ _ _ _ ht)
  rw [if_neg hv] at h
  clear hv
  by_cases hv : s.command = "PASV".toList
  · rw [if_pos hv] at h
    simp only [Option.some.injEq, Prod.mk.injEq] at h
    obtain ⟨_, rfl, _⟩ := h
    obtain ⟨h1, h2, _, h4⟩ := processPASV_frame cfg s
    exact ⟨Or.inl h1, fun _ => Or.inl h2, fun hn => absurd (show s.command ∈ transferVerbs by rw [hv]; decide) hn, fun _ => h4, fun _ _ => h1⟩
  rw [if_neg hv] at h
  clear hv
  by_cases hv : s.command = "PORT".toList
  · rw [if_pos hv] at h
    rw [Option.bind_eq_some] at h
    obtain ⟨t, ht, h⟩ := h
    simp only [Option.some.injEq, Prod.mk.injEq] at h
    obtain ⟨_, rfl, _⟩ := h
    obtain ⟨h1, h2, _, h4⟩ := processPORT_frame s t ht
    exact ⟨Or.inl h1, fun _ => Or.inl h2, fun hn => absurd (show s.command ∈ transferVerbs by rw [hv]; decide) hn, fun _ => h4, fun _ _ => h1⟩
  rw [if_neg hv] at h
  clear hv
  by_cases hv : s.command = "STRU".toList
  · rw [if_pos hv] at h
    rw [Option.bind_eq_some] at h
    obtain ⟨t, ht, h⟩ := h
    simp only [Option.some.injEq, Prod.mk.injEq] at h
    obtain ⟨_, rfl, _⟩ := h
    exact frame_of_clientOnly F fs (replyOnParam_clientOnly _ _ _ _ ht)
  rw [if_neg hv] at h
  clear hv
  by_cases hv : s.command = "TYPE".toList
  · rw [if_pos hv] at h
    rw [Option.bind_eq_some] at h
    obtain ⟨t, ht, h⟩ := h
    simp only [Option.some.injEq, Prod.mk.injEq] at h
    obtain ⟨_, rfl, _⟩ := h
    exact frame_of_clientOnly F fs (replyOnParam_clientOnly _ _ _ _ ht)
  rw [if_neg hv] at h
  clear hv
  by_cases hv : s.command = "ABOR".toList
  · rw [if_pos hv] at h
    simp only [Option.some.injEq, Prod.mk.injEq] at h
    obtain ⟨_, rfl, _⟩ := h
    obtain ⟨h1, h2, h3, _, _⟩ := abortTransfer_frame s
    exact ⟨Or.inl h1, fun _ => Or.inl h2, fun hn => absurd (show s.command ∈ transferVerbs by rw [hv]; decide) hn, fun _ => h3, fun _ _ => h1⟩
  rw [if_neg hv] at h
  clear hv
  by_cases hv : s.command = "DELE".toList
  · rw [if_pos hv] at h
    rw [Option.map_eq_some'] at h
    obtain ⟨⟨t, fs1⟩, ht, h⟩ := h
    simp only [Prod.mk.injEq] at h
    obtain ⟨_, rfl, _⟩ := h
    exact frame_of_clientOnly F fs (processDELE_clientOnly cfg F s fs t fs1 ht)
  rw [if_neg hv] at h
  clear hv
  by_cases hv : s.command = "LIST".toList
  · rw [if_pos hv] at h
    rw [Option.bind_eq_some] at h
    obtain ⟨t, ht, h⟩ := h
    simp only [Option.some.injEq, Prod.mk.injEq] at h
    obtain ⟨_, rfl, _⟩ := h
    obtain ⟨h1, h2, _, h4⟩ := processLIST_frame cfg F s fs t ht
    exact ⟨Or.inl h1, fun _ => Or.inl h2, fun hn => absurd (show s.command ∈ transferVerbs by rw [hv]; decide) hn, fun _ => h4, fun _ _ => h1⟩
  rw [if_neg hv] at h
  clear hv
  by_cases hv : s.command = "MLSD".toList
  · rw [if_pos hv] at h
    simp only [Option.some.injEq, Prod.mk.injEq] at h
    obtain ⟨_, rfl, _⟩ := h
    obtain ⟨h1, h2, _, h4⟩ := processMLSD_frame cfg F s fs
    exact ⟨Or.inl h1, fun _ => Or.inl h2, fun hn => absurd (show s.command ∈ transferVerbs by rw [hv]; decide) hn, fun _ => h4, fun _ _ => h1⟩
  rw [if_neg hv] at h
  clear hv
  by_cases hv : s.command = "NLST".toList
  · rw [if_pos hv] at h
    simp only [Option.some.injEq, Prod.mk.injEq] at h
    obtain ⟨_, rfl, _⟩ := h
    obtain ⟨h1, h2, _, h4⟩ := processNLST_frame F s fs
    exact ⟨Or.inl h1, fun _ => Or.inl h2, fun hn => absurd (show s.command ∈ transferVerbs by rw [hv]; decide) hn, fun _ => h4, fun _ _ => h1⟩
  rw [if_neg hv] at h
  clear hv
  by_cases hv : s.command = "NOOP".toList
  · rw [if_pos hv] at h
    simp only [Option.some.injEq, Prod.mk.injEq] at h
    obtain ⟨_, rfl, _⟩ := h
    exact frame_of_clientOnly F fs (clientOnly_reply s _)
  rw [if_neg hv] at h
  clear hv
  by_cases hv : s.command = "RETR".toList
  · rw [if_pos hv] at h
    rw [Option.map_eq_some'] at h
    obtain ⟨⟨t, fs1⟩, ht, h⟩ := h
    simp only [Prod.mk.injEq] at h
    obtain ⟨_, rfl, _⟩ := h
    obtain ⟨h1, h2, h3⟩ := processRETR_frame cfg F now s fs t fs1 ht
    exact ⟨Or.inl h1, fun _ => Or.inl h2, fun hn => absurd (show s.command ∈ transferVerbs by rw [hv]; decide) hn, fun _ => h3, fun _ _ => h1⟩
  rw [if_neg hv] at h
  clear hv
  by_cases hv : s.command = "STOR".toList
  · rw [if_pos hv] at h
    rw [Option.map_eq_some'] at h
    obtain ⟨⟨t, fs1⟩, ht, h⟩ := h
    simp only [Prod.mk.injEq] at h
    obtain ⟨_, rfl, _⟩ := h
    obtain ⟨h1, h2, h3⟩ := processSTOR_frame cfg F now s fs t fs1 ht
    exact ⟨Or.inl h1, fun _ => Or.inl h2, fun hn => absurd (show s.command ∈ transferVerbs by rw [hv]; decide) hn, fun _ => h3, fun _ _ => h1⟩
  rw [if_neg hv] at h
  clear hv
  by_cases hv : s.command = "MKD".toList
  · rw [if_pos hv] at h
    rw [Option.map_eq_some'] at h
    obtain ⟨⟨t, fs1⟩, ht, h⟩ := h
    simp only [Prod.mk.injEq] at h
    obtain ⟨_, rfl, _⟩ := h
    exact frame_of_clientOnly F fs (processMKD_clientOnly cfg F s fs t fs1 ht)
  rw [if_neg hv] at h
  clear hv
  by_cases hv : s.command = "RMD".toList
  · rw [if_pos hv] at h
    rw [Option.map_eq_some'] at h
    obtain ⟨⟨t, fs1⟩, ht, h⟩ := h
    simp only [Prod.mk.injEq] at h
    obtain ⟨_, rfl, _⟩ := h
    exact frame_of_clientOnly F fs (processRMD_clientOnly cfg F s fs t fs1 ht)
  rw [if_neg hv] at h
  clear hv
  by_cases hv : s.command = "RNFR".toList
  · rw [if_pos hv] at h
    rw [Option.bind_eq_some] at h
    obtain ⟨t, ht, h⟩ := h
    simp only [Option.some.injEq, Prod.mk.injEq] at h
    obtain ⟨_, rfl, _⟩ := h
    obtain ⟨h1, h2, h3⟩ := processRNFR_frame cfg F s fs t ht
    exact ⟨Or.inl h1, fun hn => absurd hv hn, fun _ => ⟨h2, h3⟩, fun hn => absurd hv hn,
      fun _ _ => h1⟩
  rw [if_neg hv] at h
  clear hv
  by_cases hv : s.command = "RNTO".toList
  · rw [if_pos hv] at h
    rw [Option.map_eq_some'] at h
    obtain ⟨⟨t, fs1⟩, ht, h⟩ := h
    simp only [Prod.mk.injEq] at h
    obtain ⟨_, rfl, _⟩ := h
    obtain ⟨h1, h2, h3, h4, h5⟩ := processRNTO_frame cfg F s fs t fs1 ht
    exact ⟨Or.inl h1, fun _ => Or.inr h5, fun _ => ⟨h2, h3⟩, fun _ => h4, fun _ _ => h1⟩
  rw [if_neg hv] at h
  clear hv
  by_cases hv : s.command = "FEAT".toList
  · rw [if_pos hv] at h
    simp only [Option.some.injEq, Prod.mk.injEq] at h
    obtain ⟨_, rfl, _⟩ := h
    exact frame_of_clientOnly F fs (clientOnly_reply_of (clientOnly_reply_of
      (clientOnly_reply_of (clientOnly_reply s _) _) _) _)
  rw [if_neg hv] at h
  clear hv
  by_cases hv : s.command = "MDTM".toList
  · rw [if_pos hv] at h
    simp only [Option.some.injEq, Prod.mk.injEq] at h
    obtain ⟨_, rfl, _⟩ := h
    exact frame_of_clientOnly F fs (clientOnly_reply s _)
  rw [if_neg hv] at h
  clear hv
  by_cases hv : s.command = "SIZE".toList
  · rw [if_pos hv] at h
    rw [Option.map_eq_some'] at h
    obtain ⟨⟨t, fs1⟩, ht, h⟩ := h
    simp only [Prod.mk.injEq] at h
    obtain ⟨_, rfl, _⟩ := h
    obtain ⟨h1, h2, _, h4⟩ := processSIZE_frame cfg F s fs t fs1 ht
    exact ⟨Or.inl h1, fun _ => Or.inl h2, fun hn => absurd (show s.command ∈ transferVerbs by rw [hv]; decide) hn, fun _ => h4, fun _ _ => h1⟩
  rw [if_neg hv] at h
  clear hv
  by_cases hv : s.command = "MLST".toList
  · rw [if_pos hv] at h
    rw [Option.map_eq_some'] at h
    obtain ⟨⟨t, fs1⟩, ht, h⟩ := h
    simp only [Prod.mk.injEq] at h
    obtain ⟨_, rfl, _⟩ := h
    obtain ⟨h1, h2, _, h4⟩ := processMLST_frame cfg F s fs t fs1 ht
    exact ⟨Or.inl h1, fun _ => Or.inl h2, fun hn => absurd (show s.command ∈ transferVerbs by rw [hv]; decide) hn, fun _ => h4, fun _ _ => h1⟩
  rw [if_neg hv] at h
  clear hv
  by_cases hv : s.command = "SITE".toList
  · rw [if_pos hv] at h
    simp only [Option.some.injEq, Prod.mk.injEq] at h
    obtain ⟨_, rfl, _⟩ := h
    exact frame_of_clientOnly F fs (clientOnly_reply s _)
  rw [if_neg hv] at h
  clear hv
  simp only [Option.some.injEq, Prod.mk.injEq] at h
  obtain ⟨_, rfl, _⟩ := h
  exact frame_of_clientOnly F fs (clientOnly_reply s _)

/-! ## The commands that have a result -/

theorem ite_some_ne_none {α : Type} (c : Prop) [Decidable c] (a b : α) :
    (if c then some a else some b) ≠ none := by
  split <;> exact fun h => Option.noConfusion h

theorem makePath_ne_none (n m : Nat) (s : FtpServer) (hp : s.params ≠ none)
    (hc : s.cwdName ≠ []) (hfit : ∀ a, s.params = some a → pathBytes s.cwdName a ≤ m) :
    makePath n m s none ≠ none := by
  cases hpa : s.params with
  | none => exact absurd hpa hp
  | some arg =>
    have hbuf := hfit arg hpa
    have hpar : makePath n m s none = makePath n m s (some arg) := by
      simp [makePath, hpa]
    rw [hpar]
    by_cases ha : arg = [] ∨ arg = [('/' : Char)]
    · have hcap : 2 ≤ m := by
        unfold pathBytes at hbuf
        rw [if_pos ha] at hbuf
        exact hbuf
      rw [makePath_root n m s arg ha hcap]
      exact fun h => Option.noConfusion h
    · have haa := (not_root_iff arg).mpr ha
      have hcap : ¬ m ≤ (copiedPath n s.cwdName arg).length := by
        have := length_copiedPath_le_candidatePath n s.cwdName arg
        unfold pathBytes at hbuf
        rw [if_neg ha] at hbuf
        omega
      unfold makePath
      simp only [haa, if_false]
      by_cases habs : arg.head? = some '/'
      · have hcp : copiedPath n s.cwdName arg = arg := by simp [copiedPath, habs]
        rw [hcp] at hcap
        simp only [habs, ne_eq, not_true_eq_false, if_false, if_neg hcap]
        exact ite_some_ne_none _ _ _
      · obtain ⟨last, hlast⟩ : ∃ last, s.cwdName.getLast? = some last := by
          cases h : s.cwdName.getLast? with
          | none => exact absurd (List.getLast?_eq_none_iff.mp h) hc
          | some x => exact ⟨x, rfl⟩
        have hcp : copiedPath n s.cwdName arg
            = strncat (if last ≠ '/' then strncat s.cwdName ['/'] n else s.cwdName) arg n := by
          simp [copiedPath, habs, hlast]
        rw [hcp] at hcap
        simp only [habs, ne_eq, not_false_eq_true, if_true, hlast, if_neg hcap]
        exact ite_some_ne_none _ _ _

theorem haveParameter_true {s t : FtpServer} (h : haveParameter s = (true, t)) : t = s := by
  unfold haveParameter at h
  split at h
  · split at h
    · simp only [Prod.mk.injEq, true_and] at h
      exact h.symm
    · simp at h
  · simp at h

theorem makeExistsPath_ne_none {σ : Type} (cfg : Config) (F : FS σ) (s : FtpServer) (fs : σ)
    (hp : s.params ≠ none) (hc : s.cwdName ≠ [])
    (hfit : ∀ a, s.params = some a →
      pathBytes s.cwdName a ≤ cfg.FTP_CWD_SIZE ∧ pathBytes s.cwdName a ≤ cfg.FTP_BUF_SIZE) :
    makeExistsPath cfg F s fs ≠ none := by
  intro h
  unfold makeExistsPath at h
  split at h
  · rename_i hm
    exact makePath_ne_none _ _ _ hp hc (fun a ha => (hfit a ha).1) hm
  · exact Option.noConfusion h
  · split at h <;> exact Option.noConfusion h

theorem processCWD_ne_none {σ : Type} (cfg : Config) (F : FS σ) (s : FtpServer) (fs : σ)
    (hp : s.params ≠ none) (hc : s.cwdName ≠ [])
    (hfit : ∀ a, s.params = some a →
      pathBytes s.cwdName a ≤ cfg.FTP_CWD_SIZE ∧ pathBytes s.cwdName a ≤ cfg.FTP_BUF_SIZE) :
    processCWD cfg F s fs ≠ none := by
  intro h
  unfold processCWD at h
  split at h
  · exact Option.noConfusion h
  · rename_i t ht
    rw [haveParameter_true ht] at h
    split at h
    · rename_i hm
      exact makeExistsPath_ne_none cfg F s fs hp hc hfit hm
    · exact Option.noConfusion h
    · exact Option.noConfusion h

theorem replyOnParam_ne_none (s : FtpServer) (cases : List (List Char × String))
    (other : String) (hp : s.params ≠ none) : replyOnParam s cases other ≠ none := by
  intro h
  unfold replyOnParam at h
  split at h
  · rename_i hpn
    exact hp hpn
  · split at h <;> exact Option.noConfusion h

theorem processDELE_ne_none {σ : Type} (cfg : Config) (F : FS σ) (s : FtpServer) (fs : σ)
    (hp : s.params ≠ none) (hc : s.cwdName ≠ [])
    (hfit : ∀ a, s.params = some a →
      pathBytes s.cwdName a ≤ cfg.FTP_CWD_SIZE ∧ pathBytes s.cwdName a ≤ cfg.FTP_BUF_SIZE) :
    processDELE cfg F s fs ≠ none := by
  intro h
  unfold processDELE at h
  split at h
  · rename_i hpn
    exact hp hpn
  · split at h
    · exact Option.noConfusion h
    · split at h
      · rename_i hm
        exact makePath_ne_none _ _ _ hp hc (fun a ha => (hfit a ha).1) hm
      · exact Option.noConfusion h
      · repeat' (first | split at h | (dsimp only at h; split at h))
        all_goals exact Option.noConfusion h

theorem processMKD_ne_none {σ : Type} (cfg : Config) (F : FS σ) (s : FtpServer) (fs : σ)
    (hp : s.params ≠ none) (hc : s.cwdName ≠ [])
    (hfit : ∀ a, s.params = some a →
      pathBytes s.cwdName a ≤ cfg.FTP_CWD_SIZE ∧ pathBytes s.cwdName a ≤ cfg.FTP_BUF_SIZE) :
    processMKD cfg F s fs ≠ none := by
  intro h
  unfold processMKD at h
  split at h
  · exact Option.noConfusion h
  · rename_i t ht
    rw [haveParameter_true ht] at h
    split at h
    · rename_i hm
      exact makePath_ne_none _ _ _ hp hc (fun a ha => (hfit a ha).1) hm
    · exact Option.noConfusion h
    · repeat' split at h
      all_goals exact Option.noConfusion h

theorem processRMD_ne_none {σ : Type} (cfg : Config) (F : FS σ) (s : FtpServer) (fs : σ)
    (hp : s.params ≠ none) (hc : s.cwdName ≠ [])
    (hfit : ∀ a, s.params = some a →
      pathBytes s.cwdName a ≤ cfg.FTP_CWD_SIZE ∧ pathBytes s.cwdName a ≤ cfg.FTP_BUF_SIZE) :
    processRMD cfg F s fs ≠ none := by
  intro h
  unfold processRMD at h
  split at h
  · exact Option.noConfusion h
  · rename_i t ht
    rw [haveParameter_true ht] at h
    split at h
    · rename_i hm
      exact makePath_ne_none _ _ _ hp hc (fun a ha => (hfit a ha).1) hm
    · exact Option.noConfusion h
    · repeat' split at h
      all_goals exact Option.noConfusion h

theorem processRNFR_ne_none {σ : Type} (cfg : Config) (F : FS σ) (s : FtpServer) (fs : σ)
    (hp : s.params ≠ none) (hc : s.cwdName ≠ [])
    (hfit : ∀ a, s.params = some a →
      pathBytes s.cwdName a ≤ cfg.FTP_CWD_SIZE ∧ pathBytes s.cwdName a ≤ cfg.FTP_BUF_SIZE) :
    processRNFR cfg F s fs ≠ none := by
  intro h
  unfold processRNFR at h
  dsimp only at h
  split at h
  · rename_i hpn
    exact hp hpn
  · split at h
    · exact Option.noConfusion h
    · split at h
      · rename_i hm
        exact makePath_ne_none _ _ { s with buf := s.buf.set 0 NUL } hp hc
          (fun a ha => (hfit a ha).2) hm
      · exact Option.noConfusion h
      · repeat' split at h
        all_goals exact Option.noConfusion h

theorem processRNTO_ne_none {σ : Type} (cfg : Config) (F : FS σ) (s : FtpServer) (fs : σ)
    (hp : s.params ≠ none) (hc : s.cwdName ≠ [])
    (hfit : ∀ a, s.params = some a →
      pathBytes s.cwdName a ≤ cfg.FTP_CWD_SIZE ∧ pathBytes s.cwdName a ≤ cfg.FTP_BUF_SIZE) :
    processRNTO cfg F s fs ≠ none := by
  intro h
  unfold processRNTO at h
  dsimp only at h
  rw [Option.map_eq_none'] at h
  split at h
  · exact Option.noConfusion h
  · split at h
    · rename_i hpn
      exact hp hpn
    · split at h
      · exact Option.noConfusion h
      · split at h
        · rename_i hm
          exact makePath_ne_none _ _ _ hp hc (fun a ha => (hfit a ha).1) hm
        · exact Option.noConfusion h
        · repeat' split at h
          all_goals exact Option.noConfusion h

theorem processSIZE_ne_none {σ : Type} (cfg : Config) (F : FS σ) (s : FtpServer) (fs : σ)
    (hp : s.params ≠ none) (hc : s.cwdName ≠ [])
    (hfit : ∀ a, s.params = some a →
      pathBytes s.cwdName a ≤ cfg.FTP_CWD_SIZE ∧ pathBytes s.cwdName a ≤ cfg.FTP_BUF_SIZE) :
    processSIZE cfg F s fs ≠ none := by
  intro h
  unfold processSIZE at h
  split at h
  · rename_i hpn
    exact hp hpn
  · split at h
    · exact Option.noConfusion h
    · split at h
      · rename_i hm
        exact makePath_ne_none _ _ _ hp hc (fun a ha => (hfit a ha).1) hm
      · exact Option.noConfusion h
      · dsimp only at h
        repeat' split at h
        all_goals exact Option.noConfusion h

theorem processMLST_ne_none {σ : Type} (cfg : Config) (F : FS σ) (s : FtpServer) (fs : σ)
    (hp : s.params ≠ none) (hc : s.cwdName ≠ [])
    (hfit : ∀ a, s.params = some a →
      pathBytes s.cwdName a ≤ cfg.FTP_CWD_SIZE ∧ pathBytes s.cwdName a ≤ cfg.FTP_BUF_SIZE) :
    processMLST cfg F s fs ≠ none := by
  intro h
  unfold processMLST at h
  split at h
  · rename_i hpn
    exact hp hpn
  · split at h
    · exact Option.noConfusion h
    · split at h
      · rename_i hm
        exact makePath_ne_none _ _ _ hp hc (fun a ha => (hfit a ha).1) hm
      · exact Option.noConfusion h
      · dsimp only at h
        repeat' split at h
        all_goals exact Option.noConfusion h

theorem processRETR_ne_none {σ : Type} (cfg : Config) (F : FS σ) (now : Nat) (s : FtpServer)
    (fs : σ) (hp : s.params ≠ none) (hc : s.cwdName ≠ [])
    (hfit : ∀ a, s.params = some a →
      pathBytes s.cwdName a ≤ cfg.FTP_CWD_SIZE ∧ pathBytes s.cwdName a ≤ cfg.FTP_BUF_SIZE) :
    processRETR cfg F now s fs ≠ none := by
  intro h
  unfold processRETR at h
  split at h
  · rename_i hpn
    exact hp hpn
  · split at h
    · exact Option.noConfusion h
    · split at h
      · rename_i hm
        exact makePath_ne_none _ _ _ hp hc (fun a ha => (hfit a ha).1) hm
      · exact Option.noConfusion h
      · dsimp only at h
        repeat' split at h
        all_goals exact Option.noConfusion h

theorem processSTOR_ne_none {σ : Type} (cfg : Config) (F : FS σ) (now : Nat) (s : FtpServer)
    (fs : σ) (hp : s.params ≠ none) (hc : s.cwdName ≠ [])
    (hfit : ∀ a, s.params = some a →
      pathBytes s.cwdName a ≤ cfg.FTP_CWD_SIZE ∧ pathBytes s.cwdName a ≤ cfg.FTP_BUF_SIZE) :
    processSTOR cfg F now s fs ≠ none := by
  intro h
  unfold processSTOR at h
  split at h
  · rename_i hpn
    exact hp hpn
  · split at h
    · exact Option.noConfusion h
    · split at h
      · rename_i hm
        exact makePath_ne_none _ _ _ hp hc (fun a ha => (hfit a ha).1) hm
      · exact Option.noConfusion h
      · dsimp only at h
        repeat' split at h
        all_goals exact Option.noConfusion h

/-- With an argument on the line whose candidate path fits the buffers, and a
working directory that is not the empty string, every branch of
`processCommand` other than `PORT` and `LIST` has a result. -/
theorem processCommand_ne_none {σ : Type} (cfg : Config) (F : FS σ) (now : Nat) (s : FtpServer)
    (fs : σ) (hp : s.params ≠ none) (hc : s.cwdName ≠ [])
    (hfit : ∀ a, s.params = some a →
      pathBytes s.cwdName a ≤ cfg.FTP_CWD_SIZE ∧ pathBytes s.cwdName a ≤ cfg.FTP_BUF_SIZE)
    (hport : s.command ≠ "PORT".toList) (hlist : s.command ≠ "LIST".toList) :
    processCommand cfg F now s fs ≠ none := by
  intro h
  unfold processCommand at h
  dsimp only at h
  by_cases hv : s.command = "CDUP".toList
  · rw [if_pos hv] at h
    exact Option.noConfusion h
  rw [if_neg hv] at h
  clear hv
  by_cases hv : s.command = "CWD".toList
  · rw [if_pos hv] at h
    split at h
    · rename_i hpn
      exact hp hpn
    · split at h
      · exact Option.noConfusion h
      · cases hx : processCWD cfg F s fs with
        | none => exact absurd hx (processCWD_ne_none cfg F s fs hp hc hfit)
        | some t =>
          rw [hx] at h
          exact Option.noConfusion h
  rw [if_neg hv] at h
  clear hv
  by_cases hv : s.command = "PWD".toList
  · rw [if_pos hv] at h
    exact Option.noConfusion h
  rw [if_neg hv] at h
  clear hv
  by_cases hv : s.command = "QUIT".toList
  · rw [if_pos hv] at h
    exact Option.noConfusion h
  rw [if_neg hv] at h
  clear hv
  by_cases hv : s.command = "MODE".toList
  · rw [if_pos hv] at h
    cases hx : replyOnParam s [("S".toList, "200 S Ok")] "504 Only S (tream) is supported" with
    | none => exact absurd hx (replyOnParam_ne_none _ _ _ hp)
    | some t =>
      rw [hx] at h
      exact Option.noConfusion h
  rw [if_neg hv] at h
  clear hv
  by_cases hv : s.command = "PASV".toList
  · rw [if_pos hv] at h
    exact Option.noConfusion h
  rw [if_neg hv] at h
  clear hv
  by_cases hv : s.command = "PORT".toList
  · rw [if_pos hv] at h
    exact hport hv
  rw [if_neg hv] at h
  clear hv
  by_cases hv : s.command = "STRU".toList
  · rw [if_pos hv] at h
    cases hx : replyOnParam s [("F".toList, "200 F Ok")] "504 Only F (ile) is supported" with
    | none => exact absurd hx (replyOnParam_ne_none _ _ _ hp)
    | some t =>
      rw [hx] at h
      exact Option.noConfusion h
  rw [if_neg hv] at h
  clear hv
  by_cases hv : s.command = "TYPE".toList
  · rw [if_pos hv] at h
    cases hx : replyOnParam s [("A".toList, "200 TYPE is now ASCII"),
        ("I".toList, "200 TYPE is now 8-bit binary")] "504 Unknown TYPE" with
    | none => exact absurd hx (replyOnParam_ne_none _ _ _ hp)
    | some t =>
      rw [hx] at h
      exact Option.noConfusion h
  rw [if_neg hv] at h
  clear hv
  by_cases hv : s.command = "ABOR".toList
  · rw [if_pos hv] at h
    exact Option.noConfusion h
  rw [if_neg hv] at h
  clear hv
  by_cases hv : s.command = "DELE".toList
  · rw [if_pos hv] at h
    cases hx : processDELE cfg F s fs with
    | none => exact absurd hx (processDELE_ne_none cfg F s fs hp hc hfit)
    | some t =>
      rw [hx] at h
      exact Option.noConfusion h
  rw [if_neg hv] at h
  clear hv
  by_cases hv : s.command = "LIST".toList
  · exact hlist hv
  rw [if_neg hv] at h
  clear hv
  by_cases hv : s.command = "MLSD".toList
  · rw [if_pos hv] at h
    exact Option.noConfusion h
  rw [if_neg hv] at h
  clear hv
  by_cases hv : s.command = "NLST".toList
  · rw [if_pos hv] at h
    exact Option.noConfusion h
  rw [if_neg hv] at h
  clear hv
  by_cases hv : s.command = "NOOP".toList
  · rw [if_pos hv] at h
    exact Option.noConfusion h
  rw [if_neg hv] at h
  clear hv
  by_cases hv : s.command = "RETR".toList
  · rw [if_pos hv] at h
    cases hx : processRETR cfg F now s fs with
    | none => exact absurd hx (processRETR_ne_none cfg F now s fs hp hc hfit)
    | some t =>
      rw [hx] at h
      exact Option.noConfusion h
  rw [if_neg hv] at h
  clear hv
  by_cases hv : s.command = "STOR".toList
  · rw [if_pos hv] at h
    cases hx : processSTOR cfg F now s fs with
    | none => exact absurd hx (processSTOR_ne_none cfg F now s fs hp hc hfit)
    | some t =>
      rw [hx] at h
      exact Option.noConfusion h
  rw [if_neg hv] at h
  clear hv
  by_cases hv : s.command = "MKD".toList
  · rw [if_pos hv] at h
    cases hx : processMKD cfg F s fs with
    | none => exact absurd hx (processMKD_ne_none cfg F s fs hp hc hfit)
    | some t =>
      rw [hx] at h
      exact Option.noConfusion h
  rw [if_neg hv] at h
  clear hv
  by_cases hv : s.command = "RMD".toList
  · rw [if_pos hv] at h
    cases hx : processRMD cfg F s fs with
    | none => exact absurd hx (processRMD_ne_none cfg F s fs hp hc hfit)
    | some t =>
      rw [hx] at h
      exact Option.noConfusion h
  rw [if_neg hv] at h
  clear hv
  by_cases hv : s.command = "RNFR".toList
  · rw [if_pos hv] at h
    cases hx : processRNFR cfg F s fs with
    | none => exact absurd hx (processRNFR_ne_none cfg F s fs hp hc hfit)
    | some t =>
      rw [hx] at h
      exact Option.noConfusion h
  rw [if_neg hv] at h
  clear hv
  by_cases hv : s.command = "RNTO".toList
  · rw [if_pos hv] at h
    cases hx : processRNTO cfg F s fs with
    | none => exact absurd hx (processRNTO_ne_none cfg F s fs hp hc hfit)
    | some t =>
      rw [hx] at h
      exact Option.noConfusion h
  rw [if_neg hv] at h
  clear hv
  by_cases hv : s.command = "FEAT".toList
  · rw [if_pos hv] at h
    exact Option.noConfusion h
  rw [if_neg hv] at h
  clear hv
  by_cases hv : s.command = "MDTM".toList
  · rw [if_pos hv] at h
    exact Option.noConfusion h
  rw [if_neg hv] at h
  clear hv
  by_cases hv : s.command = "SIZE".toList
  · rw [if_pos hv] at h
    cases hx : processSIZE cfg F s fs with
    | none => exact absurd hx (processSIZE_ne_none cfg F s fs hp hc hfit)
    | some t =>
      rw [hx] at h
      exact Option.noConfusion h
  rw [if_neg hv] at h
  clear hv
  by_cases hv : s.command = "MLST".toList
  · rw [if_pos hv] at h
    cases hx : processMLST cfg F s fs with
    | none => exact absurd hx (processMLST_ne_none cfg F s fs hp hc hfit)
    | some t =>
      rw [hx] at h
      exact Option.noConfusion h
  rw [if_neg hv] at h
  clear hv
  by_cases hv : s.command = "SITE".toList
  · rw [if_pos hv] at h
    exact Option.noConfusion h
  rw [if_neg hv] at h
  clear hv
  exact Option.noConfusion h

/-! ## C19: commands during a transfer -/

set_option maxRecDepth 100000 in
/-- C19 does not hold as stated: while the file `/f` is being retrieved, the
command `SIZE /f` puts a new, closed handle in the member `file`, and the next
transfer step finds nothing to read and ends the transfer with nothing sent;
the command `PASV` stops the data socket.  So do the other verbs of the list:
`MLST /f` leaves a closed handle in `file`, `RETR /g` and `STOR /h` put the
handle of another file there, and `PORT`, `LIST`, `MLSD` and `NLST` stop the
data socket. -/
theorem processCommand_SIZE_replaces_file :
    (transferSession 1 "abc".toList []).transferStatus = 1
      ∧ (transferSession 1 "abc".toList []).file
          = { isOpen := true, name := "/f".toList, size := 3, rd := "abc".toList }
      ∧ (∃ s', processCommand defaultConfig listFS 1000
            (withLine (transferSession 1 "abc".toList []) "SIZE".toList "/f".toList)
            ["/f".toList] = some (true, s', ["/f".toList])
          ∧ s'.transferStatus = 1
          ∧ s'.file = { isOpen := false, name := "/f".toList }
          ∧ (handleTransfer defaultConfig 1001 s').transferStatus = 0
          ∧ (handleTransfer defaultConfig 1001 s').data.tx = [])
      ∧ (∃ s', processCommand defaultConfig listFS 1000
            (withVerb (transferSession 1 "abc".toList []) "PASV".toList)
            ["/f".toList] = some (true, s', ["/f".toList])
          ∧ s'.transferStatus = 1
          ∧ (transferSession 1 "abc".toList []).data.connected = true
          ∧ s'.data.connected = false)
      ∧ (processCommand defaultConfig listFS 1000
            (withLine (transferSession 1 "abc".toList []) "MLST".toList "/f".toList)
            ["/f".toList]).map (fun r => (r.2.1.transferStatus, r.2.1.file.isOpen))
          = some (1, false)
      ∧ (processCommand defaultConfig listFS 1000
            (withLine (transferSession 1 "abc".toList []) "RETR".toList "/g".toList)
            ["/f".toList, "/g".toList]).map (fun r => (r.2.1.transferStatus, r.2.1.file.name))
          = some (1, "/g".toList)
      ∧ (processCommand defaultConfig listFS 1000
            (withLine (transferSession 1 "abc".toList []) "STOR".toList "/h".toList)
            ["/f".toList]).map (fun r => (r.2.1.transferStatus, r.2.1.file.name))
          = some (2, "/h".toList)
      ∧ (processCommand defaultConfig listFS 1000
            (withLine (transferSession 1 "abc".toList []) "PORT".toList "10,0,0,2,4,1".toList)
            ["/f".toList]).map (fun r => (r.2.1.transferStatus, r.2.1.data.connected))
          = some (1, false)
      ∧ (processCommand defaultConfig listFS 1000
            (withVerb (transferSession 1 "abc".toList []) "LIST".toList)
            ["/".toList, "/f".toList]).map
              (fun r => (r.2.1.transferStatus, r.2.1.data.connected))
          = some (1, false)
      ∧ (processCommand defaultConfig listFS 1000
            (withVerb (transferSession 1 "abc".toList []) "MLSD".toList)
            ["/".toList, "/f".toList]).map
              (fun r => (r.2.1.transferStatus, r.2.1.data.connected))
          = some (1, false)
      ∧ (processCommand defaultConfig listFS 1000
            (withVerb (transferSession 1 "abc".toList []) "NLST".toList)
            ["/".toList, "/f".toList]).map
              (fun r => (r.2.1.transferStatus, r.2.1.data.connected))
          = some (1, false) :=
  ⟨by decide, by decide, ⟨_, rfl, by decide, by decide, by decide, by decide⟩,
    ⟨_, rfl, by decide, by decide, by decide⟩,
    by decide, by decide, by decide, by decide, by decide, by decide, by decide⟩

/-- C19, amended: a command whose verb is none of `ABOR`, `QUIT`, `PASV`,
`PORT`, `LIST`, `MLSD`, `NLST`, `RETR`, `STOR`, `SIZE` and `MLST` leaves the
file object and the data socket as they are, in every state, so also while a
transfer is active; and it has a result whenever the line has an argument,
the working directory is not the empty string and the candidate path fits,
with its terminator, the buffers `path` and `buf` into which `makePath` copies
it. -/
theorem processCommand_keeps_file_and_data {σ : Type} (cfg : Config) (F : FS σ) (now : Nat)
    (s : FtpServer) (fs : σ) (hverb : s.command ∉ transferVerbs) :
    (∀ b s' fs', processCommand cfg F now s fs = some (b, s', fs') →
        s'.file = s.file ∧ s'.data = s.data)
      ∧ (s.parameters ≠ none → s.cwdName ≠ [] →
          (∀ a, s.params = some a →
            pathBytes s.cwdName a ≤ cfg.FTP_CWD_SIZE
              ∧ pathBytes s.cwdName a ≤ cfg.FTP_BUF_SIZE) →
          ∃ b s' fs', processCommand cfg F now s fs = some (b, s', fs')
            ∧ s'.file = s.file ∧ s'.data = s.data) := by
  have h1 : ∀ b s' fs', processCommand cfg F now s fs = some (b, s', fs') →
      s'.file = s.file ∧ s'.data = s.data := by
    intro b s' fs' h
    exact (processCommand_frame cfg F now s fs b s' fs' h).2.2.1 hverb
  refine ⟨h1, ?_⟩
  intro hp hc hfit
  have hport : s.command ≠ "PORT".toList := by
    intro h
    exact hverb (by rw [h]; decide)
  have hlist : s.command ≠ "LIST".toList := by
    intro h
    exact hverb (by rw [h]; decide)
  have hps : s.params ≠ none := by
    intro h
    unfold FtpServer.params at h
    rw [Option.map_eq_none'] at h
    exact hp h
  cases hr : processCommand cfg F now s fs with
  | none => exact absurd hr (processCommand_ne_none cfg F now s fs hps hc hfit hport hlist)
  | some r =>
    obtain ⟨b, s', fs'⟩ := r
    exact ⟨b, s', fs', rfl, h1 b s' fs' hr⟩

set_option maxRecDepth 100000 in
/-- Witness for C19: `MKD /g` while `/f` is being retrieved. -/
theorem processCommand_keeps_file_and_data_witness :
    ∃ s', processCommand defaultConfig listFS 1000
        (withLine (transferSession 1 "abc".toList []) "MKD".toList "/g".toList)
        ["/f".toList] = some (true, s', ["/f".toList, "/g".toList])
      ∧ s'.file = { isOpen := true, name := "/f".toList, size := 3, rd := "abc".toList }
      ∧ s'.data = { connected := true } :=
  ⟨_, rfl,
    (processCommand_keeps_file_and_data defaultConfig listFS 1000
      (withLine (transferSession 1 "abc".toList []) "MKD".toList "/g".toList)
      ["/f".toList] (by decide)).1 _ _ _ rfl⟩

/-! ## C18: the working directory -/

set_option maxRecDepth 100000 in
/-- C18 does not hold as stated: after `CWD /a` and `RMD /a` the working
directory is `/a`, which is not `/` and does not exist any more. -/
theorem processCommand_RMD_leaves_cwdName :
    ∃ s1 s2, processCommand defaultConfig listFS 1000
          (withLine (session 5 []) "CWD".toList "/a".toList) ["/a".toList]
          = some (true, s1, ["/a".toList])
      ∧ processCommand defaultConfig listFS 1000 (withLine s1 "RMD".toList "/a".toList)
          ["/a".toList] = some (true, s2, [])
      ∧ s2.cwdName = "/a".toList
      ∧ s2.client.tx = ["250 Ok. Current directory is /a", "250 \"/a\" deleted"]
      ∧ listFS.exists_ [] s2.cwdName = false :=
  ⟨_, _, rfl, rfl, by decide, by decide, by decide⟩

/-- C18, amended: a dispatched command leaves the working directory as it is,
or sets it to `/`, or sets it to a path for which `fs.exists` holds when the
command is processed; only `CWD` and `CDUP` change it.  (The path may be that
of a file, and the commands that remove or rename keep the working directory
also when they remove it.) -/
theorem processCommand_cwdName {σ : Type} (cfg : Config) (F : FS σ) (now : Nat) (s : FtpServer)
    (fs : σ) (b : Bool) (s' : FtpServer) (fs' : σ)
    (h : processCommand cfg F now s fs = some (b, s', fs')) :
    (s'.cwdName = s.cwdName ∨ s'.cwdName = ['/'] ∨ F.exists_ fs s'.cwdName = true)
      ∧ (s.command ≠ "CDUP".toList → s.command ≠ "CWD".toList → s'.cwdName = s.cwdName) :=
  ⟨(processCommand_frame cfg F now s fs b s' fs' h).1,
    (processCommand_frame cfg F now s fs b s' fs' h).2.2.2.2⟩

set_option maxRecDepth 100000 in
/-- Witness for C18: `CWD /a` where `/a` exists. -/
theorem processCommand_cwdName_witness :
    ∃ s', processCommand defaultConfig listFS 1000
        (withLine (session 5 []) "CWD".toList "/a".toList) ["/a".toList]
        = some (true, s', ["/a".toList])
      ∧ (s'.cwdName = (session 5 []).cwdName ∨ s'.cwdName = ['/']
          ∨ listFS.exists_ ["/a".toList] s'.cwdName = true)
      ∧ s'.cwdName = "/a".toList :=
  ⟨_, rfl,
    (processCommand_cwdName defaultConfig listFS 1000
      (withLine (session 5 []) "CWD".toList "/a".toList) ["/a".toList] _ _ _ rfl).1,
    by decide⟩

/-! ## What a tick leaves unchanged -/

theorem handleFTP_eq {σ : Type} (cfg : Config) (F : FS σ) (now : Nat) (s : FtpServer) (fs : σ) :
    handleFTP cfg F now s fs
      = if toInt32 ((s.millisDelay : Int) - now) > 0 then some (s, fs)
        else (handleSession cfg F now (acceptClient s) fs).map
          (fun x => (handleTransfer cfg now x.1, x.2)) := rfl

theorem lineOnly_refl (s : FtpServer) : LineOnly s s := ⟨_, _, _, _, _, rfl⟩

theorem lineOnly_trans {s t u : FtpServer} (h1 : LineOnly s t) (h2 : LineOnly t u) :
    LineOnly s u := by
  obtain ⟨c, cl, i, cmd, p, rfl⟩ := h1
  obtain ⟨c2, cl2, i2, cmd2, p2, rfl⟩ := h2
  exact ⟨_, _, _, _, _, rfl⟩

theorem readCharLF_lineOnly (n : Nat) (s : FtpServer) (r : Int × FtpServer)
    (h : readCharLF n s = some r) : LineOnly s r.2 := by
  unfold readCharLF at h
  dsimp only at h
  repeat' split at h
  all_goals first
    | exact Option.noConfusion h
    | (simp only [Option.some.injEq] at h
       subst h
       exact ⟨_, _, _, _, _, rfl⟩)

theorem readChar_lineOnly (n : Nat) (s : FtpServer) (r : Int × FtpServer)
    (h : readChar n s = some r) : LineOnly s r.2 := by
  unfold readChar at h
  split at h
  · simp only [Option.some.injEq] at h
    subst h
    exact lineOnly_refl s
  · rename_i c0 rest hrx
    dsimp only at h
    rw [Option.map_eq_some'] at h
    obtain ⟨q, hq, rfl⟩ := h
    have h1 : LineOnly s { s with client := { s.client with rx := rest } } :=
      ⟨_, _, _, _, _, rfl⟩
    have hq2 : LineOnly s q.2 := by
      repeat' split at hq
      all_goals first
        | exact lineOnly_trans h1 (readCharLF_lineOnly _ _ _ hq)
        | (simp only [Option.some.injEq] at hq
           subst hq
           exact ⟨_, _, _, _, _, rfl⟩)
    obtain ⟨c, cl, i, cmd, p, h3⟩ := hq2
    dsimp only
    repeat' split
    all_goals
      rw [h3]
      exact ⟨_, _, _, _, _, rfl⟩

theorem lineOnly_fields {s t : FtpServer} (h : LineOnly s t) :
    t.rnfrCmd = s.rnfrCmd ∧ t.cwdName = s.cwdName ∧ t.cmdStatus = s.cmdStatus
      ∧ t.transferStatus = s.transferStatus ∧ t.buf = s.buf ∧ t.file = s.file
      ∧ t.data = s.data ∧ t.millisEndConnection = s.millisEndConnection
      ∧ t.millisDelay = s.millisDelay ∧ t.ftpServer = s.ftpServer := by
  obtain ⟨c, cl, i, cmd, p, rfl⟩ := h
  exact ⟨rfl, rfl, rfl, rfl, rfl, rfl, rfl, rfl, rfl, rfl⟩

theorem acceptClient_fields (s : FtpServer) :
    (acceptClient s).rnfrCmd = s.rnfrCmd ∧ (acceptClient s).cwdName = s.cwdName
      ∧ (acceptClient s).cmdStatus = s.cmdStatus
      ∧ (acceptClient s).transferStatus = s.transferStatus
      ∧ (acceptClient s).millisEndConnection = s.millisEndConnection := by
  unfold acceptClient
  split <;> exact ⟨rfl, rfl, rfl, rfl, rfl⟩

theorem userIdentity_frame (now : Nat) (s : FtpServer) (b : Bool) (t : FtpServer)
    (h : userIdentity now s = some (b, t)) :
    t.rnfrCmd = s.rnfrCmd ∧ (t.cwdName = s.cwdName ∨ t.cwdName = ['/']) := by
  unfold userIdentity at h
  have hu : ClientOnly s (if s.command ≠ "USER".toList then s.reply "500 Syntax error" else s) := by
    split
    · exact clientOnly_reply s _
    · exact clientOnly_refl s
  obtain ⟨c, hc⟩ := hu
  dsimp only at h
  rw [hc] at h
  split at h
  · exact Option.noConfusion h
  · split at h
    · simp only [Option.some.injEq, Prod.mk.injEq] at h
      obtain ⟨_, rfl⟩ := h
      exact ⟨rfl, Or.inl rfl⟩
    · simp only [Option.some.injEq, Prod.mk.injEq] at h
      obtain ⟨_, rfl⟩ := h
      exact ⟨rfl, Or.inr rfl⟩

theorem userPassword_frame (now : Nat) (s : FtpServer) (b : Bool) (t : FtpServer)
    (h : userPassword now s = some (b, t)) :
    t.rnfrCmd = s.rnfrCmd ∧ t.cwdName = s.cwdName := by
  unfold userPassword at h
  split at h
  · simp only [Option.some.injEq, Prod.mk.injEq] at h
    obtain ⟨_, rfl⟩ := h
    exact ⟨rfl, rfl⟩
  · split at h
    · exact Option.noConfusion h
    · split at h
      · simp only [Option.some.injEq, Prod.mk.injEq] at h
        obtain ⟨_, rfl⟩ := h
        exact ⟨rfl, rfl⟩
      · simp only [Option.some.injEq, Prod.mk.injEq] at h
        obtain ⟨_, rfl⟩ := h
        exact ⟨rfl, rfl⟩

theorem closeTransfer_frame (now : Nat) (s : FtpServer) :
    (closeTransfer now s).rnfrCmd = s.rnfrCmd ∧ (closeTransfer now s).cwdName = s.cwdName := by
  unfold closeTransfer
  dsimp only
  split <;> exact ⟨rfl, rfl⟩

theorem doRetrieve_frame (cfg : Config) (now : Nat) (s : FtpServer) :
    (doRetrieve cfg now s).2.rnfrCmd = s.rnfrCmd
      ∧ (doRetrieve cfg now s).2.cwdName = s.cwdName := by
  unfold doRetrieve
  dsimp only
  repeat' split
  all_goals first
    | exact ⟨rfl, rfl⟩
    | exact closeTransfer_frame now _

theorem doStore_frame (cfg : Config) (now : Nat) (s : FtpServer) :
    (doStore cfg now s).2.rnfrCmd = s.rnfrCmd ∧ (doStore cfg now s).2.cwdName = s.cwdName := by
  unfold doStore
  dsimp only
  repeat' split
  all_goals first
    | exact ⟨rfl, rfl⟩
    | exact closeTransfer_frame now _

theorem handleTransfer_frame (cfg : Config) (now : Nat) (s : FtpServer) :
    (handleTransfer cfg now s).rnfrCmd = s.rnfrCmd
      ∧ (handleTransfer cfg now s).cwdName = s.cwdName := by
  unfold handleTransfer
  split
  · have h := doRetrieve_frame cfg now s
    split
    · rename_i t ht
      rw [ht] at h
      exact h
    · rename_i t ht
      rw [ht] at h
      exact h
  · split
    · have h := doStore_frame cfg now s
      split
      · rename_i t ht
        rw [ht] at h
        exact h
      · rename_i t ht
        rw [ht] at h
        exact h
    · split
      · exact ⟨rfl, rfl⟩
      · exact ⟨rfl, rfl⟩

theorem handleLine_frame {σ : Type} (cfg : Config) (F : FS σ) (now : Nat) (s : FtpServer)
    (fs : σ) (t : FtpServer) (fs' : σ) (h : handleLine cfg F now s fs = some (t, fs')) :
    (t.cwdName = s.cwdName ∨ t.cwdName = ['/'] ∨ F.exists_ fs t.cwdName = true)
      ∧ ((s.cmdStatus = 5 → s.command ≠ "RNFR".toList) → s.rnfrCmd = false →
          t.rnfrCmd = false) := by
  unfold handleLine at h
  by_cases h3 : s.cmdStatus = 3
  · rw [if_pos h3] at h
    split at h
    · exact Option.noConfusion h
    · rename_i u hu
      simp only [Option.some.injEq, Prod.mk.injEq] at h
      obtain ⟨rfl, _⟩ := h
      obtain ⟨h1, h2⟩ := userIdentity_frame now s _ u hu
      exact ⟨h2.elim Or.inl (fun e => Or.inr (Or.inl e)), fun _ h0 => h1.trans h0⟩
    · rename_i u hu
      simp only [Option.some.injEq, Prod.mk.injEq] at h
      obtain ⟨rfl, _⟩ := h
      obtain ⟨h1, h2⟩ := userIdentity_frame now s _ u hu
      exact ⟨h2.elim Or.inl (fun e => Or.inr (Or.inl e)), fun _ h0 => h1.trans h0⟩
  rw [if_neg h3] at h
  by_cases h4 : s.cmdStatus = 4
  · rw [if_pos h4] at h
    split at h
    · exact Option.noConfusion h
    · rename_i u hu
      simp only [Option.some.injEq, Prod.mk.injEq] at h
      obtain ⟨rfl, _⟩ := h
      obtain ⟨h1, h2⟩ := userPassword_frame now s _ u hu
      exact ⟨Or.inl h2, fun _ h0 => h1.trans h0⟩
    · rename_i u hu
      simp only [Option.some.injEq, Prod.mk.injEq] at h
      obtain ⟨rfl, _⟩ := h
      obtain ⟨h1, h2⟩ := userPassword_frame now s _ u hu
      exact ⟨Or.inl h2, fun _ h0 => h1.trans h0⟩
  rw [if_neg h4] at h
  by_cases h5 : s.cmdStatus = 5
  · rw [if_pos h5] at h
    split at h
    · exact Option.noConfusion h
    · rename_i u fs1 hu
      simp only [Option.some.injEq, Prod.mk.injEq] at h
      obtain ⟨rfl, _⟩ := h
      obtain ⟨h1, h2, _⟩ := processCommand_frame cfg F now s fs _ u fs1 hu
      refine ⟨h1, fun hn h0 => ?_⟩
      rcases h2 (hn h5) with e | e
      · exact e.trans h0
      · exact e
    · rename_i u fs1 hu
      simp only [Option.some.injEq, Prod.mk.injEq] at h
      obtain ⟨rfl, _⟩ := h
      obtain ⟨h1, h2, _⟩ := processCommand_frame cfg F now s fs _ u fs1 hu
      refine ⟨h1, fun hn h0 => ?_⟩
      rcases h2 (hn h5) with e | e
      · exact e.trans h0
      · exact e
  rw [if_neg h5] at h
  simp only [Option.some.injEq, Prod.mk.injEq] at h
  obtain ⟨rfl, _⟩ := h
  exact ⟨Or.inl rfl, fun _ h0 => h0⟩

theorem iniVariables_fields (cfg : Config) (s : FtpServer) :
    (iniVariables cfg s).rnfrCmd = false ∧ (iniVariables cfg s).cwdName = ['/'] :=
  ⟨rfl, rfl⟩

theorem handleSession_frame {σ : Type} (cfg : Config) (F : FS σ) (now : Nat) (s : FtpServer)
    (fs : σ) (t : FtpServer) (fs' : σ) (h : handleSession cfg F now s fs = some (t, fs')) :
    (t.cwdName = s.cwdName ∨ t.cwdName = ['/'] ∨ F.exists_ fs t.cwdName = true)
      ∧ ((s.cmdStatus = 5 → ∀ rc u, readChar cfg.FTP_CMD_SIZE s = some (rc, u) → rc > 0 →
            u.command ≠ "RNFR".toList) →
          s.rnfrCmd = false → t.rnfrCmd = false) := by
  unfold handleSession at h
  by_cases h0 : s.cmdStatus = 0
  · rw [if_pos h0] at h
    simp only [Option.some.injEq, Prod.mk.injEq] at h
    obtain ⟨rfl, _⟩ := h
    obtain ⟨h1, h2, _⟩ := disconnectClient_frame s
    split
    · exact ⟨Or.inl h1, fun _ e => h2.trans e⟩
    · exact ⟨Or.inl rfl, fun _ e => e⟩
  rw [if_neg h0] at h
  by_cases h1 : s.cmdStatus = 1
  · rw [if_pos h1] at h
    simp only [Option.some.injEq, Prod.mk.injEq] at h
    obtain ⟨rfl, _⟩ := h
    exact ⟨Or.inr (Or.inl rfl), fun _ _ => rfl⟩
  rw [if_neg h1] at h
  by_cases h2 : s.cmdStatus = 2
  · rw [if_pos h2] at h
    split at h
    · simp only [Option.some.injEq, Prod.mk.injEq] at h
      obtain ⟨rfl, _⟩ := h
      exact ⟨Or.inl rfl, fun _ e => e⟩
    · simp only [Option.some.injEq, Prod.mk.injEq] at h
      obtain ⟨rfl, _⟩ := h
      exact ⟨Or.inl rfl, fun _ e => e⟩
  rw [if_neg h2] at h
  cases hr : readChar cfg.FTP_CMD_SIZE s with
  | none =>
    rw [hr] at h
    exact Option.noConfusion h
  | some r =>
    obtain ⟨l1, l2, l3, _⟩ := lineOnly_fields (readChar_lineOnly cfg.FTP_CMD_SIZE s r hr)
    obtain ⟨rc, u⟩ := r
    rw [hr] at h
    dsimp only at h l1 l2 l3 ⊢
    split at h
    · rename_i hrc
      obtain ⟨k1, k2⟩ := handleLine_frame cfg F now u fs t fs' h
      rw [l2] at k1
      refine ⟨k1, fun hn e => k2 (fun h5 => hn (l3 ▸ h5) rc u rfl hrc) (l1.trans e)⟩
    · split at h
      · simp only [Option.some.injEq, Prod.mk.injEq] at h
        obtain ⟨rfl, _⟩ := h
        exact ⟨Or.inl l2, fun _ e => l1.trans e⟩
      · simp only [Option.some.injEq, Prod.mk.injEq] at h
        obtain ⟨rfl, _⟩ := h
        exact ⟨Or.inl l2, fun _ e => l1.trans e⟩

/-- What one tick of `handleFTP` may change of the working directory and of
the flag `rnfrCmd`. -/
theorem handleFTP_frame {σ : Type} (cfg : Config) (F : FS σ) (now : Nat) (s : FtpServer)
    (fs : σ) (s' : FtpServer) (fs' : σ) (h : handleFTP cfg F now s fs = some (s', fs')) :
    (s'.cwdName = s.cwdName ∨ s'.cwdName = ['/'] ∨ F.exists_ fs s'.cwdName = true)
      ∧ ((∀ d, dispatched cfg now s = some d → d.command ≠ "RNFR".toList) →
          s.rnfrCmd = false → s'.rnfrCmd = false) := by
  rw [handleFTP_eq] at h
  by_cases hg : toInt32 ((s.millisDelay : Int) - now) > 0
  · rw [if_pos hg] at h
    simp only [Option.some.injEq, Prod.mk.injEq] at h
    obtain ⟨rfl, _⟩ := h
    exact ⟨Or.inl rfl, fun _ e => e⟩
  rw [if_neg hg, Option.map_eq_some'] at h
  obtain ⟨⟨t, fs1⟩, ht, h⟩ := h
  simp only [Prod.mk.injEq] at h
  obtain ⟨rfl, _⟩ := h
  obtain ⟨a1, a2, a3, _⟩ := acceptClient_fields s
  obtain ⟨k1, k2⟩ := handleSession_frame cfg F now (acceptClient s) fs t fs1 ht
  obtain ⟨t1, t2⟩ := handleTransfer_frame cfg now t
  rw [a2] at k1
  rw [← t2] at k1
  refine ⟨k1, fun hn e => ?_⟩
  rw [t1]
  refine k2 (fun h5 rc u hru hrc => hn _ ?_) (a1.trans e)
  unfold dispatched
  rw [if_neg hg, if_pos h5, hru]
  dsimp only
  rw [if_pos hrc]

theorem noRnfrRun_rnfrCmd {σ : Type} (cfg : Config) (F : FS σ) (s : FtpServer)
    (hs : NoRnfrRun cfg F s) : s.rnfrCmd = false := by
  induction hs with
  | start s => rfl
  | peer s t _ hp ih =>
    obtain ⟨c, d, l1, l2, rfl⟩ := hp
    exact ih
  | tick now s fs s' fs' _ hno ht ih => exact (handleFTP_frame cfg F now s fs s' fs' ht).2 hno ih

theorem dispatched_eq (cfg : Config) (now : Nat) (s d : FtpServer)
    (h : dispatched cfg now s = some d) :
    ¬ toInt32 ((s.millisDelay : Int) - now) > 0 ∧ (acceptClient s).cmdStatus = 5
      ∧ ∃ rc, readChar cfg.FTP_CMD_SIZE (acceptClient s) = some (rc, d) ∧ rc > 0 := by
  unfold dispatched at h
  by_cases hg : toInt32 ((s.millisDelay : Int) - now) > 0
  · rw [if_pos hg] at h
    exact Option.noConfusion h
  rw [if_neg hg] at h
  by_cases h5 : (acceptClient s).cmdStatus = 5
  · rw [if_pos h5] at h
    cases hr : readChar cfg.FTP_CMD_SIZE (acceptClient s) with
    | none =>
      rw [hr] at h
      exact Option.noConfusion h
    | some r =>
      obtain ⟨rc, u⟩ := r
      rw [hr] at h
      dsimp only at h
      split at h
      · rename_i hrc
        simp only [Option.some.injEq] at h
        subst h
        exact ⟨hg, h5, rc, rfl, hrc⟩
      · exact Option.noConfusion h
  rw [if_neg h5] at h
  exact Option.noConfusion h

theorem processCommand_RNTO_flag {σ : Type} (cfg : Config) (F : FS σ) (now : Nat)
    (d : FtpServer) (fs : σ) (hcmd : d.command = "RNTO".toList) (h0 : d.rnfrCmd = false) :
    processCommand cfg F now d fs
      = some (true, { d.reply "503 Need RNFR before RNTO" with rnfrCmd := false }, fs) := by
  simp [processCommand, hcmd, processRNTO, h0]

/-- The result of a tick that dispatches a command. -/
theorem handleFTP_dispatched {σ : Type} (cfg : Config) (F : FS σ) (now : Nat)
    (s d : FtpServer) (fs : σ) (hd : dispatched cfg now s = some d) :
    handleFTP cfg F now s fs
      = (match processCommand cfg F now d fs with
          | none => none
          | some (false, t, fs1) => some (handleTransfer cfg now { t with cmdStatus := 0 }, fs1)
          | some (true, t, fs1) =>
            some (handleTransfer cfg now
              { t with millisEndConnection := toUInt32 (now + t.millisTimeOut) }, fs1)) := by
  obtain ⟨hg, h5, rc, hr, hrc⟩ := dispatched_eq cfg now s d hd
  obtain ⟨_, _, l3, _⟩ :=
    lineOnly_fields (readChar_lineOnly cfg.FTP_CMD_SIZE (acceptClient s) _ hr)
  rw [handleFTP_eq, if_neg hg]
  unfold handleSession
  have n0 : ¬ (acceptClient s).cmdStatus = 0 := by rw [h5]; decide
  have n1 : ¬ (acceptClient s).cmdStatus = 1 := by rw [h5]; decide
  have n2 : ¬ (acceptClient s).cmdStatus = 2 := by rw [h5]; decide
  rw [if_neg n0, if_neg n1, if_neg n2]
  rw [h5] at l3
  rw [hr]
  dsimp only at l3 ⊢
  rw [if_pos hrc]
  unfold handleLine
  have m3 : ¬ d.cmdStatus = 3 := by rw [l3]; decide
  have m4 : ¬ d.cmdStatus = 4 := by rw [l3]; decide
  rw [if_neg m3, if_neg m4, if_pos l3]
  cases processCommand cfg F now d fs with
  | none => rfl
  | some x =>
    obtain ⟨b, t, fs1⟩ := x
    cases b <;> rfl

/-! ## C11: `RNTO` without `RNFR` -/

/-- C11: in every state reached from the start of a session (`iniVariables`) by
ticks of `handleFTP` that dispatch no `RNFR` (and by steps of the peers), a
tick that dispatches `RNTO` finds the flag `rnfrCmd` false; `processCommand`
then replies `503 Need RNFR before RNTO` and returns the filesystem as it is,
whatever the argument, the content of `buf` and the filesystem are (the result
does not depend on `F`, so `rename` is not called), and the tick ends with that
state and that filesystem. -/
theorem processCommand_RNTO_without_RNFR {σ : Type} (cfg : Config) (F : FS σ) (s : FtpServer)
    (hs : NoRnfrRun cfg F s) (now : Nat) (fs : σ) (d : FtpServer)
    (hd : dispatched cfg now s = some d) (hcmd : d.command = "RNTO".toList) :
    d.rnfrCmd = false
      ∧ processCommand cfg F now d fs
          = some (true, { d.reply "503 Need RNFR before RNTO" with rnfrCmd := false }, fs)
      ∧ handleFTP cfg F now s fs
          = some (handleTransfer cfg now
              { d.reply "503 Need RNFR before RNTO" with
                rnfrCmd := false
                millisEndConnection := toUInt32 (now + d.millisTimeOut) }, fs) := by
  have h0 : d.rnfrCmd = false := by
    obtain ⟨_, _, rc, hr, _⟩ := dispatched_eq cfg now s d hd
    obtain ⟨l1, _⟩ :=
      lineOnly_fields (readChar_lineOnly cfg.FTP_CMD_SIZE (acceptClient s) _ hr)
    rw [l1, (acceptClient_fields s).1]
    exact noRnfrRun_rnfrCmd cfg F s hs
  have hp := processCommand_RNTO_flag cfg F now d fs hcmd h0
  refine ⟨h0, hp, ?_⟩
  rw [handleFTP_dispatched cfg F now s d fs hd, hp]
  rfl

set_option maxRecDepth 100000 in
/-- Witness for C11: a session in which `buf` holds the name `/a` of an
existing file receives the line `RNTO /x`. -/
theorem processCommand_RNTO_without_RNFR_witness :
    ∃ d, dispatched defaultConfig 1000
          (iniVariables defaultConfig
            { buffered (session 5 []) "RNTO /x".toList [LF] with buf := "/a".toList ++ [NUL] })
          = some d
      ∧ d.command = "RNTO".toList ∧ d.params = some "/x".toList
      ∧ processCommand defaultConfig listFS 1000 d ["/a".toList]
          = some (true, { d.reply "503 Need RNFR before RNTO" with rnfrCmd := false },
              ["/a".toList]) :=
  ⟨_, rfl, by decide, by decide,
    (processCommand_RNTO_without_RNFR defaultConfig listFS _
      (NoRnfrRun.start
        { buffered (session 5 []) "RNTO /x".toList [LF] with buf := "/a".toList ++ [NUL] })
      1000 ["/a".toList] _ rfl (by decide)).2.1⟩

/-! ## The branches `RNFR` and `RNTO` -/

theorem no_nul_cstr (l : List Char) : NUL ∉ cstr l := by
  induction l with
  | nil => simp [cstr]
  | cons c l ih =>
    unfold cstr
    split
    · simp
    · rename_i hc
      intro h
      rcases List.mem_cons.mp h with h | h
      · exact hc h.symm
      · exact ih h

theorem no_nul_params (s : FtpServer) (a : List Char) (h : s.params = some a) : NUL ∉ a := by
  unfold FtpServer.params at h
  rw [Option.map_eq_some'] at h
  obtain ⟨p, _, rfl⟩ := h
  exact no_nul_cstr _

theorem no_nul_resolvePath (cwd arg : List Char) (h1 : NUL ∉ cwd) (h2 : NUL ∉ arg) :
    NUL ∉ resolvePath cwd arg := by
  have hne : NUL ≠ '/' := by decide
  have hj : NUL ∉ joinPath cwd arg := by
    unfold joinPath
    split
    · simp [h1, h2]
    · simp [h1, h2, hne]
  have hc : NUL ∉ candidatePath cwd arg := by
    unfold candidatePath
    split
    · exact h2
    · exact hj
  unfold resolvePath
  split
  · simp [hne]
  · unfold stripSlash
    split
    · exact fun h => hc (List.mem_of_mem_dropLast h)
    · exact hc

theorem resolvePath_ne_nil (cwd arg : List Char) (hcwd : cwd.head? = some '/') :
    resolvePath cwd arg ≠ [] := by
  by_cases ha : arg = [] ∨ arg = [('/' : Char)]
  · simp [resolvePath, ha]
  · have h1 := length_resolvePath_ge cwd arg hcwd ha
    have h2 := length_candidatePath cwd arg hcwd ha
    intro h
    rw [h] at h1
    simp at h1
    omega

theorem makePath_params (n m : Nat) (s : FtpServer) (a : List Char) (h : s.params = some a) :
    makePath n m s none = makePath n m s (some a) := by
  simp [makePath, h]

theorem cstr_writeStr (mem p : List Char) (hp : NUL ∉ p) : cstr (writeStr mem p) = p :=
  cstr_append_stops p _ hp (Or.inr ⟨_, rfl⟩)

/-- The branch `RNFR` for an argument whose candidate path fits `buf` and whose
resolved path is shorter than `FTP_CWD_SIZE` and exists. -/
theorem processRNFR_accepts {σ : Type} (cfg : Config) (F : FS σ) (s : FtpServer) (fs : σ)
    (arg : List Char) (hpar : s.params = some arg) (harg : arg ≠ [])
    (hcwd : s.cwdName.head? = some '/') (hnul : NUL ∉ s.cwdName)
    (hlen : s.cwdName.length + arg.length < 65536)
    (hfit : (resolvePath s.cwdName arg).length < cfg.FTP_CWD_SIZE)
    (hcap : pathBytes s.cwdName arg ≤ cfg.FTP_BUF_SIZE)
    (hex : F.exists_ fs (resolvePath s.cwdName arg) = true) :
    processRNFR cfg F s fs
      = some { { s with buf := writeStr (s.buf.set 0 NUL) (resolvePath s.cwdName arg) }.reply
                "350 RNFR accepted - file exists, ready for destination" with
               rnfrCmd := true } := by
  have hp0 : ({ s with buf := s.buf.set 0 NUL } : FtpServer).params = some arg := hpar
  have hm := makePath_fits cfg.FTP_CWD_SIZE cfg.FTP_BUF_SIZE { s with buf := s.buf.set 0 NUL }
    arg hcwd hlen hcap hfit
  rw [← makePath_params _ _ _ _ hp0] at hm
  have hnp := no_nul_resolvePath s.cwdName arg hnul (no_nul_params s arg hpar)
  have hl : ¬ arg.length = 0 := fun h => harg (List.length_eq_zero.mp h)
  unfold processRNFR
  simp only [hp0, hm, hl, if_false, cstr_writeStr _ _ hnp, hex, Bool.not_true]
  rfl

/-- The branch `RNTO` after an accepted `RNFR`, for an argument whose candidate
path fits the buffer `path` and whose resolved path does not exist. -/
theorem processRNTO_renames {σ : Type} (cfg : Config) (F : FS σ) (s : FtpServer) (fs : σ)
    (arg src : List Char) (hbuf : cstr s.buf = src) (hsrc : src ≠ [])
    (hflag : s.rnfrCmd = true)
    (hpar : s.params = some arg) (harg : arg ≠ [])
    (hcwd : s.cwdName.head? = some '/')
    (hlen : s.cwdName.length + arg.length < 65536)
    (hfit : (resolvePath s.cwdName arg).length < cfg.FTP_CWD_SIZE)
    (hcap : pathBytes s.cwdName arg ≤ cfg.FTP_CWD_SIZE)
    (hex : F.exists_ fs (resolvePath s.cwdName arg) = false) :
    processRNTO cfg F s fs
      = some ({ s.reply (if (F.rename fs src (resolvePath s.cwdName arg)).1 = true
                  then "250 File successfully renamed or moved"
                  else "451 Rename/move failure") with rnfrCmd := false },
              (F.rename fs src (resolvePath s.cwdName arg)).2) := by
  have hm := makePath_fits cfg.FTP_CWD_SIZE cfg.FTP_CWD_SIZE s arg hcwd hlen hcap hfit
  rw [← makePath_params _ _ _ _ hpar] at hm
  have hl : ¬ arg.length = 0 := fun h => harg (List.length_eq_zero.mp h)
  have hs : ¬ (strlen s.buf = 0 ∨ (!s.rnfrCmd) = true) := by
    unfold strlen
    rw [hbuf, hflag]
    intro h
    rcases h with h | h
    · exact hsrc (List.length_eq_zero.mp h)
    · exact absurd h (by decide)
  unfold processRNTO
  simp only [hs, if_false, hpar, hl, hm, hex, hbuf]
  cases hr : F.rename fs src (resolvePath s.cwdName arg) with
  | mk ok fs1 =>
    cases ok <;> simp

theorem processCommand_RNFR_eq {σ : Type} (cfg : Config) (F : FS σ) (now : Nat)
    (s : FtpServer) (fs : σ) (hcmd : s.command = "RNFR".toList) :
    processCommand cfg F now s fs
      = (processRNFR cfg F s fs).bind (fun t => some (true, t, fs)) := by
  simp [processCommand, hcmd]

theorem processCommand_RNTO_eq {σ : Type} (cfg : Config) (F : FS σ) (now : Nat)
    (s : FtpServer) (fs : σ) (hcmd : s.command = "RNTO".toList) :
    processCommand cfg F now s fs
      = (processRNTO cfg F s fs).map (fun x => (true, x.1, x.2)) := by
  simp [processCommand, hcmd]

/-! ## C12: two `RNFR` in a row -/

/-- C12: let `a` and `b` be arguments whose resolved paths exist and `c` one
whose resolved path does not exist (all three not empty, the resolved paths of
`a` and `b` shorter than `FTP_CWD_SIZE`, and the candidate path of `c` fitting,
with its terminator, the array `path` of `FTP_CWD_SIZE` bytes into which `RNTO`
has it copied), in a configuration in which `buf` is larger than
`FTP_CWD_SIZE`.  The commands `RNFR a`, `RNFR b`, `RNTO c`,
dispatched one after the other with `buf`, `rnfrCmd` and `cwdName` untouched in
between (no transfer step), all have a result, and on the filesystem that
records the calls of `rename` the record is, after the three commands, the
single call with the resolved path of `b` as source and the resolved path of
`c` as destination; the filesystem is the one that call returns, and the reply
to `RNTO` is 250 or 451 as that call tells. -/
theorem RNFR_twice_then_RNTO {σ : Type} (cfg : Config) (F : FS σ) (now1 : Nat)
    (s1 : FtpServer) (fs : σ) (a b c : List Char)
    (hcmd : s1.command = "RNFR".toList) (hpar : s1.params = some a)
    (ha : a ≠ []) (hb : b ≠ []) (hc : c ≠ [])
    (hcwd : s1.cwdName.head? = some '/') (hnul : NUL ∉ s1.cwdName)
    (hla : s1.cwdName.length + a.length < 65536)
    (hlb : s1.cwdName.length + b.length < 65536)
    (hlc : s1.cwdName.length + c.length < 65536)
    (hfa : (resolvePath s1.cwdName a).length < cfg.FTP_CWD_SIZE)
    (hfb : (resolvePath s1.cwdName b).length < cfg.FTP_CWD_SIZE)
    (hfc : pathBytes s1.cwdName c ≤ cfg.FTP_CWD_SIZE)
    (hcfg : cfg.FTP_CWD_SIZE < cfg.FTP_BUF_SIZE)
    (hea : F.exists_ fs (resolvePath s1.cwdName a) = true)
    (heb : F.exists_ fs (resolvePath s1.cwdName b) = true)
    (hec : F.exists_ fs (resolvePath s1.cwdName c) = false) :
    ∃ t1, processCommand cfg (recordRename F) now1 s1 (fs, []) = some (true, t1, (fs, []))
      ∧ ∀ (now2 : Nat) (s2 : FtpServer), NextLine t1 s2 "RNFR".toList b →
        ∃ t2, processCommand cfg (recordRename F) now2 s2 (fs, [])
            = some (true, t2, (fs, []))
          ∧ ∀ (now3 : Nat) (s3 : FtpServer), NextLine t2 s3 "RNTO".toList c →
            ∃ t3, processCommand cfg (recordRename F) now3 s3 (fs, [])
                = some (true, t3,
                    ((F.rename fs (resolvePath s1.cwdName b) (resolvePath s1.cwdName c)).2,
                      [(resolvePath s1.cwdName b, resolvePath s1.cwdName c)]))
              ∧ t3.client.tx = s3.client.tx
                  ++ [if (F.rename fs (resolvePath s1.cwdName b)
                            (resolvePath s1.cwdName c)).1 = true
                      then "250 File successfully renamed or moved"
                      else "451 Rename/move failure"] := by
  have hba : pathBytes s1.cwdName a ≤ cfg.FTP_BUF_SIZE := by
    have := pathBytes_le_resolvePath s1.cwdName a hcwd
    omega
  have hbb : pathBytes s1.cwdName b ≤ cfg.FTP_BUF_SIZE := by
    have := pathBytes_le_resolvePath s1.cwdName b hcwd
    omega
  have hrc : (resolvePath s1.cwdName c).length < cfg.FTP_CWD_SIZE :=
    Nat.lt_of_lt_of_le (length_resolvePath_lt_pathBytes s1.cwdName c hcwd) hfc
  refine ⟨{ { s1 with buf := writeStr (s1.buf.set 0 NUL) (resolvePath s1.cwdName a) }.reply
              "350 RNFR accepted - file exists, ready for destination" with
            rnfrCmd := true }, ?_, ?_⟩
  · rw [processCommand_RNFR_eq _ _ _ _ _ hcmd,
      processRNFR_accepts cfg (recordRename F) s1 (fs, []) a hpar ha hcwd hnul hla hfa hba hea]
    rfl
  intro now2 s2 hn2
  obtain ⟨n1, n2, n3, n4, n5⟩ := hn2
  have k3 : s2.cwdName = s1.cwdName := n3
  refine ⟨{ { s2 with buf := writeStr (s2.buf.set 0 NUL) (resolvePath s2.cwdName b) }.reply
              "350 RNFR accepted - file exists, ready for destination" with
            rnfrCmd := true }, ?_, ?_⟩
  · rw [processCommand_RNFR_eq _ _ _ _ _ n4,
      processRNFR_accepts cfg (recordRename F) s2 (fs, []) b n5 hb (k3 ▸ hcwd) (k3 ▸ hnul)
        (k3 ▸ hlb) (k3 ▸ hfb) (k3 ▸ hbb) (k3 ▸ heb)]
    rfl
  intro now3 s3 hn3
  obtain ⟨m1, m2, m3, m4, m5⟩ := hn3
  have j3 : s3.cwdName = s1.cwdName := m3.trans k3
  have hnb : NUL ∉ resolvePath s1.cwdName b :=
    no_nul_resolvePath s1.cwdName b hnul (no_nul_params s2 b n5)
  have jbuf : cstr s3.buf = resolvePath s1.cwdName b := by
    rw [m1]
    show cstr (writeStr _ (resolvePath s2.cwdName b)) = _
    rw [k3]
    exact cstr_writeStr _ _ hnb
  have jflag : s3.rnfrCmd = true := m2
  have hr := processRNTO_renames cfg (recordRename F) s3 (fs, []) c (resolvePath s1.cwdName b)
    jbuf (resolvePath_ne_nil _ _ hcwd) jflag m5 hc (j3 ▸ hcwd) (j3 ▸ hlc) (j3 ▸ hrc)
    (j3 ▸ hfc) (j3 ▸ hec)
  rw [j3] at hr
  refine ⟨{ s3.reply (if (F.rename fs (resolvePath s1.cwdName b)
                (resolvePath s1.cwdName c)).1 = true
              then "250 File successfully renamed or moved"
              else "451 Rename/move failure") with rnfrCmd := false }, ?_, ?_⟩
  · rw [processCommand_RNTO_eq _ _ _ _ _ m4, hr]
    rfl
  · rfl

set_option maxRecDepth 100000 in
/-- Witness for C12: `RNFR /a`, `RNFR /b`, `RNTO /c` where `/a` and `/b` exist. -/
theorem RNFR_twice_then_RNTO_witness :
    ∃ t1 t2 t3,
      processCommand defaultConfig (recordRename listFS) 1000
          (withLine (session 5 []) "RNFR".toList "/a".toList) (["/a".toList, "/b".toList], [])
          = some (true, t1, (["/a".toList, "/b".toList], []))
      ∧ processCommand defaultConfig (recordRename listFS) 1001
          (withLine t1 "RNFR".toList "/b".toList) (["/a".toList, "/b".toList], [])
          = some (true, t2, (["/a".toList, "/b".toList], []))
      ∧ processCommand defaultConfig (recordRename listFS) 1002
          (withLine t2 "RNTO".toList "/c".toList) (["/a".toList, "/b".toList], [])
          = some (true, t3, (["/a".toList, "/c".toList], [("/b".toList, "/c".toList)])) := by
  obtain ⟨t1, h1, k1⟩ := RNFR_twice_then_RNTO defaultConfig listFS 1000
    (withLine (session 5 []) "RNFR".toList "/a".toList) ["/a".toList, "/b".toList]
    "/a".toList "/b".toList "/c".toList rfl (by decide) (by decide) (by decide) (by decide)
    (by decide) (by decide) (by decide) (by decide) (by decide) (by decide) (by decide)
    (by decide) (by decide) (by decide) (by decide) (by decide)
  obtain ⟨t2, h2, k2⟩ := k1 1001 (withLine t1 "RNFR".toList "/b".toList)
    ⟨rfl, rfl, rfl, rfl, by simp [withLine, FtpServer.params, writeStr, cstr, NUL]⟩
  obtain ⟨t3, h3, _⟩ := k2 1002 (withLine t2 "RNTO".toList "/c".toList)
    ⟨rfl, rfl, rfl, rfl, by simp [withLine, FtpServer.params, writeStr, cstr, NUL]⟩
  exact ⟨t1, t2, t3, h1, h2, h3⟩

/-! ## Ticks without a command -/

theorem readCharLF_client (n : Nat) (s : FtpServer) (r : Int × FtpServer)
    (h : readCharLF n s = some r) : r.2.client = s.client := by
  unfold readCharLF at h
  dsimp only at h
  repeat' split at h
  all_goals first
    | exact Option.noConfusion h
    | (simp only [Option.some.injEq] at h
       subst h
       rfl)

theorem readChar_client (n : Nat) (s : FtpServer) (r : Int × FtpServer)
    (h : readChar n s = some r) :
    r.2.client.connected = s.client.connected ∧ count530 r.2.client = count530 s.client := by
  unfold readChar at h
  split at h
  · simp only [Option.some.injEq] at h
    subst h
    exact ⟨rfl, rfl⟩
  · rename_i c0 rest hrx
    dsimp only at h
    rw [Option.map_eq_some'] at h
    obtain ⟨q, hq, rfl⟩ := h
    have hq2 : q.2.client = { s.client with rx := rest } := by
      repeat' split at hq
      all_goals first
        | exact readCharLF_client _ _ _ hq
        | (simp only [Option.some.injEq] at hq
           subst hq
           rfl)
    dsimp only
    repeat' split
    all_goals first
      | (rw [hq2]
         exact ⟨rfl, rfl⟩)
      | (refine ⟨?_, ?_⟩
         · simp only [FtpServer.reply, WiFiClient.println, hq2]
         · simp [FtpServer.reply, WiFiClient.println, hq2, count530])

theorem abortTransfer_idle (s : FtpServer) (h : s.transferStatus = 0) : abortTransfer s = s := by
  have hn : ¬ s.transferStatus > 0 := by omega
  cases s
  simp_all [abortTransfer]

theorem disconnectClient_idle (s : FtpServer) (h : s.transferStatus = 0) :
    (disconnectClient s).client.connected = false
      ∧ count530 (disconnectClient s).client = count530 s.client
      ∧ (disconnectClient s).transferStatus = 0
      ∧ (disconnectClient s).ftpServer = s.ftpServer := by
  unfold disconnectClient
  rw [abortTransfer_idle s h]
  refine ⟨rfl, ?_, h, rfl⟩
  simp [count530, FtpServer.reply, WiFiClient.println, WiFiClient.stop]

theorem version_ne_timeout (v : String) : "220-Version " ++ v ≠ "530 Timeout" := by
  intro h
  have h1 := congrArg String.data h
  simp at h1

theorem clientConnected_fields (cfg : Config) (s : FtpServer) :
    count530 (clientConnected cfg s).client = count530 s.client
      ∧ (clientConnected cfg s).client.connected = s.client.connected
      ∧ (clientConnected cfg s).transferStatus = s.transferStatus
      ∧ (clientConnected cfg s).ftpServer = s.ftpServer := by
  refine ⟨?_, rfl, rfl, rfl⟩
  have hv := version_ne_timeout cfg.FTP_SERVER_VERSION
  simp [count530, clientConnected, FtpServer.reply, WiFiClient.println, List.count_cons, hv]

theorem handleTransfer_idle_eq (cfg : Config) (now : Nat) (u : FtpServer)
    (h : u.transferStatus = 0) :
    handleTransfer cfg now u
      = if u.cmdStatus > 2 ∧ ¬ (toInt32 ((u.millisEndConnection : Int) - now) > 0) then
          { u.reply "530 Timeout" with millisDelay := toUInt32 (now + 200), cmdStatus := 0 }
        else u := by
  have h1 : ¬ u.transferStatus = 1 := by rw [h]; decide
  have h2 : ¬ u.transferStatus = 2 := by rw [h]; decide
  unfold handleTransfer
  rw [if_neg h1, if_neg h2]

theorem handleTransfer_low (cfg : Config) (now : Nat) (u : FtpServer)
    (h : u.transferStatus = 0) (hc : u.cmdStatus ≤ 2) : handleTransfer cfg now u = u := by
  rw [handleTransfer_idle_eq cfg now u h, if_neg]
  intro hh
  omega

theorem deadline_ahead (now : Nat) :
    toInt32 (((toUInt32 (now + 10 * 1000) : Nat) : Int) - now) > 0 := by
  unfold toInt32 toUInt32
  omega

theorem deadline_reached (deadline now : Nat) (h1 : deadline ≤ now)
    (h2 : now - deadline < 2147483648) : ¬ (toInt32 ((deadline : Int) - now) > 0) := by
  unfold toInt32
  omega

/-- A tick in a connected state in which no line is completed and the client
is connected: the line assembler runs, then the deadline is tested. -/
theorem handleFTP_waiting {σ : Type} (cfg : Config) (F : FS σ) (now : Nat) (s : FtpServer)
    (fs : σ) (hst : s.cmdStatus = 3 ∨ s.cmdStatus = 4 ∨ s.cmdStatus = 5)
    (htr : s.transferStatus = 0)
    (hgate : ¬ toInt32 ((s.millisDelay : Int) - now) > 0)
    (hconn : (acceptClient s).client.connected = true)
    (rc : Int) (u : FtpServer)
    (hr : readChar cfg.FTP_CMD_SIZE (acceptClient s) = some (rc, u)) (hrc : rc ≤ 0) :
    handleFTP cfg F now s fs = some (handleTransfer cfg now u, fs)
      ∧ u.transferStatus = 0
      ∧ u.cmdStatus = s.cmdStatus
      ∧ u.millisEndConnection = s.millisEndConnection := by
  obtain ⟨_, _, a3, a4, a5⟩ := acceptClient_fields s
  obtain ⟨_, _, l3, l4, _, _, _, l8, _⟩ :=
    lineOnly_fields (readChar_lineOnly cfg.FTP_CMD_SIZE (acceptClient s) _ hr)
  have hc := (readChar_client cfg.FTP_CMD_SIZE (acceptClient s) _ hr).1
  dsimp only at l3 l4 l8 hc
  refine ⟨?_, by rw [l4, a4, htr], by rw [l3, a3], by rw [l8, a5]⟩
  have n0 : ¬ (acceptClient s).cmdStatus = 0 := by rw [a3]; omega
  have n1 : ¬ (acceptClient s).cmdStatus = 1 := by rw [a3]; omega
  have n2 : ¬ (acceptClient s).cmdStatus = 2 := by rw [a3]; omega
  rw [handleFTP_eq, if_neg hgate]
  unfold handleSession
  rw [if_neg n0, if_neg n1, if_neg n2]
  rw [hconn] at hc
  rw [hr]
  dsimp only
  have hn : ¬ rc > 0 := by omega
  rw [if_neg hn, hc]
  rfl

/-- A tick in the state 0, 1 or 2 with no transfer active. -/
theorem handleFTP_idle {σ : Type} (cfg : Config) (F : FS σ) (now : Nat) (t : FtpServer)
    (fs : σ) (hst : t.cmdStatus = 0 ∨ t.cmdStatus = 1 ∨ t.cmdStatus = 2)
    (htr : t.transferStatus = 0) :
    ∃ t', handleFTP cfg F now t fs = some (t', fs)
      ∧ count530 t'.client = count530 (tickClient now t)
      ∧ t'.transferStatus = 0
      ∧ ((t'.cmdStatus = 0 ∨ t'.cmdStatus = 1 ∨ t'.cmdStatus = 2)
          ∨ (t'.cmdStatus = 3 ∧ t.cmdStatus = 2 ∧ (acceptClient t).client.connected = true
              ∧ toInt32 ((t'.millisEndConnection : Int) - now) > 0))
      ∧ (t.cmdStatus = 0 →
          (toInt32 ((t.millisDelay : Int) - now) > 0 ∧ t' = t)
            ∨ (¬ toInt32 ((t.millisDelay : Int) - now) > 0
                ∧ t'.client.connected = false ∧ t'.cmdStatus = 1))
      ∧ (t.ftpServer = [] →
          t'.ftpServer = []
            ∧ (t.client.connected = false →
                t'.client.connected = false
                  ∧ (t'.cmdStatus = 0 ∨ t'.cmdStatus = 1 ∨ t'.cmdStatus = 2))) := by
  rw [handleFTP_eq]
  unfold tickClient
  by_cases hg : toInt32 ((t.millisDelay : Int) - now) > 0
  · rw [if_pos hg, if_pos hg]
    exact ⟨t, rfl, rfl, htr, Or.inl hst, fun _ => Or.inl ⟨hg, rfl⟩,
      fun h1 => ⟨h1, fun h2 => ⟨h2, hst⟩⟩⟩
  rw [if_neg hg, if_neg hg]
  obtain ⟨_, _, a3, a4, _⟩ := acceptClient_fields t
  have hacc : t.ftpServer = [] → acceptClient t = t := by
    intro h
    unfold acceptClient
    rw [h]
  rw [← a3] at hst
  rw [← a4] at htr
  clear a4
  unfold handleSession
  generalize acceptClient t = a at hst htr hacc a3 ⊢
  by_cases h0 : a.cmdStatus = 0
  · rw [if_pos h0]
    have hY : (if a.client.connected = true then disconnectClient a else a).transferStatus = 0
        ∧ count530 (if a.client.connected = true then disconnectClient a else a).client
            = count530 a.client
        ∧ (if a.client.connected = true then disconnectClient a else a).client.connected = false
        ∧ (if a.client.connected = true then disconnectClient a else a).ftpServer
            = a.ftpServer := by
      by_cases hc : a.client.connected = true
      · rw [if_pos hc]
        obtain ⟨d1, d2, d3, d4⟩ := disconnectClient_idle a htr
        exact ⟨d3, d2, d1, d4⟩
      · rw [if_neg hc]
        exact ⟨htr, rfl, by simpa using hc, rfl⟩
    dsimp only
    generalize (if a.client.connected = true then disconnectClient a else a) = Y at hY ⊢
    obtain ⟨y1, y2, y3, y4⟩ := hY
    refine ⟨{ Y with cmdStatus := 1 }, ?_, y2, y1, Or.inl (Or.inr (Or.inl rfl)),
      fun _ => Or.inr ⟨hg, y3, rfl⟩, fun k1 => ⟨?_, fun _ => ⟨y3, Or.inr (Or.inl rfl)⟩⟩⟩
    · show some (handleTransfer cfg now { Y with cmdStatus := 1 }, fs) = _
      rw [handleTransfer_low cfg now { Y with cmdStatus := 1 } y1
        (show (1 : Int) ≤ 2 by decide)]
    · show Y.ftpServer = []
      rw [y4, hacc k1]
      exact k1
  rw [if_neg h0]
  by_cases h1 : a.cmdStatus = 1
  · rw [if_pos h1, abortTransfer_idle a htr]
    refine ⟨{ iniVariables cfg a with cmdStatus := 2 }, ?_, rfl, rfl,
      Or.inl (Or.inr (Or.inr rfl)), fun h => ?_,
      fun k1 => ⟨?_, fun k2 => ⟨?_, Or.inr (Or.inr rfl)⟩⟩⟩
    · show some (handleTransfer cfg now { iniVariables cfg a with cmdStatus := 2 }, fs) = _
      rw [handleTransfer_low cfg now { iniVariables cfg a with cmdStatus := 2 } rfl
        (show (2 : Int) ≤ 2 by decide)]
    · rw [← a3] at h
      exact absurd h h0
    · show a.ftpServer = []
      rw [hacc k1]
      exact k1
    · show a.client.connected = false
      rw [hacc k1]
      exact k2
  rw [if_neg h1]
  have h2 : a.cmdStatus = 2 := by omega
  rw [if_pos h2]
  by_cases hc : a.client.connected = true
  · rw [if_pos hc]
    obtain ⟨c1, c2, c3, c4⟩ := clientConnected_fields cfg a
    have hd := deadline_ahead now
    refine ⟨{ clientConnected cfg a with
              millisEndConnection := toUInt32 (now + 10 * 1000), cmdStatus := 3 },
      ?_, c1, c3.trans htr, Or.inr ⟨rfl, by rw [← a3]; exact h2, hc, hd⟩,
      fun h => ?_, fun k1 => ⟨?_, fun k2 => ?_⟩⟩
    · show some (handleTransfer cfg now { clientConnected cfg a with
              millisEndConnection := toUInt32 (now + 10 * 1000), cmdStatus := 3 }, fs) = _
      rw [handleTransfer_idle_eq cfg now { clientConnected cfg a with
              millisEndConnection := toUInt32 (now + 10 * 1000), cmdStatus := 3 }
            (c3.trans htr), if_neg (fun h => h.2 hd)]
    · rw [← a3] at h
      exact absurd h h0
    · show (clientConnected cfg a).ftpServer = []
      rw [c4, hacc k1]
      exact k1
    · rw [hacc k1, k2] at hc
      exact absurd hc (by decide)
  · rw [if_neg hc]
    have hc2 : a.client.connected = false := by simpa using hc
    refine ⟨a, ?_, rfl, htr, Or.inl (Or.inr (Or.inr h2)), fun h => ?_,
      fun k1 => ⟨?_, fun _ => ⟨hc2, Or.inr (Or.inr h2)⟩⟩⟩
    · show some (handleTransfer cfg now a, fs) = _
      rw [handleTransfer_low cfg now a htr (by omega)]
    · rw [← a3] at h
      exact absurd h h0
    · rw [hacc k1]
      exact k1

/-- Ticks of a session without client print no `530 Timeout` and leave it
without client, whatever the clock values are. -/
theorem ticksAt_noClient {σ : Type} (cfg : Config) (F : FS σ) (times : List Nat) :
    ∀ (t : FtpServer) (fs : σ), NoClient t →
      ∃ t', ticksAt cfg F times t fs = some (t', fs) ∧ NoClient t'
        ∧ count530 t'.client = count530 t.client := by
  induction times with
  | nil =>
    intro t fs h
    exact ⟨t, rfl, h, rfl⟩
  | cons now rest ih =>
    intro t fs h
    obtain ⟨n1, n2, n3⟩ := h
    have hst : t.cmdStatus = 0 ∨ t.cmdStatus = 1 ∨ t.cmdStatus = 2 := by
      rcases n3 with h | ⟨h | h, _⟩
      · exact Or.inl h
      · exact Or.inr (Or.inl h)
      · exact Or.inr (Or.inr h)
    obtain ⟨t1, e1, e2, e3, _, e5, e6⟩ := handleFTP_idle cfg F now t fs hst n1
    have hcl : tickClient now t = t.client := by
      unfold tickClient acceptClient
      rw [n2]
      split <;> rfl
    rw [hcl] at e2
    have hn1 : NoClient t1 := by
      refine ⟨e3, (e6 n2).1, ?_⟩
      rcases n3 with h | ⟨_, hc⟩
      · rcases e5 h with ⟨_, rfl⟩ | ⟨_, k1, k2⟩
        · exact Or.inl h
        · exact Or.inr ⟨Or.inl k2, k1⟩
      · obtain ⟨k1, k2⟩ := (e6 n2).2 hc
        rcases k2 with k | k | k
        · exact Or.inl k
        · exact Or.inr ⟨Or.inl k, k1⟩
        · exact Or.inr ⟨Or.inr k, k1⟩
    obtain ⟨t2, f1, f2, f3⟩ := ih t1 fs hn1
    refine ⟨t2, ?_, f2, f3.trans e2⟩
    unfold ticksAt
    rw [e1]
    exact f1

/-! ## C15: the idle timeout -/

set_option maxRecDepth 100000 in
/-- C15 does not hold: a ready session with no transfer and no command
arriving has `millisDelay` 0, as `begin` leaves it, and its deadline
`millisEndConnection` at 2^31 + 5.  At the tick at which the clock reaches the
deadline the signed difference `millisDelay - millis ()` is 2^31 - 5, the test
of the delay is positive and `handleFTP` returns at once: no `530 Timeout` is
printed and the session stays ready; the same holds at the clock value
2^32 - 1, shortly before the clock wraps.  With a delay that ended five
milliseconds before the deadline, the tick at the deadline prints
`530 Timeout` and moves to the state 0. -/
theorem handleFTP_timeout_skipped_by_delay :
    ({ session 5 [] with millisEndConnection := 2147483653 } : FtpServer).millisDelay = 0
      ∧ toInt32 ((0 : Int) - 2147483653) = 2147483643
      ∧ ¬ (toInt32 ((2147483653 : Int) - 2147483653) > 0)
      ∧ (handleFTP defaultConfig listFS 2147483653
          { session 5 [] with millisEndConnection := 2147483653 } []).map
            (fun r => (r.1.cmdStatus, r.1.client.connected, r.1.client.tx))
          = some (5, true, [])
      ∧ (handleFTP defaultConfig listFS 4294967295
          { session 5 [] with millisEndConnection := 2147483653 } []).map
            (fun r => (r.1.cmdStatus, r.1.client.connected, r.1.client.tx))
          = some (5, true, [])
      ∧ (handleFTP defaultConfig listFS 2147483653
          { session 5 [] with millisEndConnection := 2147483653
                              millisDelay := 2147483648 } []).map
            (fun r => (r.1.cmdStatus, r.1.client.tx)) = some (0, ["530 Timeout"]) := by
  decide

/-- The idle timeout at a tick that runs.  Take a session in a connected state
(`cmdStatus` 3, 4 or 5) with no transfer active, a tick at which the delay is
over, the control client is connected and the line assembler completes no
command.  Before the deadline
`millisEndConnection` the tick prints no `530 Timeout` and keeps the state; at
the first tick at which the clock has reached the deadline it prints
`530 Timeout` once, as its last line, and moves to the state 0 with a delay of
200 ms.  From the states 0, 1 and 2 no tick prints `530 Timeout`, at any clock
value: the tick stays in those states, dropping the client in state 0, or it
enters the state 3 from the state 2 with a connected client and a deadline of
its own, ten seconds ahead; and as long as no client waits on the listener,
any number of ticks leaves the session without client and the count of
`530 Timeout` as it is. -/
theorem handleFTP_timeout_once {σ : Type} (cfg : Config) (F : FS σ) (now : Nat)
    (s : FtpServer) (fs : σ)
    (hst : s.cmdStatus = 3 ∨ s.cmdStatus = 4 ∨ s.cmdStatus = 5)
    (htr : s.transferStatus = 0)
    (hgate : ¬ toInt32 ((s.millisDelay : Int) - now) > 0)
    (hconn : (acceptClient s).client.connected = true)
    (rc : Int) (u : FtpServer)
    (hr : readChar cfg.FTP_CMD_SIZE (acceptClient s) = some (rc, u)) (hrc : rc ≤ 0) :
    (toInt32 ((s.millisEndConnection : Int) - now) > 0 →
        ∃ s', handleFTP cfg F now s fs = some (s', fs)
          ∧ s'.cmdStatus = s.cmdStatus
          ∧ count530 s'.client = count530 (tickClient now s))
      ∧ (s.millisEndConnection ≤ now → now - s.millisEndConnection < 2147483648 →
        ∃ s', handleFTP cfg F now s fs = some (s', fs)
          ∧ s'.cmdStatus = 0
          ∧ count530 s'.client = count530 (tickClient now s) + 1
          ∧ s'.client.tx.getLast? = some "530 Timeout"
          ∧ s'.transferStatus = 0
          ∧ s'.millisDelay = toUInt32 (now + 200))
      ∧ (∀ (t : FtpServer) (later : Nat) (fs2 : σ),
          (t.cmdStatus = 0 ∨ t.cmdStatus = 1 ∨ t.cmdStatus = 2) → t.transferStatus = 0 →
          ∃ t', handleFTP cfg F later t fs2 = some (t', fs2)
            ∧ count530 t'.client = count530 (tickClient later t)
            ∧ t'.transferStatus = 0
            ∧ ((t'.cmdStatus = 0 ∨ t'.cmdStatus = 1 ∨ t'.cmdStatus = 2)
                ∨ (t'.cmdStatus = 3 ∧ t.cmdStatus = 2
                    ∧ (acceptClient t).client.connected = true
                    ∧ toInt32 ((t'.millisEndConnection : Int) - later) > 0))
            ∧ (t.cmdStatus = 0 →
                (toInt32 ((t.millisDelay : Int) - later) > 0 ∧ t' = t)
                  ∨ (¬ toInt32 ((t.millisDelay : Int) - later) > 0
                      ∧ t'.client.connected = false ∧ t'.cmdStatus = 1)))
      ∧ (∀ (t : FtpServer) (times : List Nat) (fs2 : σ), NoClient t →
          ∃ t', ticksAt cfg F times t fs2 = some (t', fs2) ∧ NoClient t'
            ∧ count530 t'.client = count530 t.client) := by
  obtain ⟨w1, w2, w3, w4⟩ := handleFTP_waiting cfg F now s fs hst htr hgate hconn rc u hr hrc
  have hcnt := (readChar_client cfg.FTP_CMD_SIZE (acceptClient s) _ hr).2
  have htc : tickClient now s = (acceptClient s).client := by
    unfold tickClient
    rw [if_neg hgate]
  rw [handleTransfer_idle_eq cfg now _ w2, w3, w4] at w1
  refine ⟨fun hbefore => ?_, fun h1 h2 => ?_, fun t later fs2 h1 h2 => ?_,
    fun t times fs2 h => ticksAt_noClient cfg F times t fs2 h⟩
  · rw [if_neg (fun h => h.2 hbefore)] at w1
    exact ⟨_, w1, w3, by rw [htc]; exact hcnt⟩
  · have hd := deadline_reached s.millisEndConnection now h1 h2
    have hgt : s.cmdStatus > 2 := by omega
    rw [if_pos ⟨hgt, hd⟩] at w1
    refine ⟨_, w1, rfl, ?_, ?_, w2, rfl⟩
    · rw [htc, ← hcnt]
      simp [count530, FtpServer.reply, WiFiClient.println]
    · simp [FtpServer.reply, WiFiClient.println]
  · obtain ⟨t', e1, e2, e3, e4, e5, _⟩ := handleFTP_idle cfg F later t fs2 h1 h2
    exact ⟨t', e1, e2, e3, e4, e5⟩

set_option maxRecDepth 100000 in
/-- A ready session whose deadline is 300000 ms, at that clock value. -/
theorem handleFTP_timeout_once_witness :
    ∃ s', handleFTP defaultConfig listFS 300000 (session 5 []) [] = some (s', [])
      ∧ s'.cmdStatus = 0
      ∧ count530 s'.client = count530 (tickClient 300000 (session 5 [])) + 1
      ∧ s'.client.tx.getLast? = some "530 Timeout"
      ∧ s'.transferStatus = 0
      ∧ s'.millisDelay = toUInt32 (300000 + 200) :=
  (handleFTP_timeout_once defaultConfig listFS 300000 (session 5 []) [] (by decide) (by decide)
    (by decide) (by decide) (-1) (session 5 []) rfl (by decide)).2.1 (by decide) (by decide)

/-! ## C21: a verb without argument -/

set_option maxRecDepth 100000 in
/-- C21 does not hold: a ready session receives the line `DELE` (no space, no
argument).  After the five ticks that read `DELE` and the carriage return the
session is ready and `parameters` is the null pointer left by the previous
line feed; the tick that reads the line feed dispatches `DELE`, whose handler
calls `strlen (parameters)` on the null pointer: the run has no defined
result and no reply 501.  The same holds for `CWD` (which hands the null
pointer to `strcmp`), `RETR`, `STOR`, `RNFR`, `SIZE` and `MLST`; only `MKD` and
`RMD`, which go through `haveParameter`, reply `501 No file name`. -/
theorem processCommand_verb_alone_undefined :
    ((ticks defaultConfig listFS 1000 5 (session 5 ("DELE".toList ++ [CR, LF])) []).map
        (fun r => (r.1.cmdStatus, r.1.client.rx, r.1.client.tx)) = some (5, [LF], []))
      ∧ ticks defaultConfig listFS 1000 6 (session 5 ("DELE".toList ++ [CR, LF])) [] = none
      ∧ (readChar 263 (buffered (session 5 []) "DELE".toList [LF])).map
          (fun r => (r.1, r.2.command, r.2.parameters)) = some (4, "DELE".toList, none)
      ∧ processCommand defaultConfig listFS 1000 (withVerb (session 5 []) "DELE".toList) []
          = none
      ∧ processCommand defaultConfig listFS 1000 (withVerb (session 5 []) "CWD".toList) []
          = none
      ∧ processCommand defaultConfig listFS 1000 (withVerb (session 5 []) "RETR".toList) []
          = none
      ∧ processCommand defaultConfig listFS 1000 (withVerb (session 5 []) "STOR".toList) []
          = none
      ∧ processCommand defaultConfig listFS 1000 (withVerb (session 5 []) "RNFR".toList) []
          = none
      ∧ processCommand defaultConfig listFS 1000 (withVerb (session 5 []) "SIZE".toList) []
          = none
      ∧ processCommand defaultConfig listFS 1000 (withVerb (session 5 []) "MLST".toList) []
          = none
      ∧ (processCommand defaultConfig listFS 1000 (withVerb (session 5 []) "MKD".toList) []).map
          (fun r => (r.1, r.2.1.client.tx, r.2.2)) = some (true, ["501 No file name"], [])
      ∧ (processCommand defaultConfig listFS 1000 (withVerb (session 5 []) "RMD".toList) []).map
          (fun r => (r.1, r.2.1.client.tx, r.2.2)) = some (true, ["501 No file name"], []) :=
  ⟨by decide, rfl, by decide, rfl, rfl, rfl, rfl, rfl, rfl, rfl,
    by decide, by decide⟩

/-- With `parameters` null, the handlers of `CWD`, `DELE`, `RETR`, `STOR`, `RNFR`,
`SIZE` and `MLST` hand the null pointer to `strcmp` or `strlen` (no defined
result), and those of `MKD` and `RMD` reply `501 No file name`, return true and
leave the filesystem as it is. -/
theorem processCommand_null_parameters {σ : Type} (cfg : Config) (F : FS σ) (now : Nat)
    (s : FtpServer) (fs : σ) (hnull : s.parameters = none) :
    (s.command ∈ ["CWD".toList, "DELE".toList, "RETR".toList, "STOR".toList, "RNFR".toList,
          "SIZE".toList, "MLST".toList] →
        processCommand cfg F now s fs = none)
      ∧ (s.command ∈ ["MKD".toList, "RMD".toList] →
        processCommand cfg F now s fs = some (true, s.reply "501 No file name", fs)) := by
  have hp : s.params = none := by
    unfold FtpServer.params
    rw [hnull]
    rfl
  have hp0 : ({ s with buf := s.buf.set 0 NUL } : FtpServer).params = none := hp
  refine ⟨fun h => ?_, fun h => ?_⟩
  · simp only [List.mem_cons, List.mem_singleton, List.not_mem_nil, or_false] at h
    rcases h with h | h | h | h | h | h | h
    · simp [processCommand, h, hp]
    · simp [processCommand, h, hp, processDELE]
    · simp [processCommand, h, hp, processRETR]
    · simp [processCommand, h, hp, processSTOR]
    · have hr : processRNFR cfg F s fs = none := by
        unfold processRNFR
        dsimp only
        rw [hp0]
      rw [processCommand_RNFR_eq _ _ _ _ _ h, hr]
      rfl
    · simp [processCommand, h, hp, processSIZE]
    · simp [processCommand, h, hp, processMLST]
  · simp only [List.mem_cons, List.mem_singleton, List.not_mem_nil, or_false] at h
    rcases h with h | h
    · simp [processCommand, h, processMKD, haveParameter, hp]
    · simp [processCommand, h, processRMD, haveParameter, hp]

set_option maxRecDepth 100000 in
/-- Witness of `processCommand_null_parameters`: the line `SIZE`. -/
theorem processCommand_null_parameters_witness :
    (withVerb (session 5 []) "SIZE".toList).parameters = none
      ∧ processCommand defaultConfig listFS 1000 (withVerb (session 5 []) "SIZE".toList) []
          = none :=
  ⟨rfl, (processCommand_null_parameters defaultConfig listFS 1000
    (withVerb (session 5 []) "SIZE".toList) [] rfl).1 (by decide)⟩

/-! ## C26: the writes of the line assembler -/

set_option maxRecDepth 100000 in
/-- C26 does not hold: with `FTP_CMD_SIZE` = 263, after 263 letters the index
`iCL` is 263, and the call of `readChar` that reads the line feed writes the
terminator at index 263 of `cmdLine`, which is not below the capacity: that
call has no defined result. -/
theorem readChar_terminator_past_buffer :
    (readCharN 263 263 (lineServer 263 (List.replicate 263 'A' ++ [LF]))).map
        (fun r => (r.2.iCL, r.2.client.rx, r.2.cmdLine.length, cmdLineWrites 263 r.2))
        = some (263, [LF], 263, [263])
      ∧ (readCharN 263 263 (lineServer 263 (List.replicate 263 'A' ++ [LF]))).map
          (fun r : List Int × FtpServer => decide (∀ i ∈ cmdLineWrites 263 r.2, i < 263))
          = some false
      ∧ readCharAfter 263 263 (lineServer 263 (List.replicate 263 'A' ++ [LF])) = none :=
  ⟨by decide, by decide, rfl⟩

theorem length_cstr_le (l : List Char) : (cstr l).length ≤ l.length := by
  induction l with
  | nil => simp [cstr]
  | cons c l ih =>
    unfold cstr
    split
    · simp
    · simp only [List.length_cons]
      omega

theorem readCharLF_command_le (n : Nat) (s : FtpServer) (r : Int × FtpServer)
    (h : readCharLF n s = some r) : r.2.command.length ≤ 4 := by
  unfold readCharLF at h
  dsimp only at h
  split at h
  · exact Option.noConfusion h
  · split at h
    · simp only [Option.some.injEq] at h
      subst h
      simp
    · split at h
      · rename_i k hk
        split at h
        · simp only [Option.some.injEq] at h
          subst h
          simp
        · rename_i h4
          simp only [Option.some.injEq] at h
          subst h
          dsimp only
          have h1 := length_cstr_le (List.take k (s.cmdLine.set s.iCL NUL))
          have h2 : (List.take k (s.cmdLine.set s.iCL NUL)).length ≤ k := by
            simp only [List.length_take]
            omega
          omega
      · split at h
        · simp only [Option.some.injEq] at h
          subst h
          simp
        · rename_i h4
          simp only [Option.some.injEq] at h
          subst h
          dsimp only
          unfold strlen at h4
          omega

theorem readChar_command_le (size : Nat) (s : FtpServer) (r : Int × FtpServer)
    (h : readChar size s = some r) : r.1 ≤ 0 ∨ r.2.command.length ≤ 4 := by
  unfold readChar at h
  split at h
  · simp only [Option.some.injEq] at h
    subst h
    left
    show (-1 : Int) ≤ 0
    decide
  · rename_i c0 rest hrx
    dsimp only at h
    rw [Option.map_eq_some'] at h
    obtain ⟨q, hq, rfl⟩ := h
    dsimp only
    by_cases hcr : (if c0 = BSLASH then '/' else c0) ≠ CR
    · rw [if_pos hcr] at hq
      by_cases hlf : (if c0 = BSLASH then '/' else c0) ≠ LF
      · rw [if_pos hlf] at hq
        left
        split at hq
        · simp only [Option.some.injEq] at hq
          subst hq
          show (-1 : Int) ≤ 0
          decide
        · simp only [Option.some.injEq] at hq
          subst hq
          show (-2 : Int) ≤ 0
          decide
      · rw [if_neg hlf] at hq
        have key := readCharLF_command_le _ _ _ hq
        right
        repeat' split
        all_goals first
          | exact key
          | (simp only [FtpServer.reply, List.length_map]
             exact key)
    · rw [if_neg hcr] at hq
      simp only [Option.some.injEq] at hq
      subst hq
      left
      show (-1 : Int) ≤ 0
      decide

theorem mapped_eq_LF (c0 : Char) (h : (if c0 = BSLASH then '/' else c0) = LF) : c0 = LF := by
  by_cases hb : c0 = BSLASH
  · rw [if_pos hb] at h
    exact absurd h (by decide)
  · rw [if_neg hb] at h
    exact h

theorem readCharLF_iCL_le (n : Nat) (t : FtpServer) (r : Int × FtpServer)
    (h : readCharLF n t = some r) : r.2.iCL ≤ t.iCL := by
  unfold readCharLF at h
  dsimp only at h
  repeat' split at h
  all_goals first
    | exact Option.noConfusion h
    | (simp only [Option.some.injEq] at h
       subst h
       first
         | exact Nat.le_refl _
         | exact Nat.zero_le _)

theorem readChar_iCL_le (size : Nat) (s : FtpServer) (h : s.iCL ≤ size) (r : Int × FtpServer)
    (hr : readChar size s = some r) : r.2.iCL ≤ size := by
  unfold readChar at hr
  split at hr
  · simp only [Option.some.injEq] at hr
    subst hr
    exact h
  · rename_i c0 rest hrx
    dsimp only at hr
    rw [Option.map_eq_some'] at hr
    obtain ⟨q, hq, rfl⟩ := hr
    have hq2 : q.2.iCL ≤ size := by
      generalize (if c0 = BSLASH then '/' else c0) = c at hq
      by_cases hcr : c ≠ CR
      · rw [if_pos hcr] at hq
        by_cases hlf : c ≠ LF
        · rw [if_pos hlf] at hq
          by_cases hlt : s.iCL < size
          · rw [if_pos hlt] at hq
            simp only [Option.some.injEq] at hq
            subst hq
            exact hlt
          · rw [if_neg hlt] at hq
            simp only [Option.some.injEq] at hq
            subst hq
            exact h
        · rw [if_neg hlf] at hq
          exact Nat.le_trans (readCharLF_iCL_le _ _ _ hq) h
      · rw [if_neg hcr] at hq
        simp only [Option.some.injEq] at hq
        subst hq
        exact h
    dsimp only
    repeat' split
    all_goals first
      | exact hq2
      | exact Nat.zero_le _

/-- A call of `readChar` has no defined result exactly when it reads a line
feed with the buffer full. -/
theorem readChar_eq_none_iff (size : Nat) (s : FtpServer) :
    readChar size s = none ↔ size ≤ s.iCL ∧ ∃ rest, s.client.rx = LF :: rest := by
  constructor
  · intro h
    unfold readChar at h
    split at h
    · exact Option.noConfusion h
    · rename_i c0 rest hrx
      dsimp only at h
      rw [Option.map_eq_none'] at h
      have hmap := mapped_eq_LF c0
      generalize (if c0 = BSLASH then '/' else c0) = c at h hmap
      by_cases hcr : c ≠ CR
      · rw [if_pos hcr] at h
        by_cases hlf : c ≠ LF
        · rw [if_pos hlf] at h
          split at h <;> exact Option.noConfusion h
        · rw [if_neg hlf] at h
          have hc0 : c0 = LF := hmap (by simpa using hlf)
          unfold readCharLF at h
          dsimp only at h
          by_cases hfull : size ≤ s.iCL
          · exact ⟨hfull, rest, by rw [hrx, hc0]⟩
          · rw [if_neg hfull] at h
            repeat' split at h
            all_goals exact Option.noConfusion h
      · rw [if_neg hcr] at h
        exact Option.noConfusion h
  · rintro ⟨hfull, rest, hrx⟩
    exact readChar_LF_full size s rest hrx hfull

/-- The bounds of the writes of one call of `readChar`, for an index `iCL`
that is not above the capacity: a write into `cmdLine` is at an index of at
most `FTP_CMD_SIZE`, and below it unless the buffer is full and the byte read
is the line feed, which is the one case in which the call has no defined
result; a write into `command` is at an index of at most 4; the new `iCL` is
not above the capacity either. -/
theorem readChar_write_bounds (size : Nat) (s : FtpServer) (h : s.iCL ≤ size) :
    (∀ i ∈ cmdLineWrites size s, i ≤ size)
      ∧ (s.iCL < size → ∀ i ∈ cmdLineWrites size s, i < size)
      ∧ (∀ i ∈ cmdLineWrites size s, i = size →
          s.iCL = size ∧ ∃ c0 rest, s.client.rx = c0 :: rest ∧ c0 = LF)
      ∧ (readChar size s = none ↔ s.iCL = size ∧ ∃ rest, s.client.rx = LF :: rest)
      ∧ (∀ i ∈ commandWrites size s, i ≤ 4)
      ∧ (∀ r, readChar size s = some r → r.2.iCL ≤ size) := by
  have hw : ∀ i ∈ cmdLineWrites size s, i = s.iCL
      ∧ (s.iCL < size ∨ ∃ c0 rest, s.client.rx = c0 :: rest ∧ c0 = LF) := by
    intro i hi
    unfold cmdLineWrites at hi
    split at hi
    · simp at hi
    · rename_i c0 rest hrx
      have hmap := mapped_eq_LF c0
      dsimp only at hi
      generalize (if c0 = BSLASH then '/' else c0) = c at hi hmap
      by_cases hcr : c ≠ CR
      · rw [if_pos hcr] at hi
        by_cases hlf : c ≠ LF
        · rw [if_pos hlf] at hi
          by_cases hlt : s.iCL < size
          · rw [if_pos hlt] at hi
            simp only [List.mem_singleton] at hi
            exact ⟨hi, Or.inl hlt⟩
          · rw [if_neg hlt] at hi
            simp at hi
        · rw [if_neg hlf] at hi
          simp only [List.mem_singleton] at hi
          exact ⟨hi, Or.inr ⟨c0, rest, hrx, hmap (by simpa using hlf)⟩⟩
      · rw [if_neg hcr] at hi
        simp at hi
  refine ⟨fun i hi => ?_, fun hlt i hi => ?_, fun i hi he => ?_, ?_, fun i hi => ?_,
    fun r hr => readChar_iCL_le size s h r hr⟩
  · rw [(hw i hi).1]
    exact h
  · rw [(hw i hi).1]
    exact hlt
  · obtain ⟨h1, h2⟩ := hw i hi
    rcases h2 with h2 | h2
    · omega
    · exact ⟨by omega, h2⟩
  · rw [readChar_eq_none_iff]
    constructor
    · rintro ⟨h1, h2⟩
      exact ⟨by omega, h2⟩
    · rintro ⟨h1, h2⟩
      exact ⟨by omega, h2⟩
  · unfold commandWrites at hi
    split at hi
    · simp at hi
    · rename_i c0 rest hrx
      dsimp only at hi
      generalize (if c0 = BSLASH then '/' else c0) = c at hi
      by_cases hc : c ≠ CR ∧ c = LF
      · rw [if_pos hc] at hi
        simp only [List.mem_append, List.mem_singleton] at hi
        rcases hi with (h0 | hcopy) | hup
        · omega
        · by_cases hz : s.iCL = 0
          · rw [if_pos hz] at hcopy
            simp at hcopy
          · rw [if_neg hz] at hcopy
            cases hs : strchr (s.cmdLine.set s.iCL NUL) ' ' with
            | none =>
              rw [hs] at hcopy
              dsimp only at hcopy
              by_cases h4 : strlen (s.cmdLine.set s.iCL NUL) > 4
              · rw [if_pos h4] at hcopy
                simp at hcopy
              · rw [if_neg h4] at hcopy
                simp only [List.mem_range] at hcopy
                omega
            | some k =>
              rw [hs] at hcopy
              dsimp only at hcopy
              by_cases h4 : k > 4
              · rw [if_pos h4] at hcopy
                simp at hcopy
              · rw [if_neg h4] at hcopy
                simp only [List.mem_append, List.mem_range, List.mem_singleton] at hcopy
                omega
        · cases hr : readChar size s with
          | none =>
            rw [hr] at hup
            simp at hup
          | some r =>
            rw [hr] at hup
            dsimp only at hup
            by_cases hpos : r.1 > 0
            · rw [if_pos hpos] at hup
              simp only [List.mem_range] at hup
              rcases readChar_command_le size s r hr with h1 | h1
              · omega
              · omega
            · rw [if_neg hpos] at hup
              simp at hup
      · rw [if_neg hc] at hi
        simp at hi

/-- Any number of calls of `readChar` keeps `iCL` within the capacity. -/
theorem readCharN_iCL_le (size : Nat) (n : Nat) :
    ∀ s : FtpServer, s.iCL ≤ size → ∀ r, readCharN size n s = some r → r.2.iCL ≤ size := by
  induction n with
  | zero =>
    intro s h r hr
    simp only [readCharN, Option.some.injEq] at hr
    subst hr
    exact h
  | succ n ih =>
    intro s h r hr
    unfold readCharN at hr
    split at hr
    · exact Option.noConfusion hr
    · rename_i q hq
      split at hr
      · exact Option.noConfusion hr
      · rename_i rs hrs
        simp only [Option.some.injEq] at hr
        subst hr
        exact ih _ (readChar_iCL_le size s h q hq) rs hrs

set_option maxRecDepth 100000 in
/-- Witness of `readChar_write_bounds`: the line feed after the line `NOOP`. -/
theorem readChar_write_bounds_witness :
    cmdLineWrites 263 (buffered (session 5 []) "NOOP".toList [LF]) = [4]
      ∧ commandWrites 263 (buffered (session 5 []) "NOOP".toList [LF])
          = [0, 0, 1, 2, 3, 4, 0, 1, 2, 3]
      ∧ (∀ i ∈ cmdLineWrites 263 (buffered (session 5 []) "NOOP".toList [LF]), i < 263)
      ∧ (∀ i ∈ commandWrites 263 (buffered (session 5 []) "NOOP".toList [LF]), i ≤ 4) :=
  ⟨by decide, by decide,
    (readChar_write_bounds 263 (buffered (session 5 []) "NOOP".toList [LF])
      (by decide)).2.1 (by decide),
    (readChar_write_bounds 263 (buffered (session 5 []) "NOOP".toList [LF])
      (by decide)).2.2.2.2.1⟩

/-! ## C23: the transfer step of a tick -/

set_option maxRecDepth 100000 in
/-- C23 does not hold: the file `/f` is being retrieved and
`millisDelay` is 0, as `begin` leaves it.  At the clock value 2^31 + 1 the
signed difference `millisDelay - millis ()` is 2^31 - 1, the test of the delay
is positive and `handleFTP` returns at once: the transfer gets no step (the
same tick at the clock value 1000 sends the three bytes of the file). -/
theorem handleFTP_delay_skips_transfer_step :
    (transferSession 1 "abc".toList []).transferStatus = 1
      ∧ (transferSession 1 "abc".toList []).millisDelay = 0
      ∧ toInt32 (((transferSession 1 "abc".toList []).millisDelay : Int) - 2147483649)
          = 2147483647
      ∧ (handleFTP defaultConfig listFS 2147483649 (transferSession 1 "abc".toList []) []).map
          (fun r => (r.1.transferStatus, r.1.file.rd, r.1.data.tx, r.1.bytesTransferred))
          = some (1, "abc".toList, [], 0)
      ∧ (handleFTP defaultConfig listFS 1000 (transferSession 1 "abc".toList []) []).map
          (fun r => (r.1.transferStatus, r.1.file.rd, r.1.data.tx, r.1.bytesTransferred))
          = some (1, [], ["abc"], 3) := by
  decide

theorem acceptClient_eq (s : FtpServer) :
    ∃ c l, acceptClient s = { s with client := c, ftpServer := l } := by
  unfold acceptClient
  split
  · exact ⟨s.client, s.ftpServer, rfl⟩
  · exact ⟨_, _, rfl⟩

/-- The session phase of a tick in a connected state in which no line is
completed leaves the transfer as it is. -/
theorem handleSession_no_line {σ : Type} (cfg : Config) (F : FS σ) (now : Nat) (s : FtpServer)
    (fs : σ) (hst : s.cmdStatus = 3 ∨ s.cmdStatus = 4 ∨ s.cmdStatus = 5)
    (rc : Int) (u : FtpServer)
    (hr : readChar cfg.FTP_CMD_SIZE (acceptClient s) = some (rc, u)) (hrc : rc ≤ 0) :
    ∃ t, handleSession cfg F now (acceptClient s) fs = some (t, fs)
      ∧ t.transferStatus = s.transferStatus ∧ t.file = s.file ∧ t.data = s.data
      ∧ t.buf = s.buf ∧ t.bytesTransferred = s.bytesTransferred
      ∧ t.millisBeginTrans = s.millisBeginTrans := by
  obtain ⟨c, l, ha⟩ := acceptClient_eq s
  rw [ha] at hr ⊢
  obtain ⟨c2, cl, i, cmd, p, hu⟩ :=
    readChar_lineOnly cfg.FTP_CMD_SIZE { s with client := c, ftpServer := l } _ hr
  have n0 : ¬ ({ s with client := c, ftpServer := l } : FtpServer).cmdStatus = 0 := by
    show ¬ s.cmdStatus = 0
    omega
  have n1 : ¬ ({ s with client := c, ftpServer := l } : FtpServer).cmdStatus = 1 := by
    show ¬ s.cmdStatus = 1
    omega
  have n2 : ¬ ({ s with client := c, ftpServer := l } : FtpServer).cmdStatus = 2 := by
    show ¬ s.cmdStatus = 2
    omega
  unfold handleSession
  rw [if_neg n0, if_neg n1, if_neg n2, hr]
  dsimp only at hu ⊢
  subst hu
  have hn : ¬ rc > 0 := by omega
  rw [if_neg hn]
  split
  · exact ⟨_, rfl, rfl, rfl, rfl, rfl, rfl, rfl⟩
  · exact ⟨_, rfl, rfl, rfl, rfl, rfl, rfl, rfl⟩

/-- The transfer step at the end of a tick: one call of `doRetrieve` when
`transferStatus` is 1, one call of `doStore` when it is 2, with `transferStatus`
set to 0 when the call returns false. -/
theorem handleTransfer_step (cfg : Config) (now : Nat) (t : FtpServer) :
    (t.transferStatus = 1 →
        handleTransfer cfg now t
          = if (doRetrieve cfg now t).1 = true then (doRetrieve cfg now t).2
            else { (doRetrieve cfg now t).2 with transferStatus := 0 })
      ∧ (t.transferStatus = 2 →
        handleTransfer cfg now t
          = if (doStore cfg now t).1 = true then (doStore cfg now t).2
            else { (doStore cfg now t).2 with transferStatus := 0 }) := by
  refine ⟨fun h => ?_, fun h => ?_⟩
  · unfold handleTransfer
    rw [if_pos h]
    generalize doRetrieve cfg now t = r
    obtain ⟨b, u⟩ := r
    cases b <;> rfl
  · have h1 : ¬ t.transferStatus = 1 := by rw [h]; decide
    unfold handleTransfer
    rw [if_neg h1, if_pos h]
    generalize doStore cfg now t = r
    obtain ⟨b, u⟩ := r
    cases b <;> rfl

/-- The transfer step of a tick.  A tick at which the test of the delay is
positive returns at once, whether a transfer is active or not.  At every other
tick the session phase
runs first and the transfer step comes after it, on the state the session
phase leaves: exactly one call of `doRetrieve` when `transferStatus` is then 1,
exactly one call of `doStore` when it is 2.  In a connected state in which no
line is completed the session phase leaves the transfer as it is, so the step
is given to the transfer that was active at the start of the tick; in the
state 1 the session phase ends the transfer (`abortTransfer`) and no step
follows. -/
theorem handleFTP_transfer_step {σ : Type} (cfg : Config) (F : FS σ) (now : Nat)
    (s : FtpServer) (fs : σ) :
    (toInt32 ((s.millisDelay : Int) - now) > 0 → handleFTP cfg F now s fs = some (s, fs))
      ∧ (¬ toInt32 ((s.millisDelay : Int) - now) > 0 →
          (∀ t fs', handleSession cfg F now (acceptClient s) fs = some (t, fs') →
            handleFTP cfg F now s fs = some (handleTransfer cfg now t, fs')
              ∧ (t.transferStatus = 1 →
                  handleTransfer cfg now t
                    = if (doRetrieve cfg now t).1 = true then (doRetrieve cfg now t).2
                      else { (doRetrieve cfg now t).2 with transferStatus := 0 })
              ∧ (t.transferStatus = 2 →
                  handleTransfer cfg now t
                    = if (doStore cfg now t).1 = true then (doStore cfg now t).2
                      else { (doStore cfg now t).2 with transferStatus := 0 }))
          ∧ ((s.cmdStatus = 3 ∨ s.cmdStatus = 4 ∨ s.cmdStatus = 5) →
              ∀ rc u, readChar cfg.FTP_CMD_SIZE (acceptClient s) = some (rc, u) → rc ≤ 0 →
              ∃ t, handleSession cfg F now (acceptClient s) fs = some (t, fs)
                ∧ handleFTP cfg F now s fs = some (handleTransfer cfg now t, fs)
                ∧ t.transferStatus = s.transferStatus ∧ t.file = s.file ∧ t.data = s.data
                ∧ t.buf = s.buf ∧ t.bytesTransferred = s.bytesTransferred
                ∧ t.millisBeginTrans = s.millisBeginTrans)
          ∧ (s.cmdStatus = 1 →
              ∃ t, handleFTP cfg F now s fs = some (t, fs) ∧ t.transferStatus = 0
                ∧ t.cmdStatus = 2)) := by
  refine ⟨fun hg => ?_, fun hg => ⟨fun t fs' ht => ?_, fun hst rc u hr hrc => ?_,
    fun h1 => ?_⟩⟩
  · rw [handleFTP_eq, if_pos hg]
  · refine ⟨?_, (handleTransfer_step cfg now t).1, (handleTransfer_step cfg now t).2⟩
    rw [handleFTP_eq, if_neg hg, ht]
    rfl
  · obtain ⟨t, e1, e2, e3, e4, e5, e6, e7⟩ :=
      handleSession_no_line cfg F now s fs hst rc u hr hrc
    refine ⟨t, e1, ?_, e2, e3, e4, e5, e6, e7⟩
    rw [handleFTP_eq, if_neg hg, e1]
    rfl
  · obtain ⟨c, l, ha⟩ := acceptClient_eq s
    have n0 : ¬ ({ s with client := c, ftpServer := l } : FtpServer).cmdStatus = 0 := by
      show ¬ s.cmdStatus = 0
      omega
    have k1 : ({ s with client := c, ftpServer := l } : FtpServer).cmdStatus = 1 := h1
    rw [handleFTP_eq, if_neg hg, ha]
    unfold handleSession
    rw [if_neg n0, if_pos k1]
    refine ⟨_, rfl, ?_, ?_⟩
    · rw [handleTransfer_low cfg now _ rfl (show (2 : Int) ≤ 2 by decide)]
      rfl
    · rw [handleTransfer_low cfg now _ rfl (show (2 : Int) ≤ 2 by decide)]

set_option maxRecDepth 100000 in
/-- A retrieve of `/f`, no line arriving, at the clock value 1000. -/
theorem handleFTP_transfer_step_witness :
    ∃ t, handleSession defaultConfig listFS 1000
          (acceptClient (transferSession 1 "abc".toList [])) ([] : List (List Char))
          = some (t, [])
      ∧ handleFTP defaultConfig listFS 1000 (transferSession 1 "abc".toList []) []
          = some (handleTransfer defaultConfig 1000 t, [])
      ∧ t.transferStatus = 1
      ∧ t.file = { isOpen := true, name := "/f".toList, size := 3, rd := "abc".toList }
      ∧ (handleTransfer defaultConfig 1000 t).data.tx = ["abc"] := by
  obtain ⟨t, e1, e2, e3, e4, e5, _⟩ :=
    (handleFTP_transfer_step defaultConfig listFS 1000 (transferSession 1 "abc".toList [])
      ([] : List (List Char))).2 (by decide) |>.2.1 (by decide) (-1)
      (transferSession 1 "abc".toList []) rfl (by decide)
  refine ⟨t, e1, e2, e3, e4, ?_⟩
  have h : (handleFTP defaultConfig listFS 1000 (transferSession 1 "abc".toList [])
      ([] : List (List Char))).map (fun r => r.1.data.tx) = some ["abc"] := by decide
  rw [e2] at h
  simpa using h

/-! ## C24: the form of the working directory -/

set_option maxRecDepth 100000 in
/-- C24 does not hold: a ready session in the root directory receives the line
`CWD /aaa...` of 263 bytes, which is `FTP_CMD_SIZE`.  After 263 ticks the bytes
are stored, `iCL` is 263 and `cwdName` is still `/`.  The tick that reads the
line feed stores the terminator at `cmdLine[263]`, one past the end of the
array: the byte written belongs to another member of the object (with
`cwdName` declared after `cmdLine`, it is `cwdName[0]`, which leaves the
working directory empty).  The tick has no defined result, and nothing keeps
the form of `cwdName` in it. -/
theorem handleFTP_full_line_overruns_cmdLine :
    ("CWD /".toList ++ List.replicate 258 'a').length = 263
      ∧ (ticks defaultConfig listFS 1000 263
          (session 5 ("CWD /".toList ++ List.replicate 258 'a' ++ [LF])) []).map
            (fun r => (r.1.iCL, r.1.client.rx, r.1.cwdName, cmdLineWrites 263 r.1))
          = some (263, [LF], ['/'], [263])
      ∧ ticks defaultConfig listFS 1000 264
          (session 5 ("CWD /".toList ++ List.replicate 258 'a' ++ [LF])) [] = none :=
  ⟨by decide, by decide, rfl⟩

theorem head?_take_pos (l : List Char) (k : Nat) (hk : 0 < k) : (l.take k).head? = l.head? := by
  cases l with
  | nil => simp
  | cons x xs =>
    cases k with
    | zero => omega
    | succ k => simp

theorem head?_dropLast (l : List Char) (h : 1 < l.length) : l.dropLast.head? = l.head? := by
  cases l with
  | nil => simp
  | cons x xs =>
    cases xs with
    | nil => simp at h
    | cons y ys => simp [List.dropLast]

/-- The string that `makePath` leaves in `fullName` starts with a slash when
the working directory does, and it is shorter than the buffer when `makePath`
returns true. -/
theorem makePath_path (n m : Nat) (s : FtpServer) (p : Option (List Char)) (b : Bool)
    (path : List Char) (t : FtpServer) (hn : 2 ≤ n) (hcwd : s.cwdName.head? = some '/')
    (h : makePath n m s p = some (b, path, t)) :
    path.head? = some '/' ∧ (b = true → path.length < n) := by
  have key : ∀ fn : List Char, fn.head? = some '/' →
      (if fn.length < n then some (true, fn, s)
        else some (false, fn, s.reply "500 Command line too long")) = some (b, path, t) →
      path.head? = some '/' ∧ (b = true → path.length < n) := by
    intro fn hfn hh
    split at hh
    · rename_i hlt
      simp only [Option.some.injEq, Prod.mk.injEq] at hh
      obtain ⟨_, rfl, _⟩ := hh
      exact ⟨hfn, fun _ => hlt⟩
    · simp only [Option.some.injEq, Prod.mk.injEq] at hh
      obtain ⟨rfl, rfl, _⟩ := hh
      exact ⟨hfn, fun hb => absurd hb (by decide)⟩
  unfold makePath at h
  split at h
  · exact Option.noConfusion h
  · rename_i param hparam
    split at h
    · split at h
      · exact Option.noConfusion h
      · simp only [Option.some.injEq, Prod.mk.injEq] at h
        obtain ⟨_, rfl, _⟩ := h
        exact ⟨rfl, fun _ => by simp only [List.length_singleton]; omega⟩
    · dsimp only at h
      split at h
      · exact Option.noConfusion h
      · rename_i copied hcop
        split at h
        · exact Option.noConfusion h
        have hhead : copied.head? = some '/' := by
          split at hcop
          · split at hcop
            · exact Option.noConfusion hcop
            · rename_i last hlast
              simp only [Option.some.injEq] at hcop
              rw [← hcop]
              unfold strncat
              cases hc : s.cwdName with
              | nil => rw [hc] at hcwd; simp at hcwd
              | cons x xs =>
                rw [hc] at hcwd
                simp only [List.head?_cons, Option.some.injEq] at hcwd
                subst hcwd
                split <;> simp
          · rename_i habs
            simp only [Option.some.injEq] at hcop
            rw [← hcop]
            simpa using habs
        split at h
        · rename_i hstrip
          exact key _ (by rw [head?_take_pos _ _ (by omega)]; exact hhead) h
        · exact key _ hhead h

theorem cdupTarget_form (pathExists : List Char → Bool) (cwd : List Char) (n : Nat)
    (hn : 2 ≤ n) (hcwd : cwd.head? = some '/') (hlen : cwd.length < n) :
    (cdupTarget pathExists cwd).head? = some '/'
      ∧ (cdupTarget pathExists cwd).length < n := by
  have hroot : (['/'] : List Char).head? = some '/' ∧ (['/'] : List Char).length < n :=
    ⟨rfl, by simp only [List.length_singleton]; omega⟩
  unfold cdupTarget
  dsimp only
  by_cases h1 : cwd.length > 1
  · rw [if_pos h1]
    have hc : (if cwd.getLast? = some '/' then cwd.dropLast else cwd).head? = some '/'
        ∧ (if cwd.getLast? = some '/' then cwd.dropLast else cwd).length ≤ cwd.length := by
      split
      · exact ⟨by rw [head?_dropLast cwd h1]; exact hcwd, by simp⟩
      · exact ⟨hcwd, Nat.le_refl _⟩
    generalize (if cwd.getLast? = some '/' then cwd.dropLast else cwd) = c at hc
    obtain ⟨hc1, hc2⟩ := hc
    cases strrchr c '/' with
    | none => simpa using hroot
    | some k =>
      by_cases hk : k > 0
      · cases hpe : pathExists (c.take k) with
        | false => simpa [hk, hpe] using hroot
        | true =>
          simp only [hk, hpe, if_true, Bool.not_true]
          refine ⟨?_, ?_⟩
          · simpa [head?_take_pos c k hk] using hc1
          · simp only [Bool.false_eq_true, if_false, List.length_take]
            omega
      · simpa [hk] using hroot
  · rw [if_neg h1]
    simpa using hroot

theorem makeExistsPath_true {σ : Type} (cfg : Config) (F : FS σ) (s : FtpServer) (fs : σ)
    (path : List Char) (t : FtpServer) (h : makeExistsPath cfg F s fs = some (true, path, t)) :
    makePath cfg.FTP_CWD_SIZE cfg.FTP_CWD_SIZE s none = some (true, path, t) := by
  unfold makeExistsPath at h
  split at h
  · exact Option.noConfusion h
  · simp only [Option.some.injEq, Prod.mk.injEq] at h
    exact absurd h.1 (by decide)
  · rename_i path1 s1 hm
    split at h
    · simp only [Option.some.injEq, Prod.mk.injEq] at h
      obtain ⟨_, rfl, rfl⟩ := h
      exact hm
    · simp only [Option.some.injEq, Prod.mk.injEq] at h
      exact absurd h.1 (by decide)

theorem processCWD_form {σ : Type} (cfg : Config) (F : FS σ) (s : FtpServer) (fs : σ)
    (s' : FtpServer) (hn : 2 ≤ cfg.FTP_CWD_SIZE) (hcwd : s.cwdName.head? = some '/')
    (hlen : s.cwdName.length < cfg.FTP_CWD_SIZE) (h : processCWD cfg F s fs = some s') :
    s'.cwdName.head? = some '/' ∧ s'.cwdName.length < cfg.FTP_CWD_SIZE := by
  unfold processCWD at h
  have hp := haveParameter_clientOnly s
  split at h
  · rename_i s1 hs1
    rw [hs1] at hp
    simp only [Option.some.injEq] at h
    subst h
    obtain ⟨_, _, _, h4, _⟩ := clientOnly_fields hp
    rw [h4]
    exact ⟨hcwd, hlen⟩
  · rename_i s1 hs1
    have e1 := haveParameter_true hs1
    subst e1
    split at h
    · exact Option.noConfusion h
    · rename_i path s2 hm
      obtain ⟨_, _, _, h4, _⟩ :=
        clientOnly_fields (makeExistsPath_clientOnly _ _ _ _ _ _ _ hm).1
      simp only [Option.some.injEq] at h
      subst h
      rw [h4]
      exact ⟨hcwd, hlen⟩
    · rename_i path s2 hm
      obtain ⟨m1, m2⟩ :=
        makePath_path _ _ _ _ _ _ _ hn hcwd (makeExistsPath_true cfg F _ fs path s2 hm)
      simp only [Option.some.injEq] at h
      subst h
      exact ⟨m1, m2 rfl⟩

theorem processCommand_form {σ : Type} (cfg : Config) (F : FS σ) (now : Nat) (s : FtpServer)
    (fs : σ) (b : Bool) (s' : FtpServer) (fs' : σ) (hn : 2 ≤ cfg.FTP_CWD_SIZE)
    (hcwd : s.cwdName.head? = some '/') (hlen : s.cwdName.length < cfg.FTP_CWD_SIZE)
    (h : processCommand cfg F now s fs = some (b, s', fs')) :
    s'.cwdName.head? = some '/' ∧ s'.cwdName.length < cfg.FTP_CWD_SIZE := by
  have hcd := cdupTarget_form (F.exists_ fs) s.cwdName cfg.FTP_CWD_SIZE hn hcwd hlen
  by_cases h1 : s.command = "CDUP".toList
  · unfold processCommand at h
    dsimp only at h
    rw [if_pos h1] at h
    simp only [Option.some.injEq, Prod.mk.injEq] at h
    obtain ⟨_, rfl, _⟩ := h
    exact hcd
  by_cases h2 : s.command = "CWD".toList
  · unfold processCommand at h
    dsimp only at h
    rw [if_neg h1, if_pos h2] at h
    split at h
    · exact Option.noConfusion h
    · split at h
      · simp only [Option.some.injEq, Prod.mk.injEq] at h
        obtain ⟨_, rfl, _⟩ := h
        exact hcd
      · rw [Option.bind_eq_some] at h
        obtain ⟨t, ht, h⟩ := h
        simp only [Option.some.injEq, Prod.mk.injEq] at h
        obtain ⟨_, rfl, _⟩ := h
        exact processCWD_form cfg F s fs t hn hcwd hlen ht
  · have hf := (processCommand_frame cfg F now s fs b s' fs' h).2.2.2.2 h1 h2
    rw [hf]
    exact ⟨hcwd, hlen⟩

theorem userIdentity_form (now : Nat) (s : FtpServer) (b : Bool) (t : FtpServer) (n : Nat)
    (hn : 2 ≤ n) (hcwd : s.cwdName.head? = some '/') (hlen : s.cwdName.length < n)
    (h : userIdentity now s = some (b, t)) :
    t.cwdName.head? = some '/' ∧ t.cwdName.length < n := by
  rcases (userIdentity_frame now s b t h).2 with e | e
  · rw [e]
    exact ⟨hcwd, hlen⟩
  · rw [e]
    exact ⟨rfl, by simp only [List.length_singleton]; omega⟩

theorem handleLine_form {σ : Type} (cfg : Config) (F : FS σ) (now : Nat) (s : FtpServer)
    (fs : σ) (t : FtpServer) (fs' : σ) (hn : 2 ≤ cfg.FTP_CWD_SIZE)
    (hcwd : s.cwdName.head? = some '/') (hlen : s.cwdName.length < cfg.FTP_CWD_SIZE)
    (h : handleLine cfg F now s fs = some (t, fs')) :
    t.cwdName.head? = some '/' ∧ t.cwdName.length < cfg.FTP_CWD_SIZE := by
  unfold handleLine at h
  by_cases h3 : s.cmdStatus = 3
  · rw [if_pos h3] at h
    split at h
    · exact Option.noConfusion h
    · rename_i u hu
      simp only [Option.some.injEq, Prod.mk.injEq] at h
      obtain ⟨rfl, _⟩ := h
      exact userIdentity_form now s _ u _ hn hcwd hlen hu
    · rename_i u hu
      simp only [Option.some.injEq, Prod.mk.injEq] at h
      obtain ⟨rfl, _⟩ := h
      exact userIdentity_form now s _ u _ hn hcwd hlen hu
  rw [if_neg h3] at h
  by_cases h4 : s.cmdStatus = 4
  · rw [if_pos h4] at h
    split at h
    · exact Option.noConfusion h
    · rename_i u hu
      simp only [Option.some.injEq, Prod.mk.injEq] at h
      obtain ⟨rfl, _⟩ := h
      show u.cwdName.head? = some '/' ∧ u.cwdName.length < cfg.FTP_CWD_SIZE
      rw [(userPassword_frame now s _ u hu).2]
      exact ⟨hcwd, hlen⟩
    · rename_i u hu
      simp only [Option.some.injEq, Prod.mk.injEq] at h
      obtain ⟨rfl, _⟩ := h
      show u.cwdName.head? = some '/' ∧ u.cwdName.length < cfg.FTP_CWD_SIZE
      rw [(userPassword_frame now s _ u hu).2]
      exact ⟨hcwd, hlen⟩
  rw [if_neg h4] at h
  by_cases h5 : s.cmdStatus = 5
  · rw [if_pos h5] at h
    split at h
    · exact Option.noConfusion h
    · rename_i u fs1 hu
      simp only [Option.some.injEq, Prod.mk.injEq] at h
      obtain ⟨rfl, _⟩ := h
      exact processCommand_form cfg F now s fs _ u fs1 hn hcwd hlen hu
    · rename_i u fs1 hu
      simp only [Option.some.injEq, Prod.mk.injEq] at h
      obtain ⟨rfl, _⟩ := h
      exact processCommand_form cfg F now s fs _ u fs1 hn hcwd hlen hu
  rw [if_neg h5] at h
  simp only [Option.some.injEq, Prod.mk.injEq] at h
  obtain ⟨rfl, _⟩ := h
  exact ⟨hcwd, hlen⟩

theorem handleFTP_form {σ : Type} (cfg : Config) (F : FS σ) (now : Nat) (s : FtpServer)
    (fs : σ) (s' : FtpServer) (fs' : σ) (hn : 2 ≤ cfg.FTP_CWD_SIZE)
    (hcwd : s.cwdName.head? = some '/') (hlen : s.cwdName.length < cfg.FTP_CWD_SIZE)
    (h : handleFTP cfg F now s fs = some (s', fs')) :
    s'.cwdName.head? = some '/' ∧ s'.cwdName.length < cfg.FTP_CWD_SIZE := by
  have hroot : (['/'] : List Char).head? = some '/'
      ∧ (['/'] : List Char).length < cfg.FTP_CWD_SIZE :=
    ⟨rfl, by simp only [List.length_singleton]; omega⟩
  rw [handleFTP_eq] at h
  by_cases hg : toInt32 ((s.millisDelay : Int) - now) > 0
  · rw [if_pos hg] at h
    simp only [Option.some.injEq, Prod.mk.injEq] at h
    obtain ⟨rfl, _⟩ := h
    exact ⟨hcwd, hlen⟩
  rw [if_neg hg, Option.map_eq_some'] at h
  obtain ⟨⟨t, fs1⟩, ht, h⟩ := h
  simp only [Prod.mk.injEq] at h
  obtain ⟨rfl, _⟩ := h
  rw [(handleTransfer_frame cfg now t).2]
  obtain ⟨_, a2, _⟩ := acceptClient_fields s
  rw [← a2] at hcwd hlen
  generalize acceptClient s = a at ht hcwd hlen
  unfold handleSession at ht
  by_cases h0 : a.cmdStatus = 0
  · rw [if_pos h0] at ht
    simp only [Option.some.injEq, Prod.mk.injEq] at ht
    obtain ⟨rfl, _⟩ := ht
    split
    · show (disconnectClient a).cwdName.head? = some '/'
        ∧ (disconnectClient a).cwdName.length < cfg.FTP_CWD_SIZE
      rw [(disconnectClient_frame a).1]
      exact ⟨hcwd, hlen⟩
    · exact ⟨hcwd, hlen⟩
  rw [if_neg h0] at ht
  by_cases h1 : a.cmdStatus = 1
  · rw [if_pos h1] at ht
    simp only [Option.some.injEq, Prod.mk.injEq] at ht
    obtain ⟨rfl, _⟩ := ht
    exact hroot
  rw [if_neg h1] at ht
  by_cases h2 : a.cmdStatus = 2
  · rw [if_pos h2] at ht
    split at ht
    · simp only [Option.some.injEq, Prod.mk.injEq] at ht
      obtain ⟨rfl, _⟩ := ht
      exact ⟨hcwd, hlen⟩
    · simp only [Option.some.injEq, Prod.mk.injEq] at ht
      obtain ⟨rfl, _⟩ := ht
      exact ⟨hcwd, hlen⟩
  rw [if_neg h2] at ht
  cases hr : readChar cfg.FTP_CMD_SIZE a with
  | none =>
    rw [hr] at ht
    exact Option.noConfusion ht
  | some r =>
    obtain ⟨_, l2, _⟩ := lineOnly_fields (readChar_lineOnly cfg.FTP_CMD_SIZE a r hr)
    rw [← l2] at hcwd hlen
    obtain ⟨rc, u⟩ := r
    rw [hr] at ht
    dsimp only at ht hcwd hlen
    split at ht
    · exact handleLine_form cfg F now u fs t fs1 hn hcwd hlen ht
    · split at ht
      · simp only [Option.some.injEq, Prod.mk.injEq] at ht
        obtain ⟨rfl, _⟩ := ht
        exact ⟨hcwd, hlen⟩
      · simp only [Option.some.injEq, Prod.mk.injEq] at ht
        obtain ⟨rfl, _⟩ := ht
        exact ⟨hcwd, hlen⟩

/-- The form of the working directory on the runs that have a defined
result.  Let `FTP_CWD_SIZE` be at least 2 (so that `/` fits).  In every state
reached from `iniVariables` by calls of `userIdentity`, by commands (`CWD`,
`CDUP` and every other verb, with any argument and any filesystem) and by
ticks of `handleFTP`, each of which returns, the working directory `cwdName` is not empty, begins with
a slash and is shorter than `FTP_CWD_SIZE`; and every path that `makePath`
builds in such a state, so also every relative path resolved against the
working directory, begins with a slash. -/
theorem cwdName_form {σ : Type} (cfg : Config) (F : FS σ) (s : FtpServer)
    (hn : 2 ≤ cfg.FTP_CWD_SIZE) (hs : CwdRun cfg F s) :
    s.cwdName ≠ [] ∧ s.cwdName.head? = some '/' ∧ s.cwdName.length < cfg.FTP_CWD_SIZE
      ∧ (∀ (m : Nat) (p : Option (List Char)) (b : Bool) (path : List Char) (t : FtpServer),
          makePath cfg.FTP_CWD_SIZE m s p = some (b, path, t) → path.head? = some '/')
      ∧ (∀ arg : List Char, (resolvePath s.cwdName arg).head? = some '/') := by
  have key : s.cwdName.head? = some '/' ∧ s.cwdName.length < cfg.FTP_CWD_SIZE := by
    induction hs with
    | start s => exact ⟨rfl, by show (1 : Nat) < cfg.FTP_CWD_SIZE; omega⟩
    | other s t _ he ih =>
      rw [he]
      exact ih
    | user now s b t _ hu ih => exact userIdentity_form now s b t _ hn ih.1 ih.2 hu
    | command now s fs b t fs' _ hc ih =>
      exact processCommand_form cfg F now s fs b t fs' hn ih.1 ih.2 hc
    | tick now s fs t fs' _ ht ih => exact handleFTP_form cfg F now s fs t fs' hn ih.1 ih.2 ht
  refine ⟨?_, key.1, key.2, ?_, ?_⟩
  · intro h
    rw [h] at key
    exact absurd key.1 (by simp)
  · intro m p b path t hm
    exact (makePath_path _ _ _ _ _ _ _ hn key.1 hm).1
  · intro arg
    by_cases ha : arg = [] ∨ arg = [('/' : Char)]
    · simp [resolvePath, ha]
    · rw [resolvePath_eq s.cwdName arg key.1 ha]
      have h1 := head?_candidatePath s.cwdName arg key.1
      have h2 := length_candidatePath s.cwdName arg key.1 ha
      split
      · rw [List.dropLast_eq_take, head?_take_pos _ _ (by omega)]
        exact h1
      · exact h1

set_option maxRecDepth 100000 in
/-- The state after `CWD /a/` in a filesystem where `/a` exists. -/
theorem cwdName_form_witness :
    ∃ t, processCommand defaultConfig listFS 1000
          (withLine (iniVariables defaultConfig (session 5 [])) "CWD".toList "/a/".toList)
          ["/a".toList] = some (true, t, ["/a".toList])
      ∧ t.cwdName = "/a".toList
      ∧ t.cwdName ≠ [] ∧ t.cwdName.head? = some '/' ∧ t.cwdName.length < 263 :=
  ⟨_, rfl, by decide,
    (cwdName_form defaultConfig listFS _ (by decide)
      (CwdRun.command 1000
        (withLine (iniVariables defaultConfig (session 5 [])) "CWD".toList "/a/".toList)
        ["/a".toList] true _ ["/a".toList]
        (CwdRun.other _ _ (CwdRun.start (session 5 [])) rfl) rfl)).1,
    (cwdName_form defaultConfig listFS _ (by decide)
      (CwdRun.command 1000
        (withLine (iniVariables defaultConfig (session 5 [])) "CWD".toList "/a/".toList)
        ["/a".toList] true _ ["/a".toList]
        (CwdRun.other _ _ (CwdRun.start (session 5 [])) rfl) rfl)).2.1,
    (cwdName_form defaultConfig listFS _ (by decide)
      (CwdRun.command 1000
        (withLine (iniVariables defaultConfig (session 5 [])) "CWD".toList "/a/".toList)
        ["/a".toList] true _ ["/a".toList]
        (CwdRun.other _ _ (CwdRun.start (session 5 [])) rfl) rfl)).2.2.1⟩

/-! ## C25: the stored source of a rename -/

set_option maxRecDepth 100000 in
/-- C25 does not hold.  In a filesystem that holds `/a` and `/b`,
`RNFR /a` is accepted (350): the flag is set and `buf` holds `/a`.
(1) `RNFR /zz` is then refused (550), the flag stays set and `buf` holds `/zz`;
the following `RNTO /c` calls `rename` with the source `/zz`.
(2) Instead, a retrieve step that reads the three bytes `/b`, NUL from its file
leaves the flag set and `buf` holding `/b`; the following `RNTO /c` renames
`/b`. -/
theorem rename_source_overwritten :
    ∃ t1, processCommand defaultConfig (recordRename listFS) 1000
          (withLine (session 5 []) "RNFR".toList "/a".toList)
          (["/a".toList, "/b".toList], [])
          = some (true, t1, (["/a".toList, "/b".toList], []))
      ∧ t1.rnfrCmd = true ∧ cstr t1.buf = "/a".toList
      ∧ t1.client.tx = ["350 RNFR accepted - file exists, ready for destination"]
      ∧ (∃ t2 t3, processCommand defaultConfig (recordRename listFS) 1001
              (withLine t1 "RNFR".toList "/zz".toList) (["/a".toList, "/b".toList], [])
              = some (true, t2, (["/a".toList, "/b".toList], []))
          ∧ t2.client.tx.getLast? = some "550 File /zz not found"
          ∧ t2.rnfrCmd = true ∧ cstr t2.buf = "/zz".toList
          ∧ processCommand defaultConfig (recordRename listFS) 1002
              (withLine t2 "RNTO".toList "/c".toList) (["/a".toList, "/b".toList], [])
              = some (true, t3,
                  (["/a".toList, "/b".toList], [("/zz".toList, "/c".toList)]))
          ∧ t3.client.tx.getLast? = some "451 Rename/move failure")
      ∧ (∃ t3, (handleTransfer defaultConfig 1001
              { t1 with transferStatus := 1
                        file := { isOpen := true, name := "/f".toList, size := 3,
                                  rd := "/b".toList ++ [NUL] }
                        data := { connected := true } }).rnfrCmd = true
          ∧ cstr (handleTransfer defaultConfig 1001
              { t1 with transferStatus := 1
                        file := { isOpen := true, name := "/f".toList, size := 3,
                                  rd := "/b".toList ++ [NUL] }
                        data := { connected := true } }).buf = "/b".toList
          ∧ processCommand defaultConfig (recordRename listFS) 1002
              (withLine (handleTransfer defaultConfig 1001
                { t1 with transferStatus := 1
                          file := { isOpen := true, name := "/f".toList, size := 3,
                                    rd := "/b".toList ++ [NUL] }
                          data := { connected := true } }) "RNTO".toList "/c".toList)
              (["/a".toList, "/b".toList], [])
              = some (true, t3,
                  (["/a".toList, "/c".toList], [("/b".toList, "/c".toList)]))
          ∧ t3.client.tx.getLast? = some "250 File successfully renamed or moved") :=
  ⟨_, rfl, by decide, by decide, by decide,
    ⟨_, _, rfl, by decide, by decide, by decide, rfl, by decide⟩,
    ⟨_, by decide, by decide, rfl, by decide⟩⟩

/-- Every outcome of the branch `RNFR`: it is accepted, with the flag set and
`buf` holding a path that exists, or it is refused, with the flag as it was
and `buf` emptied or holding the path just built. -/
theorem processRNFR_outcome {σ : Type} (cfg : Config) (F : FS σ) (s : FtpServer) (fs : σ)
    (t : FtpServer) (h : processRNFR cfg F s fs = some t) :
    (t.rnfrCmd = true ∧ F.exists_ fs (cstr t.buf) = true
        ∧ t.client.tx.getLast?
            = some "350 RNFR accepted - file exists, ready for destination")
      ∨ (t.rnfrCmd = s.rnfrCmd
          ∧ (t.buf = s.buf.set 0 NUL ∨ ∃ path, t.buf = writeStr (s.buf.set 0 NUL) path)) := by
  unfold processRNFR at h
  dsimp only at h
  split at h
  · exact Option.noConfusion h
  · split at h
    · simp only [Option.some.injEq] at h
      subst h
      exact Or.inr ⟨rfl, Or.inl rfl⟩
    · split at h
      · exact Option.noConfusion h
      · rename_i path s1 hm
        obtain ⟨c, rfl⟩ := makePath_clientOnly _ _ _ _ _ _ _ hm
        simp only [Option.some.injEq] at h
        subst h
        exact Or.inr ⟨rfl, Or.inr ⟨path, rfl⟩⟩
      · rename_i path s1 hm
        obtain ⟨c, rfl⟩ := makePath_clientOnly _ _ _ _ _ _ _ hm
        split at h
        · simp only [Option.some.injEq] at h
          subst h
          exact Or.inr ⟨rfl, Or.inr ⟨path, rfl⟩⟩
        · rename_i hex
          simp only [Option.some.injEq] at h
          subst h
          refine Or.inl ⟨rfl, ?_, ?_⟩
          · simpa using hex
          · simp [FtpServer.reply, WiFiClient.println]

theorem closeTransfer_buf (now : Nat) (s : FtpServer) : (closeTransfer now s).buf = s.buf := by
  unfold closeTransfer
  dsimp only
  split <;> rfl

/-- What a transfer step leaves in `buf`: the bytes it has read, over the head
of what `buf` held. -/
theorem transfer_step_buf (cfg : Config) (now : Nat) (s : FtpServer) :
    (doRetrieve cfg now s).2.buf
        = (if s.data.connected = true then
            writeBytes s.buf (if s.file.isOpen = true then s.file.rd.take cfg.FTP_BUF_SIZE
              else [])
          else s.buf)
      ∧ (doStore cfg now s).2.buf
          = (if s.data.connected = true then writeBytes s.buf (s.data.rx.take cfg.FTP_BUF_SIZE)
             else s.buf) := by
  refine ⟨?_, ?_⟩
  · unfold doRetrieve
    dsimp only
    by_cases hc : s.data.connected = true
    · rw [if_pos hc, if_pos hc]
      generalize (if s.file.isOpen = true then s.file.rd.take cfg.FTP_BUF_SIZE else []) = bytes
      split
      · rfl
      · rw [closeTransfer_buf]
    · rw [if_neg hc, if_neg hc, closeTransfer_buf]
  · unfold doStore
    dsimp only
    by_cases hc : s.data.connected = true
    · rw [if_pos hc, if_pos hc]
      generalize s.data.rx.take cfg.FTP_BUF_SIZE = bytes
      split <;> rfl
    · rw [if_neg hc, if_neg hc, closeTransfer_buf]

/-- What the commands and the transfer steps do to `buf`.  An `RNFR` whose
resolved path fits and exists is accepted with the reply 350: the flag
`rnfrCmd` is set and `buf` holds that resolved path.  A command other than `RNFR` leaves `buf` as it is (and the flag as it
is, or false).  While the flag stays set, `buf` is changed by an `RNFR` that is
refused, which leaves the flag as it was and `buf` emptied (501) or holding the
path it has just built (550, 500), and by every transfer step made on a
connected data socket, which writes the bytes it has read over the head of
`buf`. -/
theorem rename_source {σ : Type} (cfg : Config) (F : FS σ) (now : Nat) (s : FtpServer)
    (fs : σ) :
    (∀ arg : List Char, s.command = "RNFR".toList → s.params = some arg → arg ≠ [] →
        s.cwdName.head? = some '/' → NUL ∉ s.cwdName →
        s.cwdName.length + arg.length < 65536 →
        (resolvePath s.cwdName arg).length < cfg.FTP_CWD_SIZE →
        pathBytes s.cwdName arg ≤ cfg.FTP_BUF_SIZE →
        F.exists_ fs (resolvePath s.cwdName arg) = true →
        ∃ t, processCommand cfg F now s fs = some (true, t, fs)
          ∧ t.rnfrCmd = true ∧ cstr t.buf = resolvePath s.cwdName arg
          ∧ t.client.tx = s.client.tx
              ++ ["350 RNFR accepted - file exists, ready for destination"])
      ∧ (∀ b t fs', s.command = "RNFR".toList →
          processCommand cfg F now s fs = some (b, t, fs') →
          (t.rnfrCmd = true ∧ F.exists_ fs (cstr t.buf) = true
              ∧ t.client.tx.getLast?
                  = some "350 RNFR accepted - file exists, ready for destination")
            ∨ (t.rnfrCmd = s.rnfrCmd
                ∧ (t.buf = s.buf.set 0 NUL
                    ∨ ∃ path, t.buf = writeStr (s.buf.set 0 NUL) path)))
      ∧ (∀ b t fs', s.command ≠ "RNFR".toList →
          processCommand cfg F now s fs = some (b, t, fs') →
          t.buf = s.buf ∧ (t.rnfrCmd = s.rnfrCmd ∨ t.rnfrCmd = false))
      ∧ ((doRetrieve cfg now s).2.rnfrCmd = s.rnfrCmd
          ∧ (doRetrieve cfg now s).2.buf
              = (if s.data.connected = true then
                  writeBytes s.buf (if s.file.isOpen = true then
                    s.file.rd.take cfg.FTP_BUF_SIZE else [])
                else s.buf))
      ∧ ((doStore cfg now s).2.rnfrCmd = s.rnfrCmd
          ∧ (doStore cfg now s).2.buf
              = (if s.data.connected = true then
                  writeBytes s.buf (s.data.rx.take cfg.FTP_BUF_SIZE)
                else s.buf))
      ∧ (s.transferStatus = 0 → (handleTransfer cfg now s).buf = s.buf
          ∧ (handleTransfer cfg now s).rnfrCmd = s.rnfrCmd) := by
  refine ⟨?_, ?_, ?_, ⟨(doRetrieve_frame cfg now s).1, (transfer_step_buf cfg now s).1⟩,
    ⟨(doStore_frame cfg now s).1, (transfer_step_buf cfg now s).2⟩, ?_⟩
  · intro arg hcmd hpar harg hcwd hnul hlen hfit hcap hex
    refine ⟨{ { s with buf := writeStr (s.buf.set 0 NUL) (resolvePath s.cwdName arg) }.reply
                "350 RNFR accepted - file exists, ready for destination" with
              rnfrCmd := true }, ?_, rfl, ?_, rfl⟩
    · rw [processCommand_RNFR_eq _ _ _ _ _ hcmd,
        processRNFR_accepts cfg F s fs arg hpar harg hcwd hnul hlen hfit hcap hex]
      rfl
    · exact cstr_writeStr _ _ (no_nul_resolvePath s.cwdName arg hnul (no_nul_params s arg hpar))
  · intro b t fs' hcmd h
    rw [processCommand_RNFR_eq _ _ _ _ _ hcmd, Option.bind_eq_some] at h
    obtain ⟨u, hu, h⟩ := h
    simp only [Option.some.injEq, Prod.mk.injEq] at h
    obtain ⟨_, rfl, _⟩ := h
    exact processRNFR_outcome cfg F s fs u hu
  · intro b t fs' hcmd h
    obtain ⟨_, h2, _, h4, _⟩ := processCommand_frame cfg F now s fs b t fs' h
    exact ⟨h4 hcmd, h2 hcmd⟩
  · intro h0
    exact ⟨(handleTransfer_idle cfg now s h0).2.2.1, (handleTransfer_frame cfg now s).1⟩

set_option maxRecDepth 100000 in
/-- The command `RNFR /a` where `/a` exists. -/
theorem rename_source_witness :
    ∃ t, processCommand defaultConfig listFS 1000
          (withLine (session 5 []) "RNFR".toList "/a".toList) ["/a".toList]
          = some (true, t, ["/a".toList])
      ∧ t.rnfrCmd = true ∧ cstr t.buf = "/a".toList
      ∧ t.client.tx = ["350 RNFR accepted - file exists, ready for destination"] :=
  (rename_source defaultConfig listFS 1000
    (withLine (session 5 []) "RNFR".toList "/a".toList) ["/a".toList]).1 "/a".toList
    rfl (by decide) (by decide) (by decide) (by decide) (by decide) (by decide) (by decide)
    (by decide)

/-! ## C22: the lines of `LIST` -/

set_option maxRecDepth 100000 in
/-- C22 does not hold: the directory holds one file whose name has 43 letters.
Its line has 80 characters, which with the terminator is one byte more than
`char buffer[80]` holds: `sprintf` writes past the buffer and the run has no
defined result, in the variant for the ESP32 and in the one for the ESP8266.
With a name of 42 letters the variant for the ESP8266 prints the line; the
variant for the ESP32, which hands the `String` object `fname` to `%s`, has no
defined result for that name either. -/
theorem processLIST_long_name_overflows :
    (listLine { name := List.replicate 43 'a', size := 1 }).length = 80
      ∧ processCommand defaultConfig entriesFS 1000
          (withVerb { session 5 [] with data := { connected := true } } "LIST".toList)
          [{ name := List.replicate 43 'a', size := 1 }] = none
      ∧ processCommand { defaultConfig with ESP32 := false } entriesFS 1000
          (withVerb { session 5 [] with data := { connected := true } } "LIST".toList)
          [{ name := List.replicate 43 'a', size := 1 }] = none
      ∧ (processCommand { defaultConfig with ESP32 := false } entriesFS 1000
          (withVerb { session 5 [] with data := { connected := true } } "LIST".toList)
          [{ name := List.replicate 42 'a', size := 1 }]).map
            (fun r => (r.2.1.data.tx.map String.length, r.2.1.client.tx))
          = some ([79], ["150 Accepted data connection", "226 1 matches total"])
      ∧ processCommand defaultConfig entriesFS 1000
          (withVerb { session 5 [] with data := { connected := true } } "LIST".toList)
          [{ name := List.replicate 42 'a', size := 1 }] = none :=
  ⟨by decide, rfl, rfl, by decide, rfl⟩

/-- The name without its directory components holds no slash, and it is the
whole name or what follows a slash in it. -/
theorem baseName_spec (t : List Char) :
    '/' ∉ baseName t ∧ (baseName t = t ∨ ∃ pre, t = pre ++ '/' :: baseName t) := by
  induction t with
  | nil => exact ⟨by simp [baseName, strrchr], Or.inl rfl⟩
  | cons x xs ih =>
    cases hs : strrchr xs '/' with
    | some k =>
      have hb : baseName (x :: xs) = baseName xs := by
        simp [baseName, strrchr, hs]
      have hmem : '/' ∈ xs := by
        by_contra hn
        rw [(strrchr_eq_none xs '/').mpr hn] at hs
        exact Option.noConfusion hs
      rw [hb]
      refine ⟨ih.1, Or.inr ?_⟩
      rcases ih.2 with h | ⟨pre, h⟩
      · rw [h] at ih
        exact absurd hmem ih.1
      · exact ⟨x :: pre, by rw [List.cons_append, ← h]⟩
    | none =>
      have hn : '/' ∉ xs := (strrchr_eq_none xs '/').mp hs
      by_cases hx : x = '/'
      · have hb : baseName (x :: xs) = xs := by
          simp [baseName, strrchr, hs, hx]
        rw [hb]
        exact ⟨hn, Or.inr ⟨[], by simp [hx]⟩⟩
      · have hb : baseName (x :: xs) = x :: xs := by
          simp [baseName, strrchr, hs, hx]
        rw [hb]
        refine ⟨?_, Or.inl rfl⟩
        intro h
        rcases List.mem_cons.mp h with h | h
        · exact hx h.symm
        · exact hn h

/-- The loop of `fillSpaces` for a text that fits the field. -/
theorem fillSpaces_eq (w : Nat) (t : String) (hw : w ≤ 255) (h : t.length ≤ w) :
    fillSpaces w t = rightJustify w t ∧ (rightJustify w t).length = w := by
  have h1 : toUInt32 ((w : Int) - t.length) = w - t.length := by
    unfold toUInt32
    omega
  refine ⟨?_, ?_⟩
  · unfold fillSpaces rightJustify
    rw [h1]
  · unfold rightJustify
    simp only [String.length_append, String.length_mk, List.length_replicate]
    omega

theorem listLine_eq (e : DirEntry) :
    listLine e
      = if e.isDirectory = true then
          listStamp e ++ "    <DIR>           " ++ str (baseName e.name)
        else
          listStamp e ++ "    " ++ fillSpaces 14 (decimal e.size) ++ "  "
            ++ str (baseName e.name) := rfl

theorem printList_fits (es : List DirEntry) (hfit : ∀ e ∈ es, (listLine e).length < 80) :
    ∀ d : WiFiClient, printList true d es = some { d with tx := d.tx ++ es.map listLine } := by
  induction es with
  | nil =>
    intro d
    simp [printList]
  | cons e es ih =>
    intro d
    have h1 : (listLine e).length < 80 := hfit e (by simp)
    have h2 : ∀ x ∈ es, (listLine x).length < 80 := fun x hx => hfit x (by simp [hx])
    unfold printList
    simp only [sprintf80, h1, and_self, if_true]
    rw [ih h2]
    simp [WiFiClient.println]

theorem printList_overflow (es : List DirEntry) (e : DirEntry) (he : e ∈ es)
    (hlen : 80 ≤ (listLine e).length) (c : Bool) :
    ∀ d : WiFiClient, printList c d es = none := by
  induction es with
  | nil => simp at he
  | cons x es ih =>
    intro d
    unfold printList
    cases hs : sprintf80 c (listLine x) with
    | none => rfl
    | some line =>
      rcases List.mem_cons.mp he with h | h
      · rw [← h] at hs
        unfold sprintf80 at hs
        rw [if_neg (fun hc => absurd hc.2 (by omega))] at hs
        exact Option.noConfusion hs
      · exact ih h _

/-- In the variant for the ESP32 the loop has no defined result as soon as the
directory holds an entry. -/
theorem printList_string_object (e : DirEntry) (es : List DirEntry) (d : WiFiClient) :
    printList false d (e :: es) = none := by
  unfold printList
  simp [sprintf80]

theorem length_fillSpaces (w : Nat) (t : String) :
    (fillSpaces w t).length = toUInt32 ((w : Int) - t.length) + t.length := by
  unfold fillSpaces
  simp only [String.length_append, String.length_mk, List.length_replicate]

theorem listLine_size_fits (e : DirEntry) (hfile : e.isDirectory = false)
    (hfit : (listLine e).length < 80) : (decimal e.size).length ≤ 14 := by
  rw [listLine_eq, hfile] at hfit
  simp only [Bool.false_eq_true, if_false, String.length_append, length_fillSpaces] at hfit
  unfold toUInt32 at hfit
  omega

/-- The branch `LIST` of the variant for the ESP8266 on a directory whose lines
fit the buffer: with a data connection, a directory of fewer than 65536
entries and lines shorter than 80 characters, one line for each entry goes to
the data socket in the order of the iteration, the data socket is closed, and
the control socket gets
`150 Accepted data connection` and `226 n matches total`.  Each line is the
date and time followed by `<DIR>` for a directory, or by the size in decimal
right-justified in 14 characters for a file, and by the name without its
directory components. -/
theorem processLIST_prints {σ : Type} (cfg : Config) (F : FS σ) (s : FtpServer) (fs : σ)
    (hconn : (dataConnect s).1 = true) (hesp : cfg.ESP32 = false)
    (hfit : ∀ e ∈ F.entries fs s.cwdName, (listLine e).length < 80)
    (hn : (F.entries fs s.cwdName).length < 65536) :
    ∃ t, processLIST cfg F s fs = some t
      ∧ t.data.tx = (dataConnect s).2.data.tx ++ (F.entries fs s.cwdName).map listLine
      ∧ t.data.connected = false
      ∧ t.client.tx = s.client.tx ++ ["150 Accepted data connection",
          "226 " ++ decimal (F.entries fs s.cwdName).length ++ " matches total"]
      ∧ ∀ e ∈ F.entries fs s.cwdName,
          listLine e
            = (if e.isDirectory = true then
                listStamp e ++ "    <DIR>           " ++ str (baseName e.name)
              else
                listStamp e ++ "    " ++ rightJustify 14 (decimal e.size) ++ "  "
                  ++ str (baseName e.name))
          ∧ (e.isDirectory = false → (rightJustify 14 (decimal e.size)).length = 14)
          ∧ '/' ∉ baseName e.name
          ∧ (baseName e.name = e.name ∨ ∃ pre, e.name = pre ++ '/' :: baseName e.name) := by
  obtain ⟨d, ds, hd⟩ := dataConnect_snd s
  have hdc : dataConnect s = (true, { s with data := d, dataServer := ds }) := by
    rw [← hd, ← hconn]
  have hmod : (F.entries fs s.cwdName).length % 65536 = (F.entries fs s.cwdName).length :=
    Nat.mod_eq_of_lt hn
  have hlines : ∀ e ∈ F.entries fs s.cwdName,
      listLine e
        = (if e.isDirectory = true then
            listStamp e ++ "    <DIR>           " ++ str (baseName e.name)
          else
            listStamp e ++ "    " ++ rightJustify 14 (decimal e.size) ++ "  "
              ++ str (baseName e.name))
      ∧ (e.isDirectory = false → (rightJustify 14 (decimal e.size)).length = 14)
      ∧ '/' ∉ baseName e.name
      ∧ (baseName e.name = e.name ∨ ∃ pre, e.name = pre ++ '/' :: baseName e.name) := by
    intro e he
    refine ⟨?_, ?_, (baseName_spec e.name).1, (baseName_spec e.name).2⟩
    · rw [listLine_eq]
      by_cases hd : e.isDirectory = true
      · rw [if_pos hd, if_pos hd]
      · rw [if_neg hd, if_neg hd]
        have hf : e.isDirectory = false := by simpa using hd
        rw [(fillSpaces_eq 14 (decimal e.size) (by decide)
          (listLine_size_fits e hf (hfit e he))).1]
    · intro hf
      exact (fillSpaces_eq 14 (decimal e.size) (by decide)
        (listLine_size_fits e hf (hfit e he))).2
  have hp := printList_fits (F.entries fs s.cwdName) hfit d
  rw [hd]
  unfold processLIST
  rw [hdc]
  dsimp only [FtpServer.reply]
  simp only [hesp, hp, Bool.false_eq_true, if_false, Option.map_some', matchesTotal, hmod,
    WiFiClient.println, WiFiClient.stop, FtpServer.reply]
  exact ⟨_, rfl, rfl, rfl, by simp, hlines⟩

theorem processLIST_prints_witness :
    ∃ t, processLIST { defaultConfig with ESP32 := false } entriesFS
          { session 5 [] with data := { connected := true } }
          [{ name := "/a.txt".toList, size := 100 },
           { name := "/sub".toList, isDirectory := true }] = some t
      ∧ t.data.tx = ["1970-01-01  00:00               100  a.txt",
                     "1970-01-01  00:00    <DIR>           sub"]
      ∧ t.client.tx = ["150 Accepted data connection", "226 2 matches total"] := by
  obtain ⟨t, h, h1, -, h2, -⟩ := processLIST_prints { defaultConfig with ESP32 := false }
    entriesFS { session 5 [] with data := { connected := true } }
    [{ name := "/a.txt".toList, size := 100 }, { name := "/sub".toList, isDirectory := true }]
    rfl rfl (by decide) (by decide)
  refine ⟨t, h, ?_, ?_⟩
  · rw [h1]
    decide
  · rw [h2]
    decide

end ESPFtpServer
